import Mathlib

/-!
# Verification of the Surf client-side UI micro-framework core

Shallow embedding of the framework core (Cell state store, Signal expression
engine, Echo preservation coordinator, Pulse request orchestrator, Patch
wire protocol) and proofs of the specified properties.

Modelling conventions:
* JavaScript values are modelled by `JsVal`; numbers are modelled as integers
  (all specified behaviour is integral), `NaN` is a separate constructor.
* JavaScript objects are association lists with unique keys in insertion
  order; `o[k] = v` keeps the position of an existing key and appends a new
  one, mirroring JS property-order semantics.
* DOM elements are records of attributes; the `WeakMap` keyed by element
  identity becomes a finite map keyed by an abstract element key.
* `console.warn` calls and event-bus emissions are modelled by accumulating
  values in the store, so diagnostics are observable in theorems.
-/

/-- A JavaScript value. Numbers are modelled as integers (all behaviour the
framework specifies is integral; a decimal literal with a non-zero
fractional part is outside the number model); `NaN` is explicit. -/
inductive JsVal where
  | undef
  | null
  | nan
  | bool (b : Bool)
  | num (n : Int)
  | str (s : String)
  | obj (fields : List (String × JsVal))
  | arr (elems : List JsVal)
deriving Repr

/-- A JavaScript object: association list, unique keys, insertion order. -/
abbrev JsObj := List (String × JsVal)

namespace JsVal

/-- Property lookup `o[k]` on an object's field list (first match). -/
def lookupField (fields : JsObj) (k : String) : Option JsVal :=
  match fields with
  | [] => none
  | (k', v) :: rest => if k' = k then some v else lookupField rest k

/-- The `k in o` test. -/
def hasKey (fields : JsObj) (k : String) : Bool :=
  (lookupField fields k).isSome

/-- Property write `o[k] = v`: update in place if the key exists, else append
(JS property-order semantics). -/
def setField (fields : JsObj) (k : String) (v : JsVal) : JsObj :=
  match fields with
  | [] => [(k, v)]
  | (k', v') :: rest =>
      if k' = k then (k', v) :: rest else (k', v') :: setField rest k v

/-- Spread merge `\x7b...a, ...b\x7d`: keys of `a` in order (taking `b`'s value on a
collision), then the keys of `b` not present in `a`. -/
def spread (a b : JsObj) : JsObj :=
  (a.map (fun kv => (kv.1, (lookupField b kv.1).getD kv.2)))
    ++ b.filter (fun kv => ¬ hasKey a kv.1)

/-- `Object.keys(o)`. -/
def keysOf (fields : JsObj) : List String := fields.map Prod.fst

/-- JS truthiness. -/
def truthy : JsVal → Bool
  | undef => false
  | null => false
  | nan => false
  | bool b => b
  | num n => n ≠ 0
  | str s => s ≠ ""
  | obj _ => true
  | arr _ => true

/-- `typeof v === 'object'` (true for objects, arrays and null). -/
def typeofIsObject : JsVal → Bool
  | obj _ => true
  | arr _ => true
  | null => true
  | _ => false

end JsVal

set_option linter.unusedVariables false

/-! ## Cell module (src/cell.js)

The state store. `cellStates` (a WeakMap keyed by element identity) becomes a
finite map keyed by an abstract element key `K`; `cellIdStates` (a Map keyed
by the identity key string) is an association list. The attributes of the
element behind a key are supplied by the ambient function `attrsOf`; the
dynamic `new Function`-based seed evaluation is supplied as the ambient
function `parseSeed` (its internals build and run JS source text, which has
no shallow embedding; every theorem below holds for all `parseSeed`). -/

namespace Cell

/-- Events emitted by the Cell module (via events.js `Events.emit`),
recorded in emission order. -/
inductive CellEvent (K : Type) where
  | init (element : K) (state : JsObj) (cellId : Option String)
  | change (element : K) (state : JsObj) (cellId : Option String)
  | warnMissingId (element : K)
deriving Repr

/-- Diagnostics written with `console.warn`, recorded in order. -/
inductive CellWarn (K : Type) where
  | notACell (element : K)
  | missingId (element : K)
deriving Repr

/-- The mutable state owned by the Cell module: the element-identity store
(`cellStates` WeakMap), the identity-key store (`cellIdStates` Map), plus the
observation log of emitted events and warnings. -/
structure Store (K : Type) where
  cellStates : List (K × JsObj) := []
  cellIdStates : List (String × JsObj) := []
  events : List (CellEvent K) := []
  warns : List (CellWarn K) := []

variable {K : Type} [DecidableEq K]

/-- Lookup in a finite map keyed by element keys. -/
def mapLookup (m : List (K × JsObj)) (k : K) : Option JsObj :=
  match m with
  | [] => none
  | (k', v) :: rest => if k' = k then some v else mapLookup rest k

/-- Write to a finite map keyed by element keys (`Map.set` / `WeakMap.set`). -/
def mapSet (m : List (K × JsObj)) (k : K) (v : JsObj) : List (K × JsObj) :=
  match m with
  | [] => [(k, v)]
  | (k', v') :: rest => if k' = k then (k', v) :: rest else (k', v') :: mapSet rest k v

/-- Lookup in the identity-key store. -/
def idLookup (m : List (String × JsObj)) (k : String) : Option JsObj :=
  match m with
  | [] => none
  | (k', v) :: rest => if k' = k then some v else idLookup rest k

/-- Write to the identity-key store. -/
def idSet (m : List (String × JsObj)) (k : String) (v : JsObj) : List (String × JsObj) :=
  match m with
  | [] => [(k, v)]
  | (k', v') :: rest => if k' = k then (k', v) :: rest else (k', v') :: idSet rest k v

/-- `element.getAttribute(name)`: `none` models the JS `null` for an absent
attribute. -/
def getAttribute (attrs : List (String × String)) (name : String) : Option String :=
  match attrs with
  | [] => none
  | (n, v) :: rest => if n = name then some v else getAttribute rest name

/-- `element.hasAttribute(name)`. -/
def hasAttribute (attrs : List (String × String)) (name : String) : Bool :=
  (getAttribute attrs name).isSome

/-- `element.id`: the reflected `id` attribute, `""` when absent. -/
def elemIdProp (attrs : List (String × String)) : String :=
  (getAttribute attrs "id").getD ""

variable (attrsOf : K → List (String × String))

/-- cell.js `getCellId(element)`:
`element.getAttribute('d-id') || element.id || null`.
An absent attribute yields `null` and an empty string is falsy, so a
present non-empty `d-id` wins, else a non-empty `id`, else `null`. -/
def getCellId (element : K) : Option String :=
  let did := (getAttribute (attrsOf element) "d-id").getD ""
  if did ≠ "" then some did
  else
    let i := elemIdProp (attrsOf element)
    if i ≠ "" then some i else none

variable (parseSeed : String → JsObj)

/-- cell.js `init(element)`: reuse preserved state from the identity-key
store when the element has an identity key and an entry exists; otherwise
parse the seed, store by element identity and (when present) identity key,
and emit `cell:init`. A non-cell element warns and returns `\x7b\x7d`. -/
def init (st : Store K) (element : K) : JsObj × Store K :=
  if ¬ hasAttribute (attrsOf element) "d-cell" then
    ([], { st with warns := st.warns ++ [.notACell element] })
  else
    let cellId := getCellId attrsOf element
    match cellId with
    | some cid =>
        match idLookup st.cellIdStates cid with
        | some preservedState =>
            (preservedState,
              { st with cellStates := mapSet st.cellStates element preservedState })
        | none =>
            let cellExpr := (getAttribute (attrsOf element) "d-cell")
            let state := parseSeed (if cellExpr = some "" ∨ cellExpr = none then "\x7b\x7d" else cellExpr.getD "")
            (state,
              { st with
                  cellStates := mapSet st.cellStates element state
                  cellIdStates := idSet st.cellIdStates cid state
                  events := st.events ++ [.init element state (some cid)] })
    | none =>
        let cellExpr := (getAttribute (attrsOf element) "d-cell")
        let state := parseSeed (if cellExpr = some "" ∨ cellExpr = none then "\x7b\x7d" else cellExpr.getD "")
        (state,
          { st with
              cellStates := mapSet st.cellStates element state
              events := st.events ++ [.init element state none] })

/-- cell.js `getState(element)`: current state, auto-initializing when the
element was never initialized. -/
def getState (st : Store K) (element : K) : JsObj × Store K :=
  match mapLookup st.cellStates element with
  | some s => (s, st)
  | none => init attrsOf parseSeed st element

/-- cell.js `setState(element, newState)`: shallow spread-merge of the
partial update over the current state, written to the element-identity store
and (when an identity key exists) the identity-key store; emits
`cell:change`. -/
def setState (st : Store K) (element : K) (newState : JsObj) : JsObj × Store K :=
  let r := getState attrsOf parseSeed st element
  let updatedState := JsVal.spread r.1 newState
  let st1 := { r.2 with cellStates := mapSet r.2.cellStates element updatedState }
  match getCellId attrsOf element with
  | some cid =>
      (updatedState,
        { st1 with
            cellIdStates := idSet st1.cellIdStates cid updatedState
            events := st1.events ++ [.change element updatedState (some cid)] })
  | none =>
      (updatedState, { st1 with events := st1.events ++ [.change element updatedState none] })

/-- cell.js `snapshot(container)`: for the cell elements found under the
container (supplied in document order, as `findAll` would return them), a map
from identity key to a copy of the current state; cells without an identity
key are omitted. -/
def snapshot (st : Store K) (cells : List K) : List (String × JsObj) × Store K :=
  cells.foldl
    (fun (acc : List (String × JsObj) × Store K) cell =>
      match getCellId attrsOf cell with
      | some cid =>
          let (s, st') := getState attrsOf parseSeed acc.2 cell
          (idSet acc.1 cid s, st')
      | none => acc)
    ([], st)

/-- cell.js `restore(snap)`: writes every snapshot entry into the
identity-key store. -/
def restore (st : Store K) (snap : List (String × JsObj)) : Store K :=
  snap.foldl (fun st kv => { st with cellIdStates := idSet st.cellIdStates kv.1 kv.2 }) st

/-- cell.js `initAll(container)`: warn on cells lacking both `d-id` and `id`,
then initialize each cell found under the container. -/
def initAll (st : Store K) (cells : List K) : Store K :=
  cells.foldl
    (fun st cell =>
      let st :=
        if (getAttribute (attrsOf cell) "d-id" = none ∨ getAttribute (attrsOf cell) "d-id" = some "")
            ∧ elemIdProp (attrsOf cell) = "" then
          { st with warns := st.warns ++ [.missingId cell],
                    events := st.events ++ [.warnMissingId cell] }
        else st
      (init attrsOf parseSeed st cell).2)
    st

end Cell

/-! ## Store lemmas -/

namespace Cell

variable {K : Type} [DecidableEq K]

theorem idLookup_idSet_self (m : List (String × JsObj)) (k : String) (v : JsObj) :
    idLookup (idSet m k v) k = some v := by
  induction m with
  | nil => simp [idSet, idLookup]
  | cons kv rest ih =>
      by_cases h : kv.1 = k
      · simp [idSet, idLookup, h]
      · simp [idSet, idLookup, h, ih]

theorem mapLookup_mapSet_self (m : List (K × JsObj)) (k : K) (v : JsObj) :
    mapLookup (mapSet m k v) k = some v := by
  induction m with
  | nil => simp [mapSet, mapLookup]
  | cons kv rest ih =>
      by_cases h : kv.1 = k
      · simp [mapSet, mapLookup, h]
      · simp [mapSet, mapLookup, h, ih]

variable (attrsOf : K → List (String × String)) (parseSeed : String → JsObj)

/-- After `setState`, the identity-key store holds the merged state under the
element's identity key. -/
theorem setState_cellIdStates (st : Store K) (el : K) (ns : JsObj) (k : String)
    (hid : getCellId attrsOf el = some k) :
    idLookup (setState attrsOf parseSeed st el ns).2.cellIdStates k
      = some (setState attrsOf parseSeed st el ns).1 := by
  unfold setState
  rw [hid]
  simp [idLookup_idSet_self]

/-- After `setState`, the element-identity store holds the merged state. -/
theorem setState_cellStates (st : Store K) (el : K) (ns : JsObj) :
    mapLookup (setState attrsOf parseSeed st el ns).2.cellStates el
      = some (setState attrsOf parseSeed st el ns).1 := by
  unfold setState
  cases h : getCellId attrsOf el <;> simp [h, mapLookup_mapSet_self]

/-- `init` on an element whose identity key has a preserved entry returns
exactly that entry. -/
theorem init_preserved (st : Store K) (el : K) (k : String) (s : JsObj)
    (hcell : hasAttribute (attrsOf el) "d-cell" = true)
    (hid : getCellId attrsOf el = some k)
    (hpre : idLookup st.cellIdStates k = some s) :
    (init attrsOf parseSeed st el).1 = s := by
  unfold init
  rw [hid]
  simp [hcell, hpre]

end Cell

/-- **C1.** Echo preservation law: for every Cell element carrying an
identity key, after its state is mutated via `setState`, the element is
destroyed and recreated with the same identity key (the recreated element
`el'` may carry any seed expression), and the Cell is re-initialized via
`init`, the returned state is the mutated state produced by `setState`, not
the state parsed from the seed. -/
theorem echo_preservation_law {K : Type} [DecidableEq K]
    (attrsOf : K → List (String × String)) (parseSeed : String → JsObj)
    (st : Cell.Store K) (el el' : K) (newState : JsObj) (k : String)
    (hcell : Cell.hasAttribute (attrsOf el) "d-cell" = true)
    (hcell' : Cell.hasAttribute (attrsOf el') "d-cell" = true)
    (hid : Cell.getCellId attrsOf el = some k)
    (hid' : Cell.getCellId attrsOf el' = some k) :
    (Cell.init attrsOf parseSeed
        (Cell.setState attrsOf parseSeed st el newState).2 el').1
      = (Cell.setState attrsOf parseSeed st el newState).1 := by
  exact Cell.init_preserved attrsOf parseSeed _ el' k _ hcell' hid'
    (Cell.setState_cellIdStates attrsOf parseSeed st el newState k hid)

/-- Attribute table of the mutated cell used in the C1 witness. -/
def c1AttrsOf : Nat → List (String × String)
  | 0 => [("d-cell", "count: 0"), ("d-id", "counter")]
  | _ => [("d-cell", "count: 99"), ("d-id", "counter")]

/-- Seed evaluator used in concrete witnesses (`new Function` modelled as a
parameter; this instance parses nothing and returns the empty state). -/
def emptySeed : String → JsObj := fun _ => []

/-- Witness for C1 at a concrete input: element 0 (seed `count: 0`, key
`counter`) is mutated to `count = 5`, element 1 (same key, different seed
`count: 99`) re-initializes to the mutated state. -/
theorem echo_preservation_law_witness :
    Cell.hasAttribute (c1AttrsOf 0) "d-cell" = true
    ∧ Cell.hasAttribute (c1AttrsOf 1) "d-cell" = true
    ∧ Cell.getCellId c1AttrsOf 0 = some "counter"
    ∧ Cell.getCellId c1AttrsOf 1 = some "counter"
    ∧ (Cell.init c1AttrsOf emptySeed
        (Cell.setState c1AttrsOf emptySeed {} 0 [("count", JsVal.num 5)]).2 1).1
      = (Cell.setState c1AttrsOf emptySeed {} 0 [("count", JsVal.num 5)]).1 :=
  ⟨rfl, rfl, rfl, rfl,
    echo_preservation_law c1AttrsOf emptySeed {} 0 1 [("count", JsVal.num 5)] "counter"
      rfl rfl rfl rfl⟩

/-- **C10.** Implicit identity-key fallback: the identity key of an element
is its non-empty `d-id` attribute when present, else its non-empty standard
`id` attribute, else none; hence an element carrying only a plain HTML `id`
participates in cross-replacement preservation exactly as if it carried
`d-id`, and two elements sharing that id share one preserved state entry. -/
theorem identity_key_fallback {K : Type} [DecidableEq K]
    (attrsOf : K → List (String × String)) (parseSeed : String → JsObj) :
    (∀ el s, Cell.getAttribute (attrsOf el) "d-id" = some s → s ≠ "" →
        Cell.getCellId attrsOf el = some s)
    ∧ (∀ el i,
        (Cell.getAttribute (attrsOf el) "d-id" = none
          ∨ Cell.getAttribute (attrsOf el) "d-id" = some "") →
        Cell.elemIdProp (attrsOf el) = i → i ≠ "" →
        Cell.getCellId attrsOf el = some i)
    ∧ (∀ el,
        (Cell.getAttribute (attrsOf el) "d-id" = none
          ∨ Cell.getAttribute (attrsOf el) "d-id" = some "") →
        Cell.elemIdProp (attrsOf el) = "" →
        Cell.getCellId attrsOf el = none)
    ∧ (∀ (st : Cell.Store K) (el el' : K) (newState : JsObj) (k : String),
        Cell.hasAttribute (attrsOf el') "d-cell" = true →
        Cell.getCellId attrsOf el = some k →
        Cell.getCellId attrsOf el' = some k →
        (Cell.init attrsOf parseSeed
            (Cell.setState attrsOf parseSeed st el newState).2 el').1
          = (Cell.setState attrsOf parseSeed st el newState).1) := by
  refine ⟨?_, ?_, ?_, ?_⟩
  · intro el s hs hne
    unfold Cell.getCellId
    simp [hs, hne]
  · intro el i hd hi hne
    unfold Cell.getCellId
    rcases hd with hd | hd <;> simp [hd, hi, hne]
  · intro el hd hi
    unfold Cell.getCellId
    rcases hd with hd | hd <;> simp [hd, hi]
  · intro st el el' newState k hcell' hid hid'
    exact Cell.init_preserved attrsOf parseSeed _ el' k _ hcell' hid'
      (Cell.setState_cellIdStates attrsOf parseSeed st el newState k hid)

/-- Attribute table for the C10 witness: two cells sharing only a plain
HTML `id`. -/
def c10AttrsOf : Nat → List (String × String)
  | 0 => [("d-cell", "count: 0"), ("id", "shared")]
  | _ => [("d-cell", "count: 7"), ("id", "shared")]

/-- Witness for C10 at a concrete input: an element with only `id="shared"`
gets identity key `shared`, and its mutated state is recovered by a second
element with the same plain id. -/
theorem identity_key_fallback_witness :
    Cell.getAttribute (c10AttrsOf 0) "d-id" = none
    ∧ Cell.elemIdProp (c10AttrsOf 0) = "shared"
    ∧ Cell.getCellId c10AttrsOf 0 = some "shared"
    ∧ Cell.hasAttribute (c10AttrsOf 1) "d-cell" = true
    ∧ (Cell.init c10AttrsOf emptySeed
        (Cell.setState c10AttrsOf emptySeed {} 0 [("n", JsVal.num 3)]).2 1).1
      = (Cell.setState c10AttrsOf emptySeed {} 0 [("n", JsVal.num 3)]).1 :=
  ⟨rfl, rfl,
    (identity_key_fallback c10AttrsOf emptySeed).2.1 0 "shared" (Or.inl rfl) rfl
      (by decide),
    rfl,
    (identity_key_fallback c10AttrsOf emptySeed).2.2.2 {} 0 1 [("n", JsVal.num 3)]
      "shared" rfl rfl rfl⟩

/-! ## Signal module (src/signal.js): JS coercions and regex-shaped matchers

The expression engine matches statements against a fixed list of regular
expressions; each regex is embedded as a dedicated matcher with JS
backtracking semantics for the specific pattern. JS whitespace, `\w`
and string coercions are modelled below. -/

namespace Signal

/-- JS `\s` / `String.prototype.trim` whitespace (core ASCII set). -/
def isJsWs (c : Char) : Bool :=
  c = ' ' ∨ c = '\t' ∨ c = '\n' ∨ c = '\r' ∨ c = '\x0b' ∨ c = '\x0c'

/-- Regex `\w`: `[A-Za-z0-9_]`. -/
def isWordChar (c : Char) : Bool := c.isAlpha ∨ c.isDigit ∨ c = '_'

/-- Regex `[\w.]`. -/
def isWordDot (c : Char) : Bool := isWordChar c ∨ c = '.'

/-- Regex `[$\w]`. -/
def isDollarWord (c : Char) : Bool := isWordChar c ∨ c = '$'

/-- Regex `[\w:-]` (event-name characters). -/
def isEventNameChar (c : Char) : Bool := isWordChar c ∨ c = ':' ∨ c = '-'

/-- JS `String.prototype.trim`. -/
def jsTrim (s : String) : String :=
  String.mk (((s.data.dropWhile isJsWs).reverse.dropWhile isJsWs).reverse)

/-- Drop leading regex `\s*`. -/
def dropWs (cs : List Char) : List Char := cs.dropWhile isJsWs

/-- Regex `\s*(.+)$` with dotAll: greedy whitespace skip that backtracks to
leave at least one character for the capture. -/
def captureRest (cs : List Char) : Option (List Char) :=
  let r := dropWs cs
  if r ≠ [] then some r
  else
    match cs.getLast? with
    | some c => some [c]
    | none => none

/-- JS number-to-string for the integer number model. -/
def numToString (n : Int) : String := toString n

/-- List-based `startsWith` (JS `String.prototype.startsWith`). -/
def strStarts (s p : String) : Bool := p.data.isPrefixOf s.data

/-- List-based `endsWith` (JS `String.prototype.endsWith`). -/
def strEnds (s p : String) : Bool := p.data.reverse.isPrefixOf s.data.reverse

/-- Worker for single-character split. -/
def splitCharGo (sep : Char) : List Char → List Char → List String
  | acc, [] => [String.mk acc.reverse]
  | acc, c :: rest =>
      if c = sep then String.mk acc.reverse :: splitCharGo sep [] rest
      else splitCharGo sep (c :: acc) rest

/-- JS `String.prototype.split` with a one-character separator. -/
def splitChar (sep : Char) (s : String) : List String := splitCharGo sep [] s.data

/-- Decimal digit-string value. -/
def digitsToNat (cs : List Char) : Nat :=
  cs.foldl (fun acc c => acc * 10 + (c.toNat - '0'.toNat)) 0

/-- Numeric-index parse for property access (`arr[i]`). -/
def strIndexNat (s : String) : Option Nat :=
  if s.data ≠ [] ∧ s.data.all Char.isDigit then some (digitsToNat s.data) else none

mutual

/-- JS `String(value)`. -/
def jsToString : JsVal → String
  | .undef => "undefined"
  | .null => "null"
  | .nan => "NaN"
  | .bool b => if b then "true" else "false"
  | .num q => numToString q
  | .str s => s
  | .obj _ => "[object Object]"
  | .arr xs => String.intercalate "," (jsToStringItems xs)

/-- `Array.prototype.toString` items: null and undefined render as empty. -/
def jsToStringItems : List JsVal → List String
  | [] => []
  | .undef :: rest => "" :: jsToStringItems rest
  | .null :: rest => "" :: jsToStringItems rest
  | v :: rest => jsToString v :: jsToStringItems rest

end

/-- Numeric-string parse `[sign] (digits ['.' digits] | '.' digits)`; a
non-zero fractional part is outside the integer number model. -/
def parseNumChars (cs : List Char) : Option Int :=
  let (sign, cs) :=
    match cs with
    | '-' :: rest => ((-1 : Int), rest)
    | '+' :: rest => ((1 : Int), rest)
    | _ => ((1 : Int), cs)
  let intPart := cs.takeWhile Char.isDigit
  let rest := cs.dropWhile Char.isDigit
  let intVal : Nat := digitsToNat intPart
  match rest with
  | [] =>
      if intPart = [] then none else some (sign * intVal)
  | '.' :: frac =>
      if frac.all Char.isDigit ∧ (intPart ≠ [] ∨ frac ≠ []) ∧ frac.all (· = '0') then
        some (sign * intVal)
      else none
  | _ => none

/-- JS `Number(string)` (trims; empty string is `0`; non-numeric is NaN,
modelled as `none`). -/
def strToNumOpt (s : String) : Option Int :=
  let t := jsTrim s
  if t = "" then some 0 else parseNumChars t.data

/-- JS `ToNumber` (NaN modelled as `none`). -/
def toNumOpt : JsVal → Option Int
  | .num q => some q
  | .nan => none
  | .bool b => some (if b then 1 else 0)
  | .null => some 0
  | .undef => none
  | .str s => strToNumOpt s
  | v => strToNumOpt (jsToString v)

/-- JS strict equality `===`. Separately evaluated objects and arrays are
compared by reference in JS, so distinct evaluations are never equal; the
model returns `false` for object and array operands. -/
def strictEq : JsVal → JsVal → Bool
  | .undef, .undef => true
  | .null, .null => true
  | .bool a, .bool b => a = b
  | .num a, .num b => a = b
  | .str a, .str b => a = b
  | _, _ => false

/-- JS `ToPrimitive` as used by relational operators. -/
def toPrim : JsVal → JsVal
  | .obj fs => .str (jsToString (.obj fs))
  | .arr xs => .str (jsToString (.arr xs))
  | v => v

/-- JS `a > b`. -/
def jsGT (a b : JsVal) : Bool :=
  match toPrim a, toPrim b with
  | .str x, .str y => y < x
  | x, y =>
      match toNumOpt x, toNumOpt y with
      | some p, some q => q < p
      | _, _ => false

/-- JS `a < b`. -/
def jsLTv (a b : JsVal) : Bool :=
  match toPrim a, toPrim b with
  | .str x, .str y => x < y
  | x, y =>
      match toNumOpt x, toNumOpt y with
      | some p, some q => p < q
      | _, _ => false

/-- `x || 0`. -/
def or0 (v : JsVal) : JsVal := if JsVal.truthy v then v else .num 0

/-- JS `x + n` for a number right operand (string operands concatenate). -/
def jsAddNum (v : JsVal) (n : Int) : JsVal :=
  match v with
  | .str s => .str (s ++ numToString n)
  | .obj fs => .str (jsToString (.obj fs) ++ numToString n)
  | .arr xs => .str (jsToString (.arr xs) ++ numToString n)
  | x =>
      match toNumOpt x with
      | some m => .num (m + n)
      | none => .nan

/-- JS `x - n` (always numeric). -/
def jsSubNum (v : JsVal) (n : Int) : JsVal :=
  match toNumOpt v with
  | some m => .num (m - n)
  | none => .nan

/-- JS `Math.max(v, n)`. -/
def jsMax (v : JsVal) (n : Int) : JsVal :=
  match toNumOpt v with
  | some m => .num (max m n)
  | none => .nan

/-- JS `Math.min(v, n)`. -/
def jsMin (v : JsVal) (n : Int) : JsVal :=
  match toNumOpt v with
  | some m => .num (min m n)
  | none => .nan

/-- `v === undefined` test. -/
def isUndef : JsVal → Bool
  | .undef => true
  | _ => false

/-- Anchored matcher for `^(CLS+)\s*OP\s*(.+)$` (dotAll), the shape of the
engine's binary-operator regexes; `CLS` does not contain whitespace or the
first character of `OP`, so the greedy run needs no backtracking. -/
def matchBinary (cls : Char → Bool) (op : List Char) (s : String) :
    Option (String × String) :=
  let cs := s.data
  let lhs := cs.takeWhile cls
  if lhs = [] then none
  else
    let rest := dropWs (cs.dropWhile cls)
    if op.isPrefixOf rest then
      (match captureRest (rest.drop op.length) with
       | some rhs => some (String.mk lhs, String.mk rhs)
       | none => none)
    else none

/-- Anchored matcher for `^(CLS1+)\.(\w+)\((.*)\)$`: module-call shape.
`(.*)\)$` is greedy, so the arguments run to the last `)`. -/
def matchMethodCall (cls1 : Char → Bool) (s : String) :
    Option (String × String × String) :=
  let cs := s.data
  let run1 := cs.takeWhile cls1
  if run1 = [] then none
  else
    match cs.dropWhile cls1 with
    | '.' :: rest1 =>
        let run2 := rest1.takeWhile isWordChar
        if run2 = [] then none
        else
          match rest1.dropWhile isWordChar with
          | '(' :: rest2 =>
              match rest2.getLast? with
              | some ')' => some (String.mk run1, String.mk run2, String.mk (rest2.dropLast))
              | _ => none
          | _ => none
    | _ => none

/-- Anchored matcher for `^([\w.]+)\s*ARITH\s*(\d+)$` (the `prop + N` /
`prop - N` value shapes). -/
def matchArith (opc : Char) (s : String) : Option (String × Int) :=
  let cs := s.data
  let lhs := cs.takeWhile isWordDot
  if lhs = [] then none
  else
    match dropWs (cs.dropWhile isWordDot) with
    | c :: rest =>
        if c = opc then
          let digits := dropWs rest
          if digits ≠ [] ∧ digits.all Char.isDigit then
            (match parseNumChars digits with
             | some n => some (String.mk lhs, n)
             | none => none)
          else none
        else none
    | [] => none

/-- Anchored matcher for `^Math\.NAME\(([\w.]+)\s*ARITH\s*(\d+),\s*(\d+)\)$`
(the clamped increment/decrement idioms). -/
def matchMathClamp (name : String) (opc : Char) (s : String) :
    Option (String × Int × Int) :=
  let pre := "Math." ++ name ++ "("
  if pre.data.isPrefixOf s.data then
    let cs := s.data.drop pre.length
    let lhs := cs.takeWhile isWordDot
    if lhs = [] then none
    else
      match dropWs (cs.dropWhile isWordDot) with
      | c :: rest =>
          if c = opc then
            let rest := dropWs rest
            let digits1 := rest.takeWhile Char.isDigit
            if digits1 = [] then none
            else
              match rest.dropWhile Char.isDigit with
              | ',' :: rest2 =>
                  let rest2 := dropWs rest2
                  let digits2 := rest2.takeWhile Char.isDigit
                  if digits2 ≠ [] ∧ rest2.dropWhile Char.isDigit = [')'] then
                    (match parseNumChars digits1, parseNumChars digits2 with
                     | some a, some b => some (String.mk lhs, a, b)
                     | _, _ => none)
                  else none
              | _ => none
          else none
      | [] => none
  else none

/-- Anchored matcher for `^([\w.]+)\s*=\s*(.+)$` (dotAll): the assignment
statement shape. -/
def matchAssign (s : String) : Option (String × String) :=
  let cs := s.data
  let lhs := cs.takeWhile isWordDot
  if lhs = [] then none
  else
    match dropWs (cs.dropWhile isWordDot) with
    | '=' :: rest =>
        match captureRest rest with
        | some rhs => some (String.mk lhs, String.mk rhs)
        | none => none
    | _ => none

/-- Number-literal test `^-?\d+(\.\d+)?$` with its value. -/
def matchNumberLit (s : String) : Option Int :=
  let cs := s.data
  let (sign, cs') :=
    match cs with
    | '-' :: rest => ((-1 : Int), rest)
    | _ => ((1 : Int), cs)
  let intPart := cs'.takeWhile Char.isDigit
  if intPart = [] then none
  else
    match cs'.dropWhile Char.isDigit with
    | [] => (parseNumChars intPart).map (fun q => sign * q)
    | '.' :: frac =>
        if frac ≠ [] ∧ frac.all Char.isDigit then
          (parseNumChars (intPart ++ '.' :: frac)).map (fun q => sign * q)
        else none
    | _ => none

/-- Digits-only test `^\d+$`. -/
def isAllDigits (s : String) : Bool := s.data ≠ [] ∧ s.data.all Char.isDigit

/-- `s.slice(1, -1)`. -/
def sliceInner (s : String) : String := (s.drop 1).dropRight 1

/-- JS property access `v[key]` for the value kinds the engine reads
(objects by key, arrays by index or `length`, strings by index or
`length`; anything else yields `undefined`). -/
def propAccess (v : JsVal) (key : String) : JsVal :=
  match v with
  | .obj fs => (JsVal.lookupField fs key).getD .undef
  | .arr xs =>
      if key = "length" then .num xs.length
      else
        match strIndexNat key with
        | some i => xs.getD i .undef
        | none => .undef
  | .str s =>
      if key = "length" then .num s.length
      else
        match strIndexNat key with
        | some i =>
            match s.data.get? i with
            | some c => .str (String.mk [c])
            | none => .undef
        | none => .undef
  | _ => (.undef : JsVal)

/-- signal.js `getPath(obj, path)`: direct key hit first, else a
`split('.').reduce((prev, curr) => prev && prev[curr], obj)` walk (note the
JS `&&`: a falsy intermediate value is returned as-is). -/
def getPath (state : JsObj) (path : String) : JsVal :=
  if path = "" then .undef
  else if JsVal.hasKey state path then (JsVal.lookupField state path).getD .undef
  else
    (splitChar '.' path).foldl
      (fun prev curr => if JsVal.truthy prev then propAccess prev curr else prev)
      (.obj state)

/-- signal.js `resolvePath(obj, path)`: dotted walk returning `undefined` as
soon as the current value is `undefined` or `null`. -/
def resolvePath (v : JsVal) (path : String) : JsVal :=
  (splitChar '.' path).foldl
    (fun cur part =>
      match cur with
      | .undef => .undef
      | .null => .undef
      | c => propAccess c part)
    v

/-- The `\x7b...currentState[key]\x7d` copy taken by `setPath` when creating an
intermediate level (arrays spread into plain objects with index keys). -/
def copyAsObj : JsVal → JsObj
  | .obj fs => fs
  | .arr xs => (xs.enum.map fun p => (toString p.1, p.2))
  | _ => []

/-- signal.js `setPath(obj, path, value, state)`: builds the nested changes
object, initializing each missing intermediate level from the corresponding
state level (preserving sibling keys) or `\x7b\x7d`. Descending into an existing
non-object value throws in JS (strict mode), modelled as `none`; descent
into an existing array value is outside the model. -/
def setPathGo : JsObj → List String → JsVal → JsVal → Option JsObj
  | cur, [], _, _ => some cur
  | cur, [k], v, _ => some (JsVal.setField cur k v)
  | cur, k :: k' :: rest, v, curState =>
      let childInit : JsVal :=
        match JsVal.lookupField cur k with
        | some c => c
        | none =>
            if JsVal.truthy curState ∧ JsVal.truthy (propAccess curState k)
                ∧ JsVal.typeofIsObject (propAccess curState k) then
              .obj (copyAsObj (propAccess curState k))
            else .obj []
      match childInit with
      | .obj cf =>
          let nextState := if JsVal.truthy curState then propAccess curState k else .undef
          (setPathGo cf (k' :: rest) v nextState).map
            (fun cf' => JsVal.setField cur k (.obj cf'))
      | _ => none

/-- signal.js `setPath` entry point over a state object. -/
def setPath (obj : JsObj) (path : String) (v : JsVal) (state : JsObj) : Option JsObj :=
  setPathGo obj (splitChar '.' path) v (.obj state)

/-- The registry populated by signal.js `register(name, module)`: a module
method is a JS function from arguments to a value. -/
def Modules : Type := String → String → Option (List JsVal → JsVal)

/-- No registered modules. -/
def noModules : Modules := fun _ _ => none

/-- signal.js v2 `evaluate(expr, state)` (fuel-indexed; the wrapper below
supplies sufficient fuel, since every recursive call strictly shrinks the
expression). Branch order follows the source: literals, quoted strings,
path lookup, negation, `==`-comparison, `!=`-comparison, `>` and `<`,
registered-module call, else `undefined`. -/
def evaluateF (modules : Modules) : Nat → String → JsObj → JsVal
  | 0, _, _ => .undef
  | fuel + 1, expr, state =>
      if expr = "" then .undef
      else
        let trimmed := jsTrim expr
        if trimmed = "true" then .bool true
        else if trimmed = "false" then .bool false
        else if trimmed = "null" then .null
        else if trimmed = "undefined" then .undef
        else
          match matchNumberLit trimmed with
          | some q => .num q
          | none =>
            if (strStarts trimmed "\"" ∧ strEnds trimmed "\"")
                ∨ (strStarts trimmed "'" ∧ strEnds trimmed "'") then
              .str (sliceInner trimmed)
            else
              let val := getPath state trimmed
              if ¬ isUndef val then val
              else if strStarts trimmed "!" then
                .bool (! JsVal.truthy
                  (evaluateF modules fuel (jsTrim (trimmed.drop 1)) state))
              else
                match matchBinary isWordDot ['=', '='] trimmed with
                | some (l, r) =>
                    .bool (strictEq (evaluateF modules fuel l state)
                      (evaluateF modules fuel r state))
                | none =>
                  match matchBinary isWordDot ['!', '='] trimmed with
                  | some (l, r) =>
                      .bool (! strictEq (evaluateF modules fuel l state)
                        (evaluateF modules fuel r state))
                  | none =>
                    match matchBinary isWordDot ['>'] trimmed with
                    | some (l, r) =>
                        .bool (jsGT (or0 (evaluateF modules fuel l state))
                          (or0 (evaluateF modules fuel r state)))
                    | none =>
                      match matchBinary isWordDot ['<'] trimmed with
                      | some (l, r) =>
                          .bool (jsLTv (or0 (evaluateF modules fuel l state))
                            (or0 (evaluateF modules fuel r state)))
                      | none =>
                        match matchMethodCall isWordChar trimmed with
                        | some (modName, method, argsExpr) =>
                            match modules modName method with
                            | some f =>
                                let args :=
                                  if argsExpr = "" then []
                                  else (splitChar ',' argsExpr).map
                                    (fun a => evaluateF modules fuel (jsTrim a) state)
                                f args
                            | none => .undef
                        | none => (.undef : JsVal)

/-- signal.js v2 `evaluate(expr, state)`. -/
def evaluate (modules : Modules) (expr : String) (state : JsObj) : JsVal :=
  evaluateF modules (expr.length + 1) expr state

/-- signal.js `parseArguments(argsStr, state, event, element)`: split on
commas, resolve each token, drop unresolved (`undefined`) and
empty-string results. -/
def parseArguments (state : JsObj) (eventVal thisVal : JsVal) (argsStr : String) :
    List JsVal :=
  if jsTrim argsStr = "" then []
  else
    ((splitChar ',' argsStr).map fun arg =>
      let a := jsTrim arg
      if a = "" then JsVal.undef
      else if a = "true" then JsVal.bool true
      else if a = "false" then JsVal.bool false
      else if a = "event" then eventVal
      else if a = "this" then thisVal
      else if strStarts a "'" ∨ strStarts a "\"" then JsVal.str (sliceInner a)
      else
        match strToNumOpt a with
        | some q => JsVal.num q
        | none =>
          if strStarts a "this." then resolvePath thisVal (a.drop 5)
          else resolvePath (.obj state) a).filter
      (fun v =>
        match v with
        | .undef => false
        | .str "" => false
        | _ => true)

/-- Worker for the inline-object key normalization: accumulates the current
`\w` run (reversed) and quotes it when a `:` follows, mirroring the global
regex replace of `([\w]+):` by `"$1":`. -/
def qbkGo : List Char → List Char → List Char
  | run, [] => run.reverse
  | run, c :: rest =>
      if isWordChar c then qbkGo (c :: run) rest
      else if c = ':' ∧ run ≠ [] then
        '"' :: (run.reverse ++ '"' :: ':' :: qbkGo [] rest)
      else run.reverse ++ c :: qbkGo [] rest

/-- The `replace(/([\w]+):/g, '"$1":')` step of the inline-object branch. -/
def quoteBareKeys (s : String) : String := String.mk (qbkGo [] s.data)

/-- signal.js v2 `executeAssignment(expr, state, event, element)`: returns
the changes value (normally an object). `this.method(...)`, `event.method(...)`,
`submit` and `reset` act on the DOM/event and contribute no changes; the
platform `JSON.parse` used by the inline-object branch is supplied as a
parameter; a JS `TypeError` thrown by a nested assignment through a
non-object is modelled as `none`. -/
def executeAssignment (modules : Modules) (jsonParse : String → Option JsVal)
    (state : JsObj) (eventVal thisVal : JsVal) (expr : String) : Option JsVal :=
  let trimmed := jsTrim expr
  match matchMethodCall isDollarWord trimmed with
  | some (moduleName, methodName, argsStr) =>
      if moduleName = "this" then some (.obj [])
      else if moduleName = "event" ∨ moduleName = "$event" then some (.obj [])
      else
        match modules moduleName methodName with
        | none => some (.obj [])
        | some f =>
            let result := f (parseArguments state eventVal thisVal argsStr)
            if JsVal.typeofIsObject result then some result else some (.obj [])
  | none =>
    if trimmed = "submit" then some (.obj [])
    else if trimmed = "reset" then some (.obj [])
    else
      match matchAssign trimmed with
      | none => some (.obj [])
      | some (prop, valueExpr) =>
          let v := jsTrim valueExpr
          if v = "!" ++ prop then
            (setPath [] prop (.bool (! JsVal.truthy (getPath state prop))) state).map .obj
          else if v = "true" then (setPath [] prop (.bool true) state).map .obj
          else if v = "false" then (setPath [] prop (.bool false) state).map .obj
          else
            match matchArith '+' v with
            | some (srcProp, n) =>
                (setPath [] prop (jsAddNum (or0 (getPath state srcProp)) n) state).map .obj
            | none =>
              match matchArith '-' v with
              | some (srcProp, n) =>
                  (setPath [] prop (jsSubNum (or0 (getPath state srcProp)) n) state).map .obj
              | none =>
                match matchMathClamp "max" '-' v with
                | some (srcProp, delta, lo) =>
                    (setPath [] prop (jsMax (jsSubNum (or0 (getPath state srcProp)) delta) lo)
                      state).map .obj
                | none =>
                  match matchMathClamp "min" '+' v with
                  | some (srcProp, delta, hi) =>
                      (setPath [] prop (jsMin (jsAddNum (or0 (getPath state srcProp)) delta) hi)
                        state).map .obj
                  | none =>
                    if strStarts v "\"" ∨ strStarts v "'" then
                      (setPath [] prop (.str (sliceInner v)) state).map .obj
                    else if isAllDigits v then
                      (setPath [] prop (.num ((parseNumChars v.data).getD 0)) state).map .obj
                    else
                      let objLit :=
                        if strStarts v "\x7b" ∧ strEnds v "\x7d" then
                          jsonParse (quoteBareKeys (String.mk (v.data.map fun c => if c = '\'' then '"' else c)))
                        else none
                      match objLit with
                      | some val => (setPath [] prop val state).map .obj
                      | none =>
                          let result := evaluate modules v state
                          if ¬ isUndef result then
                            (setPath [] prop result state).map .obj
                          else if JsVal.hasKey state v then
                            (setPath [] prop ((JsVal.lookupField state v).getD .undef)
                              state).map .obj
                          else some (.obj [])

end Signal

/-! ## Object-merge lemmas -/

namespace JsVal

theorem lookupField_setField_self (fs : JsObj) (k : String) (v : JsVal) :
    lookupField (setField fs k v) k = some v := by
  induction fs with
  | nil => simp [setField, lookupField]
  | cons kv rest ih =>
      by_cases h : kv.1 = k
      · simp [setField, lookupField, h]
      · simp [setField, lookupField, h, ih]

theorem lookupField_setField_ne (fs : JsObj) (k k' : String) (v : JsVal)
    (h : k ≠ k') :
    lookupField (setField fs k v) k' = lookupField fs k' := by
  induction fs with
  | nil => simp [setField, lookupField, h]
  | cons kv rest ih =>
      by_cases hk : kv.1 = k
      · simp [setField, lookupField, hk, h]
      · simp [setField, lookupField, hk, ih]

theorem lookupField_filter_not_hasKey (b a : JsObj) (k : String)
    (ha : hasKey a k = false) :
    lookupField (b.filter (fun kv => ! hasKey a kv.1)) k = lookupField b k := by
  induction b with
  | nil => simp
  | cons kv rest ih =>
      by_cases hk : kv.1 = k
      · subst hk
        simp [List.filter, ha, lookupField]
      · cases hkeep : hasKey a kv.1 <;>
          simp [List.filter, hkeep, lookupField, hk, ih]

theorem lookupField_append (xs ys : JsObj) (k : String) :
    lookupField (xs ++ ys) k
      = match lookupField xs k with
        | some v => some v
        | none => lookupField ys k := by
  induction xs with
  | nil => simp [lookupField]
  | cons kv rest ih =>
      by_cases hk : kv.1 = k
      · simp [lookupField, hk]
      · simp [lookupField, hk, ih]

theorem lookupField_spread_map (a b : JsObj) (k : String) :
    lookupField (a.map fun kv => (kv.1, (lookupField b kv.1).getD kv.2)) k
      = (lookupField a k).map (fun v => (lookupField b k).getD v) := by
  induction a with
  | nil => simp [lookupField]
  | cons kv rest ih =>
      by_cases hk : kv.1 = k
      · subst hk
        simp [lookupField]
      · simp [lookupField, hk, ih]

/-- A key present in the right operand of a spread gets the right operand's
value (right-hand entries win on a collision). -/
theorem lookupField_spread_right (a b : JsObj) (k : String) (v : JsVal)
    (hb : lookupField b k = some v) :
    lookupField (spread a b) k = some v := by
  unfold spread
  rw [lookupField_append, lookupField_spread_map]
  cases ha : lookupField a k with
  | some v0 => simp [hb]
  | none =>
      have hhk : hasKey a k = false := by simp [hasKey, ha]
      simp [lookupField_filter_not_hasKey b a k hhk, hb]

/-- A key absent from the right operand of a spread keeps the left operand's
value. -/
theorem lookupField_spread_left (a b : JsObj) (k : String)
    (hb : lookupField b k = none) :
    lookupField (spread a b) k = lookupField a k := by
  unfold spread
  rw [lookupField_append, lookupField_spread_map]
  cases ha : lookupField a k with
  | some v0 => simp [hb]
  | none =>
      have hhk : hasKey a k = false := by simp [hasKey, ha]
      simp [lookupField_filter_not_hasKey b a k hhk, hb]

end JsVal

/-- Helper: `x || 0` on a number is the number itself. -/
theorem Signal.or0_num (n : Int) : Signal.or0 (.num n) = .num n := by
  unfold Signal.or0
  by_cases h : n = 0
  · subst h; simp [JsVal.truthy]
  · simp [JsVal.truthy, h]

/-- **C7.** `setState` is a top-level shallow merge keeping both stores in
lockstep: the result is the spread of the partial update over the current
state (so `\x7bb: 2\x7d` on `\x7ba:1,b:1\x7d` yields `\x7ba:1,b:2\x7d`), it is written to the
element-identity store and (under the element's identity key) the
identity-key store, and a `cell:change` event is emitted; and the
nested-path assignment statement `user.score = user.score + 100` builds its
changes through `setPath`, preserving the sibling key `user.name`. -/
theorem setState_shallow_merge {K : Type} [DecidableEq K]
    (attrsOf : K → List (String × String)) (parseSeed : String → JsObj)
    (modules : Signal.Modules) (jsonParse : String → Option JsVal)
    (eventVal thisVal : JsVal) :
    (∀ (st : Cell.Store K) (el : K) (cur ns : JsObj),
        Cell.mapLookup st.cellStates el = some cur →
        (Cell.setState attrsOf parseSeed st el ns).1 = JsVal.spread cur ns
        ∧ Cell.mapLookup (Cell.setState attrsOf parseSeed st el ns).2.cellStates el
            = some (JsVal.spread cur ns)
        ∧ (∀ k, Cell.getCellId attrsOf el = some k →
            Cell.idLookup (Cell.setState attrsOf parseSeed st el ns).2.cellIdStates k
              = some (JsVal.spread cur ns))
        ∧ (Cell.setState attrsOf parseSeed st el ns).2.events
            = st.events
              ++ [Cell.CellEvent.change el (JsVal.spread cur ns) (Cell.getCellId attrsOf el)])
    ∧ JsVal.spread [("a", JsVal.num 1), ("b", JsVal.num 1)] [("b", JsVal.num 2)]
        = [("a", JsVal.num 1), ("b", JsVal.num 2)]
    ∧ (∀ (state u : JsObj) (n : Int),
        JsVal.lookupField state "user" = some (JsVal.obj u) →
        JsVal.lookupField u "score" = some (JsVal.num n) →
        JsVal.hasKey state "user.score" = false →
        Signal.executeAssignment modules jsonParse state eventVal thisVal
            "user.score = user.score + 100"
          = some (JsVal.obj [("user", JsVal.obj (JsVal.setField u "score" (JsVal.num (n + 100))))])
        ∧ (∀ v, JsVal.lookupField u "name" = some v →
            JsVal.lookupField (JsVal.setField u "score" (JsVal.num (n + 100))) "name" = some v
            ∧ JsVal.lookupField
                (JsVal.spread state
                  [("user", JsVal.obj (JsVal.setField u "score" (JsVal.num (n + 100))))]) "user"
              = some (JsVal.obj (JsVal.setField u "score" (JsVal.num (n + 100)))))) := by
  refine ⟨?_, by rfl, ?_⟩
  · intro st el cur ns hcur
    have hget : Cell.getState attrsOf parseSeed st el = (cur, st) := by
      unfold Cell.getState
      rw [hcur]
    cases hid : Cell.getCellId attrsOf el with
    | some cid =>
        refine ⟨?_, ?_, ?_, ?_⟩ <;>
          simp [Cell.setState, hget, hid, Cell.mapLookup_mapSet_self, Cell.idLookup_idSet_self]
    | none =>
        refine ⟨?_, ?_, ?_, ?_⟩ <;>
          simp [Cell.setState, hget, hid, Cell.mapLookup_mapSet_self]
  · intro state u n hu hsc hkey
    have hsplit : Signal.splitChar '.' "user.score" = ["user", "score"] := by decide
    have hg : Signal.getPath state "user.score" = JsVal.num n := by
      unfold Signal.getPath
      rw [if_neg (by decide)]
      rw [hkey]
      simp only [Bool.false_eq_true, if_false, hsplit, List.foldl]
      simp [JsVal.truthy, Signal.propAccess, hu, hsc]
    have hsp : Signal.setPath [] "user.score" (JsVal.num (n + 100)) state
        = some [("user", JsVal.obj (JsVal.setField u "score" (JsVal.num (n + 100))))] := by
      unfold Signal.setPath
      rw [hsplit]
      simp only [Signal.setPathGo, JsVal.lookupField]
      simp [Signal.propAccess, hu, JsVal.truthy, JsVal.typeofIsObject, Signal.copyAsObj,
        JsVal.setField]
    have hskel : Signal.executeAssignment modules jsonParse state eventVal thisVal
        "user.score = user.score + 100"
        = (Signal.setPath [] "user.score"
            (Signal.jsAddNum (Signal.or0 (Signal.getPath state "user.score")) 100) state).map
              JsVal.obj := by rfl
    refine ⟨?_, ?_⟩
    · rw [hskel, hg, Signal.or0_num]
      have : Signal.jsAddNum (JsVal.num n) 100 = JsVal.num (n + 100) := by rfl
      rw [this, hsp]
      rfl
    · intro v hv
      refine ⟨?_, ?_⟩
      · rw [JsVal.lookupField_setField_ne u "score" "name" _ (by decide)]
        exact hv
      · exact JsVal.lookupField_spread_right _ _ _ _ (by simp [JsVal.lookupField])

/-- Concrete store used by the C7 witness. -/
def c7Store : Cell.Store Nat :=
  ⟨[((0 : Nat), [("a", JsVal.num 1), ("b", JsVal.num 1)])], [], [], []⟩

/-- Witness for C7 at concrete inputs: merging `\x7bb: 2\x7d` into state
`\x7ba:1, b:1\x7d` of element 0, and the nested increment on
`\x7buser: \x7bname: "ada", score: 1\x7d\x7d`. -/
theorem setState_shallow_merge_witness :
    (Cell.mapLookup c7Store.cellStates 0 = some [("a", JsVal.num 1), ("b", JsVal.num 1)])
    ∧ (Cell.setState c1AttrsOf emptySeed c7Store 0 [("b", JsVal.num 2)]).1
      = [("a", JsVal.num 1), ("b", JsVal.num 2)]
    ∧ JsVal.lookupField [("user", JsVal.obj [("name", JsVal.str "ada"), ("score", JsVal.num 1)])]
        "user" = some (JsVal.obj [("name", JsVal.str "ada"), ("score", JsVal.num 1)])
    ∧ Signal.executeAssignment Signal.noModules (fun _ => none)
        [("user", JsVal.obj [("name", JsVal.str "ada"), ("score", JsVal.num 1)])]
        JsVal.undef JsVal.undef "user.score = user.score + 100"
      = some (JsVal.obj [("user", JsVal.obj [("name", JsVal.str "ada"), ("score", JsVal.num 101)])]) := by
  refine ⟨rfl, ?_, rfl, ?_⟩
  · exact ((setState_shallow_merge c1AttrsOf emptySeed Signal.noModules (fun _ => none)
      JsVal.undef JsVal.undef).1 c7Store 0 [("a", JsVal.num 1), ("b", JsVal.num 1)]
      [("b", JsVal.num 2)] rfl).1
  · have h := (((setState_shallow_merge c1AttrsOf emptySeed Signal.noModules (fun _ => none)
      JsVal.undef JsVal.undef).2.2)
      [("user", JsVal.obj [("name", JsVal.str "ada"), ("score", JsVal.num 1)])]
      [("name", JsVal.str "ada"), ("score", JsVal.num 1)] 1 rfl rfl rfl).1
    simpa using h

/-! ## Pulse module (src/pulse.js): declarative action data

`handleClick` for `d-pulse="action"` collects the element's `data-*`
attributes (minus the internal `data-surf-ready`), then merges the enclosing
Cell's state over them with `Object.assign(data, cellState)`; the result is
the JSON body passed to `action`. -/

namespace Pulse

/-- The `data` object built from the element's attributes: every `data-*`
attribute except `data-surf-ready`, keyed by the name without the `data-`
prefix, in attribute order. -/
def collectDataAttrs (attrs : List (String × String)) : JsObj :=
  attrs.foldl
    (fun d nv =>
      if Signal.strStarts nv.1 "data-" ∧ nv.1 ≠ "data-surf-ready" then
        JsVal.setField d (nv.1.drop 5) (.str nv.2)
      else d)
    []

/-- `Object.assign(target, source)`: write every source entry into the
target in order. -/
def objAssign (target source : JsObj) : JsObj :=
  source.foldl (fun t kv => JsVal.setField t kv.1 kv.2) target

/-- The JSON body object of a declaratively triggered action pulse:
`data-*` attributes, then `Object.assign` with the Cell state when the
element sits inside a `d-cell` (`cellState = none` models no enclosing
Cell). -/
def actionBodyData (attrs : List (String × String)) (cellState : Option JsObj) : JsObj :=
  let data := collectDataAttrs attrs
  match cellState with
  | some cs => objAssign data cs
  | none => data

theorem objAssign_lookup_absent (src : JsObj) (t : JsObj) (k : String)
    (h : ∀ kv ∈ src, kv.1 ≠ k) :
    JsVal.lookupField (objAssign t src) k = JsVal.lookupField t k := by
  induction src generalizing t with
  | nil => rfl
  | cons kv rest ih =>
      have hk : kv.1 ≠ k := h kv (List.mem_cons_self kv rest)
      have := ih (JsVal.setField t kv.1 kv.2) (fun x hx => h x (List.mem_cons_of_mem kv hx))
      simpa [objAssign, JsVal.lookupField_setField_ne t kv.1 k kv.2 hk] using this

/-- In `Object.assign(data, cellState)`, an entry of the source (for an
object without duplicate keys) determines the merged value: the Cell state
wins on a key collision. -/
theorem objAssign_lookup_source (src : JsObj) (t : JsObj) (k : String) (v : JsVal)
    (hnd : (src.map Prod.fst).Nodup) (hv : JsVal.lookupField src k = some v) :
    JsVal.lookupField (objAssign t src) k = some v := by
  induction src generalizing t with
  | nil => simp [JsVal.lookupField] at hv
  | cons kv rest ih =>
      rw [List.map_cons] at hnd
      rcases List.nodup_cons.mp hnd with ⟨hnotin, hndrest⟩
      by_cases hk : kv.1 = k
      · subst hk
        have hvv : v = kv.2 := by
          simp [JsVal.lookupField] at hv
          exact hv.symm
        subst hvv
        have habs : ∀ x ∈ rest, x.1 ≠ kv.1 := by
          intro x hx hEq
          exact hnotin (hEq ▸ List.mem_map_of_mem Prod.fst hx)
        calc JsVal.lookupField (objAssign t (kv :: rest)) kv.1
            = JsVal.lookupField (objAssign (JsVal.setField t kv.1 kv.2) rest) kv.1 := rfl
          _ = JsVal.lookupField (JsVal.setField t kv.1 kv.2) kv.1 :=
              objAssign_lookup_absent rest _ kv.1 habs
          _ = some kv.2 := JsVal.lookupField_setField_self t kv.1 kv.2
      · have hv' : JsVal.lookupField rest k = some v := by
          simpa [JsVal.lookupField, hk] using hv
        exact ih (JsVal.setField t kv.1 kv.2) hndrest hv'

end Pulse

theorem JsVal.lookupField_none_keys (fs : JsObj) (k : String)
    (h : JsVal.lookupField fs k = none) : ∀ kv ∈ fs, kv.1 ≠ k := by
  induction fs with
  | nil => intro kv hkv; simp at hkv
  | cons kv0 rest ih =>
      intro kv hkv
      by_cases hk : kv0.1 = k
      · simp [JsVal.lookupField, hk] at h
      · rcases List.mem_cons.mp hkv with hkv | hkv
        · subst hkv; exact hk
        · exact ih (by simpa [JsVal.lookupField, hk] using h) kv hkv

/-- **C4, counterexample.** An element with `data-qty="attr"` inside a Cell
whose state has `qty: "cell"` sends `qty = "cell"`: the Cell state value,
not the explicit `data-*` attribute value, wins the collision (the claim
says the attribute wins). -/
theorem action_merge_attr_wins_counterexample :
    JsVal.lookupField
        (Pulse.actionBodyData [("data-qty", "attr")] (some [("qty", JsVal.str "cell")])) "qty"
      = some (JsVal.str "cell")
    ∧ JsVal.lookupField
        (Pulse.actionBodyData [("data-qty", "attr")] (some [("qty", JsVal.str "cell")])) "qty"
      ≠ some (JsVal.str "attr") := by
  have h1 : JsVal.lookupField
      (Pulse.actionBodyData [("data-qty", "attr")] (some [("qty", JsVal.str "cell")])) "qty"
      = some (JsVal.str "cell") := rfl
  exact ⟨h1, by rw [h1]; simp⟩

/-- **C4, amended.** The JSON body of a declaratively triggered action pulse
is the merge of the element's `data-*` attributes and the enclosing Cell's
state, where on a key collision the Cell state value wins over the explicit
`data-*` attribute value (and keys absent from the Cell state keep their
attribute value; without an enclosing Cell the body is just the `data-*`
attributes). -/
theorem action_merge_cell_state_wins (attrs : List (String × String)) (cs : JsObj)
    (hnd : (cs.map Prod.fst).Nodup) :
    (∀ k v, JsVal.lookupField cs k = some v →
        JsVal.lookupField (Pulse.actionBodyData attrs (some cs)) k = some v)
    ∧ (∀ k, JsVal.lookupField cs k = none →
        JsVal.lookupField (Pulse.actionBodyData attrs (some cs)) k
          = JsVal.lookupField (Pulse.collectDataAttrs attrs) k)
    ∧ Pulse.actionBodyData attrs none = Pulse.collectDataAttrs attrs := by
  refine ⟨?_, ?_, rfl⟩
  · intro k v hv
    exact Pulse.objAssign_lookup_source cs _ k v hnd hv
  · intro k hk
    exact Pulse.objAssign_lookup_absent cs _ k (JsVal.lookupField_none_keys cs k hk)

/-- Witness for amended C4 at a concrete input: `data-role="admin"` plus
`data-qty="attr"` merged with Cell state `\x7bqty: "cell", id: 1\x7d` yields
`qty = "cell"` (state wins) and `role = "admin"` (attribute kept). -/
theorem action_merge_cell_state_wins_witness :
    ((([("qty", JsVal.str "cell"), ("id", JsVal.num 1)] : JsObj).map Prod.fst).Nodup)
    ∧ JsVal.lookupField
        (Pulse.actionBodyData [("data-role", "admin"), ("data-qty", "attr")]
          (some [("qty", JsVal.str "cell"), ("id", JsVal.num 1)])) "qty"
      = some (JsVal.str "cell")
    ∧ JsVal.lookupField
        (Pulse.actionBodyData [("data-role", "admin"), ("data-qty", "attr")]
          (some [("qty", JsVal.str "cell"), ("id", JsVal.num 1)])) "role"
      = some (JsVal.str "admin") :=
  ⟨by decide,
    (action_merge_cell_state_wins [("data-role", "admin"), ("data-qty", "attr")]
      [("qty", JsVal.str "cell"), ("id", JsVal.num 1)] (by decide)).1 "qty"
      (JsVal.str "cell") rfl,
    by
      rw [(action_merge_cell_state_wins [("data-role", "admin"), ("data-qty", "attr")]
        [("qty", JsVal.str "cell"), ("id", JsVal.num 1)] (by decide)).2.1 "role" rfl]
      rfl⟩

/-! ## Signal module: event-binding lifecycle (signal.js v2
`splitSignals`, `bindSignalElement`, `cleanup`)

Per-element view of the listener machinery: `attached` is the element's live
DOM listener list (a handler closure is identified by a unique `hid` and
carries its statement text), `bound` is the element's `boundListeners`
WeakMap entry (legacy single-listener shape or the current list shape), and
`nextId` is the source of fresh handler identities. -/

namespace Signal

/-- A live listener: DOM event name, the statement text its handler
executes, and the handler's identity. -/
structure Listener where
  event : String
  action : String
  hid : Nat
deriving Repr, DecidableEq

/-- The `boundListeners` entry shapes: legacy single listener or the current
list of listeners. -/
inductive BoundEntry where
  | legacy (l : Listener)
  | list (ls : List Listener)
deriving Repr

/-- The listener state of one element. -/
structure ElemBindState where
  attached : List Listener := []
  bound : Option BoundEntry := none
  nextId : Nat := 0
  warns : List String := []

/-- The listeners a `boundListeners` entry describes. -/
def entryOf : Option BoundEntry → List Listener
  | none => []
  | some (.legacy l) => [l]
  | some (.list ls) => ls

/-- `removeEventListener(event, handler)`: drop the first listener with this
event name and handler identity. -/
def removeListener (ls : List Listener) (ev : String) (hid : Nat) : List Listener :=
  match ls with
  | [] => []
  | l :: rest =>
      if l.event = ev ∧ l.hid = hid then rest else l :: removeListener rest ev hid

/-- Remove every listener recorded in a `boundListeners` entry (array shape
loops, legacy shape removes the single listener). -/
def removeEntry (attached : List Listener) : Option BoundEntry → List Listener
  | none => attached
  | some (.legacy l) => removeListener attached l.event l.hid
  | some (.list ls) => ls.foldl (fun a l => removeListener a l.event l.hid) attached

/-- signal.js v2 `splitSignals(expr)`: split on `;` at brace, parenthesis
and bracket depth zero, trimming and dropping empty pieces. -/
def splitSignalsGo : List Char → List Char → Int → Int → Int → List String
  | [], current, _, _, _ =>
      if jsTrim (String.mk current.reverse) = "" then []
      else [jsTrim (String.mk current.reverse)]
  | c :: rest, current, depth, parenDepth, bracketDepth =>
      let depth := if c = '\x7b' then depth + 1 else if c = '\x7d' then depth - 1 else depth
      let parenDepth :=
        if c = '(' then parenDepth + 1 else if c = ')' then parenDepth - 1 else parenDepth
      let bracketDepth :=
        if c = '[' then bracketDepth + 1 else if c = ']' then bracketDepth - 1 else bracketDepth
      if c = ';' ∧ depth = 0 ∧ parenDepth = 0 ∧ bracketDepth = 0 then
        (if jsTrim (String.mk current.reverse) = "" then
          splitSignalsGo rest [] depth parenDepth bracketDepth
         else jsTrim (String.mk current.reverse)
            :: splitSignalsGo rest [] depth parenDepth bracketDepth)
      else splitSignalsGo rest (c :: current) depth parenDepth bracketDepth

/-- signal.js v2 `splitSignals`. -/
def splitSignals (expr : String) : List String :=
  splitSignalsGo expr.data [] 0 0 0

/-- Backtracking worker for the signal regex `^([\w:-]+):\s*(.+)$` (dotAll):
try event-name prefix lengths from the maximal `[\w:-]` run downwards. -/
def matchSignalLen : Nat → List Char → Option (String × String)
  | 0, _ => none
  | len + 1, cs =>
      match cs.drop (len + 1) with
      | ':' :: rest =>
          (match captureRest rest with
           | some action => some (String.mk (cs.take (len + 1)), String.mk action)
           | none => matchSignalLen len cs)
      | _ => matchSignalLen len cs

/-- The signal regex `^([\w:-]+):\s*(.+)$` (dotAll, with JS backtracking of
the greedy event-name run over the `:` characters it may contain). -/
def matchSignal (s : String) : Option (String × String) :=
  matchSignalLen (s.data.takeWhile isEventNameChar).length s.data

/-- Attach pass of `bindSignalElement`: one fresh handler per signal piece
that matches the signal regex (a non-matching piece warns and attaches
nothing). Returns the new listener list and the next fresh identity. -/
def attachAll : List String → Nat → List Listener × Nat
  | [], nid => ([], nid)
  | sig :: rest, nid =>
      match matchSignal sig with
      | none => attachAll rest nid
      | some (ev, action) =>
          let r := attachAll rest (nid + 1)
          (⟨ev, action, nid⟩ :: r.1, r.2)

/-- signal.js v2 `bindSignalElement(element)`: with no (or empty) `d-signal`
attribute do nothing; otherwise remove every listener recorded in the
element's `boundListeners` entry (legacy or list shape), parse the attribute
with `splitSignals`, warn when a state-dependent statement has no parent
cell, attach one fresh listener per parsed signal, and store the new list as
the element's entry. -/
def bindSignalElement (attrs : List (String × String)) (hasParentCell : Bool)
    (s : ElemBindState) : ElemBindState :=
  match Cell.getAttribute attrs "d-signal" with
  | none => s
  | some signalExpr =>
      if signalExpr = "" then s
      else
        let afterRemove := removeEntry s.attached s.bound
        let sigs := splitSignals signalExpr
        let needsCell := sigs.any fun sig =>
          match matchSignal sig with
          | some (_, act) => jsTrim act ≠ "submit" ∧ jsTrim act ≠ "reset"
          | none => false
        let warnsNoCell : List String :=
          if needsCell ∧ ¬ hasParentCell then ["no-parent-cell"] else []
        let warnsInvalid : List String :=
          sigs.filterMap fun sig =>
            match matchSignal sig with
            | none => some "invalid-signal"
            | some _ => none
        let r := attachAll sigs s.nextId
        { attached := afterRemove ++ r.1
          bound := some (.list r.1)
          nextId := r.2
          warns := s.warns ++ warnsNoCell ++ warnsInvalid }

/-- signal.js v2 `cleanup` restricted to one element: remove every listener
recorded in its `boundListeners` entry and delete the entry. -/
def cleanupElem (s : ElemBindState) : ElemBindState :=
  match s.bound with
  | none => s
  | some e => { s with attached := removeEntry s.attached (some e), bound := none }

/-- Firing an event on the element: the statements of the live listeners for
that event, in attach order. -/
def fire (s : ElemBindState) (ev : String) : List String :=
  (s.attached.filter (fun l => l.event = ev)).map (fun l => l.action)

/-- The listener-table invariant: the element's live DOM listeners are
exactly the ones its `boundListeners` entry records, with pairwise-distinct
handler identities, all below the fresh counter. -/
def BindInv (s : ElemBindState) : Prop :=
  s.attached = entryOf s.bound
  ∧ (s.attached.map (fun l => l.hid)).Nodup
  ∧ ∀ l ∈ s.attached, l.hid < s.nextId

end Signal

namespace Signal

theorem removeListener_cons_self (l : Listener) (rest : List Listener) :
    removeListener (l :: rest) l.event l.hid = rest := by
  simp [removeListener]

/-- The removal loop of `bindSignalElement`/`cleanup` over an entry whose
listeners are exactly the attached ones removes them all. -/
theorem removeAll_self :
    ∀ ls : List Listener,
      ls.foldl (fun a l => removeListener a l.event l.hid) ls = []
  | [] => rfl
  | l :: rest => by
      simp only [List.foldl_cons, removeListener_cons_self]
      exact removeAll_self rest

theorem removeEntry_self (s : ElemBindState) (h : s.attached = entryOf s.bound) :
    removeEntry s.attached s.bound = [] := by
  cases hb : s.bound with
  | none => simp [removeEntry, h, hb, entryOf]
  | some e =>
      cases e with
      | legacy l =>
          rw [h, hb]
          simp [removeEntry, entryOf, removeListener_cons_self]
      | list ls =>
          rw [h, hb]
          simpa [removeEntry, entryOf] using removeAll_self ls

theorem attachAll_snd_ge :
    ∀ (sigs : List String) (nid : Nat), nid ≤ (attachAll sigs nid).2 := by
  intro sigs
  induction sigs with
  | nil => intro nid; exact Nat.le_refl _
  | cons sig rest ih =>
      intro nid
      rcases hm : matchSignal sig with _ | ⟨ev, action⟩ <;>
        simp only [attachAll, hm]
      · exact ih nid
      · exact Nat.le_trans (Nat.le_succ nid) (ih (nid + 1))

theorem attachAll_mem_bounds :
    ∀ (sigs : List String) (nid : Nat) (l : Listener),
      l ∈ (attachAll sigs nid).1 → nid ≤ l.hid ∧ l.hid < (attachAll sigs nid).2 := by
  intro sigs
  induction sigs with
  | nil => intro nid l h; simp [attachAll] at h
  | cons sig rest ih =>
      intro nid l h
      rcases hm : matchSignal sig with _ | ⟨ev, action⟩ <;>
        simp only [attachAll, hm] at h ⊢
      · exact ih nid l h
      · rcases List.mem_cons.mp h with hl | hl
        · subst hl
          exact ⟨Nat.le_refl _,
            Nat.lt_of_lt_of_le (Nat.lt_succ_self nid) (attachAll_snd_ge rest (nid + 1))⟩
        · have := ih (nid + 1) l hl
          exact ⟨Nat.le_of_succ_le this.1, this.2⟩

theorem attachAll_nodup :
    ∀ (sigs : List String) (nid : Nat),
      ((attachAll sigs nid).1.map (fun l => l.hid)).Nodup := by
  intro sigs
  induction sigs with
  | nil => intro nid; simp [attachAll]
  | cons sig rest ih =>
      intro nid
      rcases hm : matchSignal sig with _ | ⟨ev, action⟩ <;>
        simp only [attachAll, hm]
      · exact ih nid
      · simp only [List.map_cons, List.nodup_cons]
        refine ⟨?_, ih (nid + 1)⟩
        intro hmem
        rcases List.mem_map.mp hmem with ⟨l, hl, hid⟩
        have := (attachAll_mem_bounds rest (nid + 1) l hl).1
        omega

end Signal

/-- **C5.** At-most-one live listener set per element: re-binding an
element's event-binding attribute (as `initAll` does per element through
`bindSignalElement`) first removes every previously attached listener
recorded in its `boundListeners` entry before attaching the fresh set, so
afterwards exactly the new listener set is live, no superseded listener
remains, firing an event invokes only the current statements, the listener
table invariant is preserved, and `cleanup` empties the element's live
listener set. -/
theorem listener_rebind_exclusive (attrs : List (String × String)) (hasParentCell : Bool)
    (s : Signal.ElemBindState) (hinv : Signal.BindInv s) :
    Signal.BindInv (Signal.bindSignalElement attrs hasParentCell s)
    ∧ (∀ sx, Cell.getAttribute attrs "d-signal" = some sx → sx ≠ "" →
        (Signal.bindSignalElement attrs hasParentCell s).attached
          = (Signal.attachAll (Signal.splitSignals sx) s.nextId).1
        ∧ (∀ l ∈ Signal.entryOf s.bound,
            l ∉ (Signal.bindSignalElement attrs hasParentCell s).attached)
        ∧ (∀ ev, Signal.fire (Signal.bindSignalElement attrs hasParentCell s) ev
            = ((Signal.attachAll (Signal.splitSignals sx) s.nextId).1.filter
                (fun l => l.event = ev)).map (fun l => l.action)))
    ∧ (Signal.cleanupElem s).attached = [] := by
  obtain ⟨heq, hnd, hlt⟩ := hinv
  have hclean : (Signal.cleanupElem s).attached = [] := by
    cases hb : s.bound with
    | none =>
        rw [hb] at heq
        simp [Signal.cleanupElem, hb, heq, Signal.entryOf]
    | some e =>
        have := Signal.removeEntry_self s heq
        rw [hb] at this
        simp [Signal.cleanupElem, hb, this]
  cases ha : Cell.getAttribute attrs "d-signal" with
  | none =>
      refine ⟨?_, ?_, hclean⟩
      · simpa [Signal.bindSignalElement, ha] using ⟨heq, hnd, hlt⟩
      · intro sx hsx
        exact absurd hsx (by simp)
  | some sx0 =>
      by_cases hempty : sx0 = ""
      · subst hempty
        refine ⟨?_, ?_, hclean⟩
        · simpa [Signal.bindSignalElement, ha] using ⟨heq, hnd, hlt⟩
        · intro sx hsx hne
          injection hsx with hsx
          exact absurd hsx.symm hne
      · have hbind : Signal.bindSignalElement attrs hasParentCell s
            = { attached := Signal.removeEntry s.attached s.bound
                  ++ (Signal.attachAll (Signal.splitSignals sx0) s.nextId).1
                bound := some (.list (Signal.attachAll (Signal.splitSignals sx0) s.nextId).1)
                nextId := (Signal.attachAll (Signal.splitSignals sx0) s.nextId).2
                warns := s.warns
                  ++ (if (Signal.splitSignals sx0).any (fun sig =>
                        match Signal.matchSignal sig with
                        | some (_, act) =>
                            Signal.jsTrim act ≠ "submit" ∧ Signal.jsTrim act ≠ "reset"
                        | none => false) ∧ ¬ hasParentCell then ["no-parent-cell"] else [])
                  ++ ((Signal.splitSignals sx0).filterMap fun sig =>
                        match Signal.matchSignal sig with
                        | none => some "invalid-signal"
                        | some _ => none) } := by
          simp [Signal.bindSignalElement, ha, hempty]
      -- the previously attached set is removed entirely
        have hrm : Signal.removeEntry s.attached s.bound = [] := Signal.removeEntry_self s heq
        have hatt : (Signal.bindSignalElement attrs hasParentCell s).attached
            = (Signal.attachAll (Signal.splitSignals sx0) s.nextId).1 := by
          rw [hbind]
          simp [hrm]
        refine ⟨?_, ?_, hclean⟩
        · refine ⟨?_, ?_, ?_⟩
          · rw [hatt, hbind]
            simp [Signal.entryOf]
          · rw [hatt]
            exact Signal.attachAll_nodup _ _
          · intro l hl
            rw [hatt] at hl
            rw [hbind]
            exact (Signal.attachAll_mem_bounds _ s.nextId l hl).2
        · intro sx hsx hne
          injection hsx with hsx
          subst hsx
          refine ⟨hatt, ?_, ?_⟩
          · intro l hl hmem
            rw [hatt] at hmem
            have hge := (Signal.attachAll_mem_bounds _ s.nextId l hmem).1
            have hlt' := hlt l (heq ▸ hl)
            omega
          · intro ev
            rw [Signal.fire, hatt]

/-- Listener state used in the C5 witness: one superseded listener is live
and recorded. -/
def c5State : Signal.ElemBindState :=
  { attached := [⟨"click", "count = count + 5", 0⟩]
    bound := some (.list [⟨"click", "count = count + 5", 0⟩])
    nextId := 1
    warns := [] }

/-- Witness for C5 at a concrete input: re-binding
`click: count = count + 1; mouseover: open = !open` replaces the superseded
`click` listener, and firing `click` invokes only the new statement. -/
theorem listener_rebind_exclusive_witness :
    Signal.BindInv c5State
    ∧ (Signal.bindSignalElement
        [("d-signal", "click: count = count + 1; mouseover: open = !open")] true
        c5State).attached
      = (Signal.attachAll
          (Signal.splitSignals "click: count = count + 1; mouseover: open = !open") 1).1
    ∧ Signal.fire
        (Signal.bindSignalElement
          [("d-signal", "click: count = count + 1; mouseover: open = !open")] true
          c5State) "click"
      = ["count = count + 1"] := by
  have hinv : Signal.BindInv c5State := by
    refine ⟨rfl, by decide, ?_⟩
    intro l hl
    simp [c5State] at hl
    simp [hl, c5State]
  have h := listener_rebind_exclusive
    [("d-signal", "click: count = count + 1; mouseover: open = !open")] true c5State hinv
  have h2 := (h.2.1 "click: count = count + 1; mouseover: open = !open" rfl (by decide))
  refine ⟨hinv, h2.1, ?_⟩
  rw [h2.2.2 "click"]
  rfl

/-! ## Echo module (src/echo.js)

`before(surface)` (Signal.cleanup then Cell.snapshot) and
`after(surface, snapshot)` (Cell.restore, Cell.initAll, Signal.initAll) act
on the live page; here they are the parameters `before'`/`after'` over an
abstract page state `W`, and `withPreservation` is embedded exactly as the
source composes them. The source signature is
`withPreservation(surface, newContent, replaceFn)` and its body calls
`replaceFn()`; JS binds a two-argument call's callback to `newContent`,
leaving `replaceFn` undefined, and calling `undefined` throws a
`TypeError`. -/

namespace Echo

/-- A JS exception (the only one reachable here is the `TypeError` from
calling a non-function). -/
inductive JsError where
  | typeError
deriving Repr, DecidableEq

variable {W Surface Snap : Type}

/-- echo.js `withPreservation(surface, newContent, replaceFn)`:
snapshot via `before`, invoke `replaceFn()`, then restore/re-init via
`after`. Arguments are positional as in JS: an `Option` argument `none`
models an `undefined` parameter, and invoking an undefined `replaceFn`
throws. -/
def withPreservation (before' : Surface → W → Snap × W)
    (after' : Surface → Snap → W → W) (surface : Surface)
    (newContent : Option (W → W)) (replaceFn : Option (W → W)) (w : W) :
    Except JsError W :=
  let p := before' surface w
  match replaceFn with
  | none => .error .typeError
  | some f => .ok (after' surface p.1 (f p.2))

/-- The call shape used by every runtime caller (pulse.js `applyPatches`
and `sendPulse`, the facade, the auto-refresh plugin) and by the repo's own
echo test: `Echo.withPreservation(surface, () => \x7b ... \x7d)` — two arguments,
so the mutate callback binds to `newContent` and `replaceFn` is undefined. -/
def withPreservationTwoArg (before' : Surface → W → Snap × W)
    (after' : Surface → Snap → W → W) (surface : Surface) (mutate : W → W) (w : W) :
    Except JsError W :=
  withPreservation before' after' surface (some mutate) none w

end Echo

/-- **C2.** The spec's `withPreservation(root, mutate)` contract against the
code: every two-argument call (the shape used by `applyPatches`, `sendPulse`
and the facade) throws a `TypeError` — the callback binds to the unused
`newContent` parameter and the body invokes the undefined `replaceFn` — so
the mutate step and the restore/re-init steps never run; only a
three-argument call performs the documented
detach/snapshot → mutate → restore/re-bind sequence. -/
theorem withPreservation_two_arg_call_throws {W Surface Snap : Type}
    (before' : Surface → W → Snap × W) (after' : Surface → Snap → W → W)
    (surface : Surface) (mutate : W → W) (nc : Option (W → W)) (f : W → W) (w : W) :
    Echo.withPreservationTwoArg before' after' surface mutate w
        = .error Echo.JsError.typeError
    ∧ Echo.withPreservation before' after' surface nc (some f) w
        = .ok (after' surface (before' surface w).1 (f (before' surface w).2)) :=
  ⟨rfl, rfl⟩

/-! ## Pulse module (src/pulse.js `sendPulse`): per-target cancellation race

Two overlapping pulses to the same target selector, embedded as an
event-loop interleaving machine. Each task runs `sendPulse`'s synchronous
segments atomically; the scheduler events are: `issue` (the synchronous
prefix: emit start, cancel the previous context stored for the target, store
a fresh context, start the fetch) and `complete` (the task's pending await
settles and its continuation runs — the fetch await, then the body-text
await, then the apply/emit/finally suffix). A settled promise's continuation
is a microtask and runs before any later user task, so settle-plus-
continuation is one atomic scheduler event; an await whose context has been
cancelled settles as an abort rejection (fetch/abort semantics), which
`sendPulse` catches and, because `ctx.cancelled()`, swallows silently; the
`finally` deletes the target's context entry only when it still holds this
task's context. -/

namespace Pulse

/-- The two overlapping pulse tasks. -/
inductive Task where
  | one
  | two
deriving Repr, DecidableEq

/-- Program counter of one `sendPulse` invocation. -/
inductive PC where
  | notStarted
  | awaitFetch
  | awaitText
  | done
  | errored
  | silenced
deriving Repr, DecidableEq

/-- Global race state: both tasks' program counters, their contexts'
cancelled flags, the `contexts` entry for the shared target selector, and
the observable outcomes (responses applied to the target, `pulse:error`
emissions, `pulse:end` emissions, in order). -/
structure RaceState where
  pc1 : PC := .notStarted
  pc2 : PC := .notStarted
  cancelled1 : Bool := false
  cancelled2 : Bool := false
  ctxOwner : Option Task := none
  applied : List Task := []
  errors : List Task := []
  ends : List Task := []
deriving Repr, DecidableEq

/-- Scheduler events. -/
inductive Ev where
  | issue1
  | issue2
  | complete1
  | complete2
deriving Repr, DecidableEq

/-- The `finally` clause: delete the target's context entry only if it still
holds this task's context. -/
def finallyDel (s : RaceState) (t : Task) : RaceState :=
  if s.ctxOwner = some t then { s with ctxOwner := none } else s

/-- One scheduler event (`ok1`/`ok2`: whether each response is 2xx). -/
def step (ok1 ok2 : Bool) (s : RaceState) : Ev → RaceState
  | .issue1 =>
      if s.pc1 ≠ .notStarted then s
      else
        let s1 :=
          match s.ctxOwner with
          | some .one => { s with cancelled1 := true }
          | some .two => { s with cancelled2 := true }
          | none => s
        { s1 with pc1 := .awaitFetch, ctxOwner := some .one }
  | .issue2 =>
      if s.pc2 ≠ .notStarted then s
      else
        let s1 :=
          match s.ctxOwner with
          | some .one => { s with cancelled1 := true }
          | some .two => { s with cancelled2 := true }
          | none => s
        { s1 with pc2 := .awaitFetch, ctxOwner := some .two }
  | .complete1 =>
      match s.pc1 with
      | .awaitFetch =>
          if s.cancelled1 then finallyDel { s with pc1 := .silenced } .one
          else if ok1 then { s with pc1 := .awaitText }
          else finallyDel { s with pc1 := .errored, errors := s.errors ++ [.one] } .one
      | .awaitText =>
          if s.cancelled1 then finallyDel { s with pc1 := .silenced } .one
          else
            finallyDel
              { s with pc1 := .done, applied := s.applied ++ [.one],
                       ends := s.ends ++ [.one] } .one
      | _ => s
  | .complete2 =>
      match s.pc2 with
      | .awaitFetch =>
          if s.cancelled2 then finallyDel { s with pc2 := .silenced } .two
          else if ok2 then { s with pc2 := .awaitText }
          else finallyDel { s with pc2 := .errored, errors := s.errors ++ [.two] } .two
      | .awaitText =>
          if s.cancelled2 then finallyDel { s with pc2 := .silenced } .two
          else
            finallyDel
              { s with pc2 := .done, applied := s.applied ++ [.two],
                       ends := s.ends ++ [.two] } .two
      | _ => s

/-- Run a schedule. -/
def run (ok1 ok2 : Bool) (s : RaceState) (evs : List Ev) : RaceState :=
  evs.foldl (step ok1 ok2) s

/-- The initial state. -/
def raceInit : RaceState := {}

/-- Task 1 is in flight: suspended at one of its awaits. -/
def inFlight1 (s : RaceState) : Prop := s.pc1 = .awaitFetch ∨ s.pc1 = .awaitText

end Pulse

namespace Pulse

@[simp] theorem finallyDel_pc1 (s : RaceState) (t : Task) : (finallyDel s t).pc1 = s.pc1 := by
  unfold finallyDel; split <;> rfl

@[simp] theorem finallyDel_pc2 (s : RaceState) (t : Task) : (finallyDel s t).pc2 = s.pc2 := by
  unfold finallyDel; split <;> rfl

@[simp] theorem finallyDel_cancelled1 (s : RaceState) (t : Task) :
    (finallyDel s t).cancelled1 = s.cancelled1 := by
  unfold finallyDel; split <;> rfl

@[simp] theorem finallyDel_cancelled2 (s : RaceState) (t : Task) :
    (finallyDel s t).cancelled2 = s.cancelled2 := by
  unfold finallyDel; split <;> rfl

@[simp] theorem finallyDel_applied (s : RaceState) (t : Task) :
    (finallyDel s t).applied = s.applied := by
  unfold finallyDel; split <;> rfl

@[simp] theorem finallyDel_errors (s : RaceState) (t : Task) :
    (finallyDel s t).errors = s.errors := by
  unfold finallyDel; split <;> rfl

@[simp] theorem finallyDel_ends (s : RaceState) (t : Task) :
    (finallyDel s t).ends = s.ends := by
  unfold finallyDel; split <;> rfl

theorem finallyDel_ctxOwner_ne (s : RaceState) (t t' : Task) (h : s.ctxOwner ≠ some t') :
    (finallyDel s t).ctxOwner ≠ some t' := by
  unfold finallyDel; split
  · simp
  · exact h

/-- Invariant of all reachable states: an applied/errored observation pins
the corresponding program counter, and while task 2 has not started, its
context is uncancelled and the target's context entry belongs to task 1
whenever task 1 is in flight. -/
def Inv0 (s : RaceState) : Prop :=
  (Task.one ∈ s.applied → s.pc1 = .done)
  ∧ (Task.two ∈ s.applied → s.pc2 = .done)
  ∧ (Task.one ∈ s.errors → s.pc1 = .errored)
  ∧ (Task.two ∈ s.errors → s.pc2 = .errored)
  ∧ (s.pc2 = .notStarted → s.cancelled2 = false)
  ∧ (s.pc2 = .notStarted → s.ctxOwner ≠ some .two)
  ∧ (s.pc2 = .notStarted → inFlight1 s → s.ctxOwner = some .one)

theorem inv0_init : Inv0 raceInit := by
  refine ⟨?_, ?_, ?_, ?_, ?_, ?_, ?_⟩ <;> simp [raceInit, inFlight1]

theorem inv0_step (ok1 ok2 : Bool) (s : RaceState) (ev : Ev) (h : Inv0 s) :
    Inv0 (step ok1 ok2 s ev) := by
  obtain ⟨ha1, ha2, he1, he2, hcf, hctx, hown⟩ := h
  cases ev with
  | issue1 =>
      by_cases hpc : s.pc1 = .notStarted
      · cases hco : s.ctxOwner with
        | none =>
            refine ⟨?_, ?_, ?_, ?_, ?_, ?_, ?_⟩ <;> simp_all [step, inFlight1]
        | some t =>
            cases t <;>
              (refine ⟨?_, ?_, ?_, ?_, ?_, ?_, ?_⟩ <;> simp_all [step, inFlight1])
      · simp only [step, hpc, ne_eq, not_false_eq_true, if_true]
        exact ⟨ha1, ha2, he1, he2, hcf, hctx, hown⟩
  | issue2 =>
      by_cases hpc : s.pc2 = .notStarted
      · cases hco : s.ctxOwner with
        | none =>
            refine ⟨?_, ?_, ?_, ?_, ?_, ?_, ?_⟩ <;> simp_all [step, inFlight1]
        | some t =>
            cases t <;>
              (refine ⟨?_, ?_, ?_, ?_, ?_, ?_, ?_⟩ <;> simp_all [step, inFlight1])
      · simp only [step, hpc, ne_eq, not_false_eq_true, if_true]
        exact ⟨ha1, ha2, he1, he2, hcf, hctx, hown⟩
  | complete1 =>
      cases hpc : s.pc1 with
      | awaitFetch =>
          by_cases hc : s.cancelled1 = true <;> by_cases hok : ok1 = true <;>
            by_cases hco : s.ctxOwner = some Task.one <;>
              (refine ⟨?_, ?_, ?_, ?_, ?_, ?_, ?_⟩ <;>
                simp_all [step, finallyDel, inFlight1])
      | awaitText =>
          by_cases hc : s.cancelled1 = true <;>
            by_cases hco : s.ctxOwner = some Task.one <;>
              (refine ⟨?_, ?_, ?_, ?_, ?_, ?_, ?_⟩ <;>
                simp_all [step, finallyDel, inFlight1])
      | notStarted => simpa [step, hpc] using ⟨ha1, ha2, he1, he2, hcf, hctx, hown⟩
      | done => simpa [step, hpc] using ⟨ha1, ha2, he1, he2, hcf, hctx, hown⟩
      | errored => simpa [step, hpc] using ⟨ha1, ha2, he1, he2, hcf, hctx, hown⟩
      | silenced => simpa [step, hpc] using ⟨ha1, ha2, he1, he2, hcf, hctx, hown⟩
  | complete2 =>
      cases hpc : s.pc2 with
      | awaitFetch =>
          by_cases hc : s.cancelled2 = true <;> by_cases hok : ok2 = true <;>
            by_cases hco : s.ctxOwner = some Task.two <;>
              (refine ⟨?_, ?_, ?_, ?_, ?_, ?_, ?_⟩ <;>
                simp_all [step, finallyDel, inFlight1])
      | awaitText =>
          by_cases hc : s.cancelled2 = true <;>
            by_cases hco : s.ctxOwner = some Task.two <;>
              (refine ⟨?_, ?_, ?_, ?_, ?_, ?_, ?_⟩ <;>
                simp_all [step, finallyDel, inFlight1])
      | notStarted => simpa [step, hpc] using ⟨ha1, ha2, he1, he2, hcf, hctx, hown⟩
      | done => simpa [step, hpc] using ⟨ha1, ha2, he1, he2, hcf, hctx, hown⟩
      | errored => simpa [step, hpc] using ⟨ha1, ha2, he1, he2, hcf, hctx, hown⟩
      | silenced => simpa [step, hpc] using ⟨ha1, ha2, he1, he2, hcf, hctx, hown⟩

theorem inv0_run (ok1 ok2 : Bool) (evs : List Ev) (s : RaceState) (h : Inv0 s) :
    Inv0 (run ok1 ok2 s evs) := by
  induction evs generalizing s with
  | nil => exact h
  | cons ev rest ih => exact ih _ (inv0_step ok1 ok2 s ev h)

end Pulse

namespace Pulse

/-- Invariant after the second pulse for the same target has been issued
while the first was in flight: the first task's context is cancelled (and
can only end silenced), the second's is not, no response or error of task 1
is ever observed, and the target's content is exactly task 2's response once
task 2 completes. -/
def Inv2 (s : RaceState) : Prop :=
  s.cancelled1 = true
  ∧ s.cancelled2 = false
  ∧ s.pc1 ≠ .notStarted
  ∧ s.pc2 ≠ .notStarted
  ∧ Task.one ∉ s.applied
  ∧ Task.one ∉ s.errors
  ∧ s.applied = (if s.pc2 = .done then [Task.two] else [])

theorem inv2_after_issue2 (ok1 ok2 : Bool) (s : RaceState) (h : Inv0 s)
    (hns : s.pc2 = .notStarted) (hfl : inFlight1 s) :
    Inv2 (step ok1 ok2 s .issue2) := by
  obtain ⟨ha1, ha2, he1, he2, hcf, hctx, hown⟩ := h
  have hco : s.ctxOwner = some Task.one := hown hns hfl
  have h1notin : Task.one ∉ s.applied := by
    intro hm
    rcases hfl with hfl | hfl <;> simp [ha1 hm] at hfl
  have h2notin : Task.two ∉ s.applied := by
    intro hm
    simp [ha2 hm] at hns
  have happ : s.applied = [] := by
    rw [List.eq_nil_iff_forall_not_mem]
    intro x
    cases x
    · exact h1notin
    · exact h2notin
  have h1noterr : Task.one ∉ s.errors := by
    intro hm
    rcases hfl with hfl | hfl <;> simp [he1 hm] at hfl
  refine ⟨?_, ?_, ?_, ?_, ?_, ?_, ?_⟩ <;>
    simp_all [step, inFlight1]
  rcases hfl with hfl | hfl <;> simp [hfl]

theorem inv2_step (ok1 ok2 : Bool) (s : RaceState) (ev : Ev) (h : Inv2 s) :
    Inv2 (step ok1 ok2 s ev) := by
  obtain ⟨hc1, hc2, hp1, hp2, hna, hne, happ⟩ := h
  cases ev with
  | issue1 => simpa [step, hp1] using ⟨hc1, hc2, hp1, hp2, hna, hne, happ⟩
  | issue2 => simpa [step, hp2] using ⟨hc1, hc2, hp1, hp2, hna, hne, happ⟩
  | complete1 =>
      cases hpc : s.pc1 with
      | awaitFetch =>
          by_cases hco : s.ctxOwner = some Task.one <;>
            (refine ⟨?_, ?_, ?_, ?_, ?_, ?_, ?_⟩ <;>
              simp_all [step, finallyDel, inFlight1])
      | awaitText =>
          by_cases hco : s.ctxOwner = some Task.one <;>
            (refine ⟨?_, ?_, ?_, ?_, ?_, ?_, ?_⟩ <;>
              simp_all [step, finallyDel, inFlight1])
      | notStarted => exact absurd hpc hp1
      | done => simpa [step, hpc] using ⟨hc1, hc2, hp1, hp2, hna, hne, happ⟩
      | errored => simpa [step, hpc] using ⟨hc1, hc2, hp1, hp2, hna, hne, happ⟩
      | silenced => simpa [step, hpc] using ⟨hc1, hc2, hp1, hp2, hna, hne, happ⟩
  | complete2 =>
      cases hpc : s.pc2 with
      | awaitFetch =>
          by_cases hok : ok2 = true <;>
            by_cases hco : s.ctxOwner = some Task.two <;>
              (refine ⟨?_, ?_, ?_, ?_, ?_, ?_, ?_⟩ <;>
                simp_all [step, finallyDel, inFlight1])
      | awaitText =>
          by_cases hco : s.ctxOwner = some Task.two <;>
            (refine ⟨?_, ?_, ?_, ?_, ?_, ?_, ?_⟩ <;>
              simp_all [step, finallyDel, inFlight1])
      | notStarted => exact absurd hpc hp2
      | done => simpa [step, hpc] using ⟨hc1, hc2, hp1, hp2, hna, hne, happ⟩
      | errored => simpa [step, hpc] using ⟨hc1, hc2, hp1, hp2, hna, hne, happ⟩
      | silenced => simpa [step, hpc] using ⟨hc1, hc2, hp1, hp2, hna, hne, happ⟩

theorem inv2_run (ok1 ok2 : Bool) (evs : List Ev) (s : RaceState) (h : Inv2 s) :
    Inv2 (run ok1 ok2 s evs) := by
  induction evs generalizing s with
  | nil => exact h
  | cons ev rest ih => exact ih _ (inv2_step ok1 ok2 s ev h)

/-- Progress: under `Inv2`, with a 2xx second response, enough completion
events drive task 2 to `done`. -/
theorem pulse2_progress (ok1 ok2 : Bool) (evs : List Ev) (s : RaceState)
    (h : Inv2 s) (hok : ok2 = true)
    (hsteps : s.pc2 = .done
      ∨ (s.pc2 = .awaitText ∧ 1 ≤ evs.count Ev.complete2)
      ∨ (s.pc2 = .awaitFetch ∧ 2 ≤ evs.count Ev.complete2)) :
    (run ok1 ok2 s evs).pc2 = .done := by
  induction evs generalizing s with
  | nil =>
      rcases hsteps with hd | ⟨_, hcount⟩ | ⟨_, hcount⟩
      · exact hd
      · simp [List.count_nil] at hcount
      · simp [List.count_nil] at hcount
  | cons ev rest ih =>
      obtain ⟨hc1, hc2, hp1, hp2, hna, hne, happ⟩ := h
      have hinv' := inv2_step ok1 ok2 s ev ⟨hc1, hc2, hp1, hp2, hna, hne, happ⟩
      cases ev with
      | issue1 =>
          have hstep : step ok1 ok2 s .issue1 = s := by simp [step, hp1]
          refine ih (step ok1 ok2 s .issue1) hinv' ?_
          rw [hstep]
          simpa [List.count_cons] using hsteps
      | issue2 =>
          have hstep : step ok1 ok2 s .issue2 = s := by simp [step, hp2]
          refine ih (step ok1 ok2 s .issue2) hinv' ?_
          rw [hstep]
          simpa [List.count_cons] using hsteps
      | complete1 =>
          have hpc2eq : (step ok1 ok2 s .complete1).pc2 = s.pc2 := by
            cases hpc : s.pc1 <;> simp [step, hpc] <;> split_ifs <;> simp
          refine ih (step ok1 ok2 s .complete1) hinv' ?_
          rw [hpc2eq]
          simpa [List.count_cons] using hsteps
      | complete2 =>
          refine ih (step ok1 ok2 s .complete2) hinv' ?_
          rcases hsteps with hd | ⟨ht, _⟩ | ⟨hf, hcount⟩
          · left
            simp [step, hd]
          · left
            simp [step, ht, hc2]
          · right; left
            constructor
            · simp [step, hf, hc2, hok]
            · have : 2 ≤ rest.count Ev.complete2 + 1 := by
                simpa [List.count_cons] using hcount
              omega

end Pulse

/-- **C3.** Last-request-wins per target: for every schedule in which a
second pulse for the same target selector is issued while the first is still
in flight (suspended at an await), the first pulse's response is never
applied to the target, the first pulse surfaces no error event, everything
ever applied to the target is the second response — and when the second
response is 2xx and its two completion events are scheduled, exactly the
second response is applied. -/
theorem pulse_last_request_wins (ok1 ok2 : Bool) (pre post : List Pulse.Ev)
    (hfl : Pulse.inFlight1 (Pulse.run ok1 ok2 Pulse.raceInit pre))
    (hns : (Pulse.run ok1 ok2 Pulse.raceInit pre).pc2 = .notStarted) :
    Pulse.Task.one
        ∉ (Pulse.run ok1 ok2 Pulse.raceInit (pre ++ Pulse.Ev.issue2 :: post)).applied
    ∧ Pulse.Task.one
        ∉ (Pulse.run ok1 ok2 Pulse.raceInit (pre ++ Pulse.Ev.issue2 :: post)).errors
    ∧ (Pulse.run ok1 ok2 Pulse.raceInit (pre ++ Pulse.Ev.issue2 :: post)).applied
        = (if (Pulse.run ok1 ok2 Pulse.raceInit (pre ++ Pulse.Ev.issue2 :: post)).pc2
              = Pulse.PC.done
           then [Pulse.Task.two] else [])
    ∧ (ok2 = true → 2 ≤ post.count Pulse.Ev.complete2 →
        (Pulse.run ok1 ok2 Pulse.raceInit (pre ++ Pulse.Ev.issue2 :: post)).applied
          = [Pulse.Task.two]) := by
  have hrw : Pulse.run ok1 ok2 Pulse.raceInit (pre ++ Pulse.Ev.issue2 :: post)
      = Pulse.run ok1 ok2
          (Pulse.step ok1 ok2 (Pulse.run ok1 ok2 Pulse.raceInit pre) .issue2) post := by
    unfold Pulse.run
    rw [List.foldl_append, List.foldl_cons]
  have h0 := Pulse.inv0_run ok1 ok2 pre Pulse.raceInit Pulse.inv0_init
  have h2 := Pulse.inv2_after_issue2 ok1 ok2 _ h0 hns hfl
  have hfin := Pulse.inv2_run ok1 ok2 post _ h2
  rw [hrw]
  obtain ⟨hc1, hc2, hp1, hp2, hna, hne, happ⟩ := hfin
  refine ⟨hna, hne, happ, ?_⟩
  intro hok hcount
  have hpc2af : (Pulse.step ok1 ok2 (Pulse.run ok1 ok2 Pulse.raceInit pre) .issue2).pc2
      = Pulse.PC.awaitFetch := by
    simp [Pulse.step, hns]
  have hdone := Pulse.pulse2_progress ok1 ok2 post _ h2 hok
    (Or.inr (Or.inr ⟨hpc2af, hcount⟩))
  rw [happ, if_pos hdone]

/-- Witness for C3 at a concrete schedule: pulse 1 is issued and suspends at
its fetch; pulse 2 for the same target is then issued; the first pulse's
await settles (as an abort), then the second completes its two awaits. Only
the second response is applied. -/
theorem pulse_last_request_wins_witness :
    Pulse.inFlight1 (Pulse.run true true Pulse.raceInit [Pulse.Ev.issue1])
    ∧ (Pulse.run true true Pulse.raceInit [Pulse.Ev.issue1]).pc2 = Pulse.PC.notStarted
    ∧ (Pulse.run true true Pulse.raceInit
        ([Pulse.Ev.issue1] ++ Pulse.Ev.issue2
          :: [Pulse.Ev.complete1, Pulse.Ev.complete2, Pulse.Ev.complete2])).applied
      = [Pulse.Task.two]
    ∧ Pulse.Task.one
        ∉ (Pulse.run true true Pulse.raceInit
            ([Pulse.Ev.issue1] ++ Pulse.Ev.issue2
              :: [Pulse.Ev.complete1, Pulse.Ev.complete2, Pulse.Ev.complete2])).errors :=
  have h := pulse_last_request_wins true true [Pulse.Ev.issue1]
    [Pulse.Ev.complete1, Pulse.Ev.complete2, Pulse.Ev.complete2]
    (Or.inl rfl) rfl
  ⟨Or.inl rfl, rfl, h.2.2.2 rfl (by decide), h.2.1⟩

/-! ## DOM tree model for binding updates (signal.js v2 `updateBindings`)

Elements are tree nodes carrying tag, attributes, the inline
`style.display` value and children; positions (paths of child indices)
address nodes, mirroring element references. `querySelectorAll('[a]')`
returns the strict-descendant positions carrying attribute `a` in document
order; `el.closest('[d-cell]')` is the nearest self-or-ancestor position
whose element carries `d-cell`. A pass iterates the position list computed
at its start and re-resolves each position against the current tree — a
position invalidated by an earlier `textContent` wipe resolves to a text
node or nothing and is skipped, exactly as the real pass's mutation of a
detached element (whose `closest` chain is severed) has no effect on the
document. -/

namespace Dom

/-- A DOM node. -/
inductive DNode where
  | elem (tag : String) (attrs : List (String × String)) (display : String)
      (children : List DNode)
  | text (s : String)
deriving Repr

/-- A position: path of child indices from the root. -/
abbrev Pos := List Nat

/-- Node at a position. -/
def getNode : DNode → Pos → Option DNode
  | n, [] => some n
  | .elem _ _ _ cs, i :: p =>
      (match cs[i]? with
       | some c => getNode c p
       | none => none)
  | .text _, _ :: _ => none

/-- Replace the node at a position (no-op when the position does not
exist). -/
def setNode : DNode → Pos → DNode → DNode
  | _, [], n' => n'
  | .elem t a d cs, i :: p, n' =>
      .elem t a d (cs.set i
        (match cs[i]? with
         | some c => setNode c p n'
         | none => .text ""))
  | .text s, _ :: _, _ => .text s

/-- The element's own data (tag, attributes, display) or text content at a
position — the node without its subtree. -/
def nodeView (t : DNode) (p : Pos) :
    Option (Sum (String × List (String × String) × String) String) :=
  match getNode t p with
  | some (.elem tag a d _) => some (.inl (tag, a, d))
  | some (.text s) => some (.inr s)
  | none => none

/-- The attributes of the element at a position (a function of the node's
own data). -/
def attrsView (t : DNode) (p : Pos) : Option (List (String × String)) :=
  match nodeView t p with
  | some (.inl (_, a, _)) => some a
  | _ => none

/-- Whether the node at a position is an element carrying an attribute. -/
def hasAttrAt (t : DNode) (p : Pos) (name : String) : Bool :=
  match attrsView t p with
  | some a => Cell.hasAttribute a name
  | none => false

/-- Whether the element at a position is a Cell boundary. -/
def hasCellAt (t : DNode) (p : Pos) : Bool := hasAttrAt t p "d-cell"

mutual

/-- Strict-descendant positions of a node, document order. -/
def descPos : DNode → List Pos
  | .text _ => []
  | .elem _ _ _ cs => descPosIdx 0 cs

/-- Descendant positions of a child list starting at child index `i`. -/
def descPosIdx : Nat → List DNode → List Pos
  | _, [] => []
  | i, c :: rest => [i] :: ((descPos c).map (i :: ·)) ++ descPosIdx (i + 1) rest

end

/-- The position itself followed by its ancestors up to the root. -/
def selfAncestorsGo : Nat → Pos → List Pos
  | 0, p => [p]
  | n + 1, p => p :: selfAncestorsGo n p.dropLast

/-- `element.closest` search order: self, parent, ..., root. -/
def selfAncestors (p : Pos) : List Pos := selfAncestorsGo p.length p

/-- `el.closest('[d-cell]')` (signal.js `findParentCell`): the nearest
self-or-ancestor element carrying `d-cell`. -/
def closestCell (t : DNode) (p : Pos) : Option Pos :=
  (selfAncestors p).find? (fun q => hasCellAt t q)

/-- `cellElement.querySelectorAll('[name]')`: strict-descendant positions of
`base` whose element carries the attribute, in document order, as absolute
positions. -/
def queryAttrUnder (t : DNode) (base : Pos) (name : String) : List Pos :=
  match getNode t base with
  | some n => (descPos n).filterMap
      (fun p => if hasAttrAt n p name then some (base ++ p) else none)
  | none => []

/-- `el.textContent = s`: the replacement child list (the empty string
produces no text node). -/
def textChildren (s : String) : List DNode :=
  if s = "" then [] else [.text s]

/-- `setAttribute` on an attribute list (update in place or append). -/
def attrSet (attrs : List (String × String)) (name v : String) :
    List (String × String) :=
  match attrs with
  | [] => [(name, v)]
  | (n, v') :: rest =>
      if n = name then (n, v) :: rest else (n, v') :: attrSet rest name v

/-- `removeAttribute`. -/
def attrRemove (attrs : List (String × String)) (name : String) :
    List (String × String) :=
  attrs.filter (fun nv => nv.1 ≠ name)

/-- The token list of a `class` attribute. -/
def classTokens (s : String) : List String :=
  (Signal.splitChar ' ' s).filter (fun tk => tk ≠ "")

/-- `classList.add`. -/
def addClass (attrs : List (String × String)) (cls : String) :
    List (String × String) :=
  let tokens := classTokens ((Cell.getAttribute attrs "class").getD "")
  attrSet attrs "class"
    (String.intercalate " " (if cls ∈ tokens then tokens else tokens ++ [cls]))

/-- `classList.remove`. -/
def removeClass (attrs : List (String × String)) (cls : String) :
    List (String × String) :=
  let tokens := classTokens ((Cell.getAttribute attrs "class").getD "")
  attrSet attrs "class" (String.intercalate " " (tokens.filter (fun tk => tk ≠ cls)))

/-- The `class.NAME: expr` sub-binding regex `^class\.([\w-]+):\s*(.+)$`. -/
def matchClassBinding (s : String) : Option (String × String) :=
  if Signal.strStarts s "class." then
    let cs := s.data.drop 6
    let run := cs.takeWhile (fun c => Signal.isWordChar c ∨ c = '-')
    if run = [] then none
    else
      match cs.dropWhile (fun c => Signal.isWordChar c ∨ c = '-') with
      | ':' :: rest =>
          (match Signal.captureRest rest with
           | some expr => some (String.mk run, String.mk expr)
           | none => none)
      | _ => none
  else none

/-- The `NAME: expr` sub-binding regex `^([\w-]+):(.+)$`. -/
def matchAttrBinding (s : String) : Option (String × String) :=
  let cs := s.data
  let run := cs.takeWhile (fun c => Signal.isWordChar c ∨ c = '-')
  if run = [] then none
  else
    match cs.dropWhile (fun c => Signal.isWordChar c ∨ c = '-') with
    | ':' :: rest =>
        if rest = [] then none else some (String.mk run, String.mk rest)
    | _ => none

end Dom

namespace Dom

/-- Attribute table of the tree's elements (empty for text nodes and absent
positions), instantiating the Cell store's element accessor. -/
def attrsAt (t : DNode) : Pos → List (String × String) :=
  fun p => (attrsView t p).getD []

/-- One `d-text` binding update: if the position still resolves to an
element carrying `d-text` whose nearest enclosing Cell is `cellPos`, set its
text content to the evaluated value's string form (skip when the value is
`undefined`). -/
def textStep (modules : Signal.Modules) (state : JsObj) (cellPos : Pos)
    (t : DNode) (q : Pos) : DNode :=
  match getNode t q with
  | some (.elem tag a d _) =>
      if Cell.hasAttribute a "d-text" ∧ closestCell t q = some cellPos then
        let prop := (Cell.getAttribute a "d-text").getD ""
        let value := Signal.evaluate modules prop state
        if ¬ Signal.isUndef value then
          setNode t q (.elem tag a d (textChildren (Signal.jsToString value)))
        else t
      else t
  | _ => t

/-- One `d-show` binding update: toggle the inline display on truthiness of
the evaluated expression (an undefined value hides). -/
def showStep (modules : Signal.Modules) (state : JsObj) (cellPos : Pos)
    (t : DNode) (q : Pos) : DNode :=
  match getNode t q with
  | some (.elem tag a _ cs) =>
      if Cell.hasAttribute a "d-show" ∧ closestCell t q = some cellPos then
        let expr := (Cell.getAttribute a "d-show").getD ""
        let visible := Signal.evaluate modules expr state
        setNode t q (.elem tag a (if JsVal.truthy visible then "" else "none") cs)
      else t
  | _ => t

/-- One `name:expr` or `class.NAME:expr` sub-binding of a `d-attr` value. -/
def applyAttrBinding (modules : Signal.Modules) (state : JsObj)
    (t : DNode) (q : Pos) (b : String) : DNode :=
  match getNode t q with
  | some (.elem tag a d cs) =>
      (match matchClassBinding b with
       | some (cls, expr) =>
           let shouldAdd := Signal.evaluate modules (Signal.jsTrim expr) state
           if JsVal.truthy shouldAdd then
             setNode t q (.elem tag (addClass a cls) d cs)
           else
             setNode t q (.elem tag (removeClass a cls) d cs)
       | none =>
         match matchAttrBinding b with
         | some (name, expr) =>
             (match Signal.evaluate modules (Signal.jsTrim expr) state with
              | .undef => t
              | .bool true => setNode t q (.elem tag (attrSet a name "") d cs)
              | .bool false => setNode t q (.elem tag (attrRemove a name) d cs)
              | v => setNode t q (.elem tag (attrSet a name (Signal.jsToString v)) d cs))
         | none => t)
  | _ => t

/-- One `d-attr` element update: split the attribute value into sub-bindings
(`splitSignals`) and apply each. -/
def attrStep (modules : Signal.Modules) (state : JsObj) (cellPos : Pos)
    (t : DNode) (q : Pos) : DNode :=
  match getNode t q with
  | some (.elem _ a _ _) =>
      if Cell.hasAttribute a "d-attr" ∧ closestCell t q = some cellPos then
        let attrExpr := (Cell.getAttribute a "d-attr").getD ""
        if attrExpr = "" then t
        else
          (Signal.splitSignals attrExpr).foldl
            (fun t' b => applyAttrBinding modules state t' q b) t
      else t
  | _ => t

/-- The `d-text` pass (positions computed at pass start). -/
def textPass (modules : Signal.Modules) (state : JsObj) (t : DNode) (cellPos : Pos) :
    DNode :=
  (queryAttrUnder t cellPos "d-text").foldl (textStep modules state cellPos) t

/-- The `d-show` pass. -/
def showPass (modules : Signal.Modules) (state : JsObj) (t : DNode) (cellPos : Pos) :
    DNode :=
  (queryAttrUnder t cellPos "d-show").foldl (showStep modules state cellPos) t

/-- The `d-attr` pass. -/
def attrPass (modules : Signal.Modules) (state : JsObj) (t : DNode) (cellPos : Pos) :
    DNode :=
  (queryAttrUnder t cellPos "d-attr").foldl (attrStep modules state cellPos) t

/-- signal.js v2 `updateBindings(cellElement)`: read the cell's state
(auto-initializing through the Cell store), then run the `d-text`, `d-show`
and `d-attr` passes, each over the bound elements found under the cell at
that pass's start, skipping any whose nearest enclosing Cell is not this
cell. (The closing `signal:update` event emission carries no state and is
not modelled.) -/
def updateBindings (modules : Signal.Modules) (parseSeed : String → JsObj)
    (t : DNode) (st : Cell.Store Pos) (cellPos : Pos) : DNode × Cell.Store Pos :=
  let r := Cell.getState (attrsAt t) parseSeed st cellPos
  let t1 := textPass modules r.1 t cellPos
  let t2 := showPass modules r.1 t1 cellPos
  let t3 := attrPass modules r.1 t2 cellPos
  (t3, r.2)

end Dom

namespace Dom

theorem getNode_append (t : DNode) (q s : Pos) :
    getNode t (q ++ s)
      = match getNode t q with
        | some c => getNode c s
        | none => none := by
  induction q generalizing t with
  | nil => simp [getNode]
  | cons i q' ih =>
      cases t with
      | text s0 => simp [getNode]
      | elem tag a d cs =>
          simp only [List.cons_append, getNode]
          cases h : cs[i]? with
          | none => simp [h]
          | some c => simpa [h] using ih c

theorem get?_set_self (l : List DNode) (i : Nat) (a : DNode) (h : i < l.length) :
    (l.set i a)[i]? = some a := by
  induction l generalizing i with
  | nil => simp at h
  | cons x xs ih =>
      cases i with
      | zero => simp [List.set]
      | succ i' => simpa using ih i' (by simpa using h)

theorem get?_set_ne (l : List DNode) (i j : Nat) (a : DNode) (h : i ≠ j) :
    (l.set i a)[j]? = l[j]? := by
  induction l generalizing i j with
  | nil => rfl
  | cons x xs ih =>
      cases i with
      | zero =>
          cases j with
          | zero => exact absurd rfl h
          | succ j' => simp [List.set]
      | succ i' =>
          cases j with
          | zero => simp [List.set]
          | succ j' => simpa using ih i' j' (fun he => h (by rw [he]))

theorem set_oob (l : List DNode) (i : Nat) (a : DNode) (h : l.length ≤ i) :
    l.set i a = l := by
  induction l generalizing i with
  | nil => rfl
  | cons x xs ih =>
      cases i with
      | zero => simp at h
      | succ i' => simp [List.set, ih i' (by simpa using h)]

theorem nodeView_cons (tag : String) (a : List (String × String)) (d : String)
    (cs : List DNode) (j : Nat) (p : Pos) :
    nodeView (.elem tag a d cs) (j :: p)
      = match cs[j]? with
        | some c => nodeView c p
        | none => none := by
  cases h : cs[j]? <;> simp [nodeView, getNode, h]

theorem nodeView_setNode_of_not_under (t : DNode) (q p : Pos) (n : DNode)
    (h : ¬ q <+: p) :
    nodeView (setNode t q n) p = nodeView t p := by
  induction q generalizing t p with
  | nil => exact absurd (List.nil_prefix) h
  | cons i q' ih =>
      cases t with
      | text s0 => simp [setNode]
      | elem tag a d cs =>
          cases p with
          | nil => simp [setNode, nodeView, getNode]
          | cons j p' =>
              by_cases hij : i = j
              · subst hij
                have hq' : ¬ q' <+: p' := fun hp => h (List.prefix_cons_inj i |>.mpr hp)
                cases hg : cs[i]? with
                | none =>
                    have hlen : cs.length ≤ i := by
                      by_contra hlt
                      push_neg at hlt
                      simp [List.getElem?_eq_getElem hlt] at hg
                    simp [setNode, hg, set_oob cs i _ hlen]
                | some c =>
                    have hg2 : i < cs.length := by
                      by_contra hge
                      push_neg at hge
                      simp [List.getElem?_eq_none hge] at hg
                    have hset : (cs.set i (setNode c q' n))[i]? = some (setNode c q' n) :=
                      get?_set_self _ _ _ hg2
                    simp only [setNode, nodeView_cons, hg, hset]
                    exact ih c p' hq'
              · have hget : (cs.set i (match cs[i]? with
                    | some c => setNode c q' n
                    | none => .text ""))[j]? = cs[j]? :=
                  get?_set_ne _ _ _ _ hij
                simp only [setNode, nodeView_cons, hget]

theorem getNode_setNode_self (t : DNode) (q : Pos) (n c : DNode)
    (h : getNode t q = some c) :
    getNode (setNode t q n) q = some n := by
  induction q generalizing t c with
  | nil =>
      have h1 : setNode t [] n = n := by cases t <;> rfl
      have h2 : getNode n [] = some n := by cases n <;> rfl
      rw [h1, h2]
  | cons i q' ih =>
      cases t with
      | text s0 => simp [getNode] at h
      | elem tag a d cs =>
          simp only [getNode] at h
          cases hg : cs[i]? with
          | none => simp [hg] at h
          | some c0 =>
              rw [hg] at h
              have hg2 : i < cs.length := by
                by_contra hge
                push_neg at hge
                simp [List.getElem?_eq_none hge] at hg
              have hset : (cs.set i (setNode c0 q' n))[i]? = some (setNode c0 q' n) :=
                get?_set_self _ _ _ hg2
              simp only [setNode, getNode, hg, hset]
              exact ih c0 c h

theorem getNode_setNode_under (t : DNode) (q s : Pos) (n c : DNode)
    (h : getNode t q = some c) :
    getNode (setNode t q n) (q ++ s) = getNode n s := by
  rw [getNode_append, getNode_setNode_self t q n c h]

theorem attrsView_congr (t t' : DNode) (p : Pos)
    (h : nodeView t p = nodeView t' p) : attrsView t p = attrsView t' p := by
  unfold attrsView
  rw [h]

theorem hasAttrAt_congr (t t' : DNode) (p : Pos) (name : String)
    (h : nodeView t p = nodeView t' p) : hasAttrAt t p name = hasAttrAt t' p name := by
  unfold hasAttrAt
  rw [attrsView_congr t t' p h]

theorem selfAncestors_nil : selfAncestors ([] : Pos) = [[]] := rfl

theorem selfAncestors_cons (p : Pos) (h : p ≠ []) :
    selfAncestors p = p :: selfAncestors p.dropLast := by
  unfold selfAncestors
  cases hl : p.length with
  | zero => exact absurd (List.length_eq_zero.mp hl) h
  | succ m =>
      have hdl : p.dropLast.length = m := by
        simp [List.length_dropLast, hl]
      rw [hdl]
      rfl

theorem selfAncestors_ne_nil (p : Pos) : selfAncestors p ≠ [] := by
  by_cases h : p = []
  · subst h; simp [selfAncestors_nil]
  · rw [selfAncestors_cons p h]; simp

theorem selfAncestors_append_aux (q : Pos) :
    ∀ (m : Nat) (s : Pos), s.length = m →
      selfAncestors (q ++ s)
        = ((selfAncestors s).dropLast).map (fun r => q ++ r) ++ selfAncestors q := by
  intro m
  induction m with
  | zero =>
      intro s hn
      have hs : s = [] := List.length_eq_zero.mp hn
      subst hs
      simp [selfAncestors_nil]
  | succ m ih =>
      intro s hn
      have hne : s ≠ [] := by
        intro he
        subst he
        simp at hn
      have hqs : q ++ s ≠ [] := by
        intro he
        rcases List.append_eq_nil.mp he with ⟨_, h2⟩
        exact hne h2
      rw [selfAncestors_cons _ hqs, selfAncestors_cons s hne]
      have hdl : (q ++ s).dropLast = q ++ s.dropLast :=
        List.dropLast_append_of_ne_nil q hne
      rw [hdl, ih s.dropLast (by simp [List.length_dropLast, hn])]
      rw [List.dropLast_cons_of_ne_nil (selfAncestors_ne_nil _)]
      simp

theorem selfAncestors_append (q s : Pos) :
    selfAncestors (q ++ s)
      = ((selfAncestors s).dropLast).map (fun r => q ++ r) ++ selfAncestors q :=
  selfAncestors_append_aux q s.length s rfl

theorem closest_self (t : DNode) (p : Pos) (h : hasCellAt t p = true) :
    closestCell t p = some p := by
  unfold closestCell
  by_cases hp : p = []
  · subst hp
    simp [selfAncestors_nil, List.find?, h]
  · rw [selfAncestors_cons p hp]
    simp [List.find?, h]

theorem find?_transfer (f g : Pos → Bool) (L : List Pos) (x : Pos)
    (hf : L.find? f = some x) (hgx : g x = true)
    (hfg : ∀ r ∈ L, f r = false → g r = false) :
    L.find? g = some x := by
  induction L with
  | nil => simp at hf
  | cons r rest ih =>
      by_cases hr : f r = true
      · rw [List.find?_cons_of_pos _ hr] at hf
        injection hf with hf
        subst hf
        rw [List.find?_cons_of_pos _ hgx]
      · have hrf : f r = false := by simpa using hr
        have hgr : g r = false := hfg r (List.mem_cons_self r rest) hrf
        rw [List.find?_cons_of_neg _ (by simp [hrf])] at hf
        rw [List.find?_cons_of_neg _ (by simp [hgr])]
        exact ih hf (fun r' hm => hfg r' (List.mem_cons_of_mem r hm))

/-- Transfer of a `closest` hit from a mutated tree back to the original:
if Cell boundaries differ only inside the region owned by `cellPos` (at
positions that carry no boundary in the original), a `closest` chain ending
at `cellPos` in the mutated tree ends at `cellPos` in the original too. -/
theorem closest_transfer (t root : DNode) (cellPos : Pos)
    (hK2 : ∀ r, hasCellAt t r ≠ hasCellAt root r →
        closestCell root r = some cellPos ∧ hasCellAt root r = false)
    (hcp : hasCellAt root cellPos = true) (p : Pos)
    (h : closestCell t p = some cellPos) :
    closestCell root p = some cellPos := by
  unfold closestCell at h ⊢
  refine find?_transfer _ _ _ _ h hcp ?_
  intro r _ hfr
  by_cases hdiff : hasCellAt t r = hasCellAt root r
  · rw [← hdiff, hfr]
  · exact (hK2 r hdiff).2

theorem mem_dropLast_selfAncestors_aux :
    ∀ (m : Nat) (s : Pos), s.length = m → ∀ r ∈ (selfAncestors s).dropLast, r ≠ [] := by
  intro m
  induction m with
  | zero =>
      intro s hn r hr
      have hs : s = [] := List.length_eq_zero.mp hn
      subst hs
      simp [selfAncestors_nil] at hr
  | succ m ih =>
      intro s hn r hr
      have hne : s ≠ [] := by
        intro he
        subst he
        simp at hn
      rw [selfAncestors_cons s hne,
        List.dropLast_cons_of_ne_nil (selfAncestors_ne_nil _)] at hr
      rcases List.mem_cons.mp hr with hr | hr
      · subst hr; exact hne
      · exact ih s.dropLast (by simp [List.length_dropLast, hn]) r hr

theorem mem_dropLast_selfAncestors (s r : Pos)
    (h : r ∈ (selfAncestors s).dropLast) : r ≠ [] :=
  mem_dropLast_selfAncestors_aux s.length s rfl r h

/-- Extending a `closest` chain downwards through boundary-free positions. -/
theorem closest_extend (t : DNode) (q : Pos) (c : Pos)
    (h : closestCell t q = some c)
    (hunder : ∀ s, s ≠ [] → hasCellAt t (q ++ s) = false) :
    ∀ s, closestCell t (q ++ s) = some c := by
  intro s
  unfold closestCell
  rw [selfAncestors_append, List.find?_append]
  have hfirst : ((selfAncestors s).dropLast.map (fun r => q ++ r)).find?
      (fun r => hasCellAt t r) = none := by
    rw [List.find?_eq_none]
    intro r hr
    rcases List.mem_map.mp hr with ⟨s', hs', rfl⟩
    simp [hunder s' (mem_dropLast_selfAncestors s s' hs')]
  rw [hfirst]
  exact h

theorem descPosIdx_ne_nil (cs : List DNode) : ∀ (i : Nat),
    ∀ p ∈ descPosIdx i cs, p ≠ [] := by
  induction cs with
  | nil => intro i p hp; simp [descPosIdx] at hp
  | cons c rest ih =>
      intro i p hp
      rw [descPosIdx] at hp
      rcases List.mem_cons.mp hp with hp | hp
      · subst hp; simp
      · rcases List.mem_append.mp hp with hp | hp
        · rcases List.mem_map.mp hp with ⟨r, _, rfl⟩
          simp
        · exact ih (i + 1) p hp

theorem queryAttrUnder_shape (t : DNode) (base : Pos) (name : String) :
    ∀ p ∈ queryAttrUnder t base name, ∃ d, d ≠ [] ∧ p = base ++ d := by
  intro p hp
  unfold queryAttrUnder at hp
  cases hg : getNode t base with
  | none => rw [hg] at hp; simp at hp
  | some n =>
      rw [hg] at hp
      rcases List.mem_filterMap.mp hp with ⟨d, hd, hif⟩
      by_cases hcond : hasAttrAt n d name
      · rw [if_pos hcond] at hif
        injection hif with hif
        refine ⟨d, ?_, hif.symm⟩
        cases n with
        | text s0 => simp [descPos] at hd
        | elem tag a dis cs => exact descPosIdx_ne_nil cs 0 d hd
      · rw [if_neg hcond] at hif
        simp at hif

theorem closestCell_hasCell (t : DNode) (p c : Pos)
    (h : closestCell t p = some c) : hasCellAt t c = true := by
  unfold closestCell at h
  exact List.find?_some h

theorem closest_congr (t t' : DNode) (p : Pos)
    (h : ∀ r, hasCellAt t r = hasCellAt t' r) :
    closestCell t p = closestCell t' p := by
  unfold closestCell
  have he : (fun q => hasCellAt t q) = (fun q => hasCellAt t' q) := funext h
  rw [he]

theorem nodeView_congr_getNode (t t' : DNode) (p p' : Pos)
    (h : getNode t p = getNode t' p') : nodeView t p = nodeView t' p' := by
  unfold nodeView
  rw [h]

theorem hasCellAt_congr (t t' : DNode) (p : Pos)
    (h : nodeView t p = nodeView t' p) : hasCellAt t p = hasCellAt t' p := by
  unfold hasCellAt
  exact hasAttrAt_congr t t' p "d-cell" h

theorem attrsView_of_getNode_elem (t : DNode) (q : Pos) (tag : String)
    (a : List (String × String)) (d : String) (cs : List DNode)
    (hg : getNode t q = some (.elem tag a d cs)) : attrsView t q = some a := by
  unfold attrsView nodeView
  rw [hg]

theorem hasAttrAt_of_attrsView_some (t : DNode) (q : Pos)
    (a : List (String × String)) (name : String)
    (h : attrsView t q = some a) :
    hasAttrAt t q name = Cell.hasAttribute a name := by
  unfold hasAttrAt
  rw [h]

theorem hasAttrAt_of_attrsView_none (t : DNode) (q : Pos) (name : String)
    (h : attrsView t q = none) : hasAttrAt t q name = false := by
  unfold hasAttrAt
  rw [h]

theorem attrsView_some_elim (t : DNode) (q : Pos) (a : List (String × String))
    (h : attrsView t q = some a) :
    ∃ tag d cs, getNode t q = some (.elem tag a d cs) := by
  unfold attrsView nodeView at h
  cases hg : getNode t q with
  | none => rw [hg] at h; simp at h
  | some n =>
      cases n with
      | text s0 => rw [hg] at h; simp at h
      | elem tag a0 d cs =>
          rw [hg] at h
          simp at h
          subst h
          exact ⟨tag, d, cs, rfl⟩

theorem attrsView_textChildren (tag : String) (a : List (String × String))
    (d str : String) (s : Pos) (hs : s ≠ []) :
    attrsView (.elem tag a d (textChildren str)) s = none := by
  cases s with
  | nil => exact absurd rfl hs
  | cons i s' =>
      unfold attrsView nodeView
      by_cases he : str = ""
      · simp [textChildren, he, getNode]
      · cases i with
        | zero =>
            cases s' with
            | nil => simp [textChildren, he, getNode]
            | cons j s'' => simp [textChildren, he, getNode]
        | succ i' => simp [textChildren, he, getNode]

theorem nodeView_setNode_sameChildren (t : DNode) (q : Pos) (tag : String)
    (a : List (String × String)) (d : String) (cs : List DNode)
    (tag' : String) (a' : List (String × String)) (d' : String)
    (hg : getNode t q = some (.elem tag a d cs)) :
    ∀ p, p ≠ q → nodeView (setNode t q (.elem tag' a' d' cs)) p = nodeView t p := by
  intro p hp
  by_cases hpre : q <+: p
  · obtain ⟨s, rfl⟩ := hpre
    cases s with
    | nil => exact absurd (List.append_nil q) hp
    | cons j s' =>
        have e1 : getNode (setNode t q (.elem tag' a' d' cs)) (q ++ j :: s')
            = getNode (DNode.elem tag' a' d' cs) (j :: s') :=
          getNode_setNode_under t q (j :: s') _ _ hg
        have e2 : getNode t (q ++ j :: s') = getNode (DNode.elem tag a d cs) (j :: s') := by
          rw [getNode_append, hg]
        unfold nodeView
        rw [e1, e2]
        simp only [getNode]
  · exact nodeView_setNode_of_not_under t q p _ hpre

theorem textStep_eq_of_none (m : Signal.Modules) (state : JsObj) (cellPos : Pos)
    (t : DNode) (q : Pos) (hg : getNode t q = none) :
    textStep m state cellPos t q = t := by
  unfold textStep
  rw [hg]

theorem textStep_eq_of_text (m : Signal.Modules) (state : JsObj) (cellPos : Pos)
    (t : DNode) (q : Pos) (s0 : String) (hg : getNode t q = some (.text s0)) :
    textStep m state cellPos t q = t := by
  unfold textStep
  rw [hg]

theorem textStep_eq_of_elem (m : Signal.Modules) (state : JsObj) (cellPos : Pos)
    (t : DNode) (q : Pos) (tag : String) (a : List (String × String))
    (d : String) (cs : List DNode)
    (hg : getNode t q = some (.elem tag a d cs)) :
    textStep m state cellPos t q
      = if Cell.hasAttribute a "d-text" = true ∧ closestCell t q = some cellPos then
          (if ¬ Signal.isUndef (Signal.evaluate m
                ((Cell.getAttribute a "d-text").getD "") state) = true then
            setNode t q (.elem tag a d (textChildren (Signal.jsToString
              (Signal.evaluate m ((Cell.getAttribute a "d-text").getD "") state))))
          else t)
        else t := by
  unfold textStep
  rw [hg]

theorem showStep_eq_of_none (m : Signal.Modules) (state : JsObj) (cellPos : Pos)
    (t : DNode) (q : Pos) (hg : getNode t q = none) :
    showStep m state cellPos t q = t := by
  unfold showStep
  rw [hg]

theorem showStep_eq_of_text (m : Signal.Modules) (state : JsObj) (cellPos : Pos)
    (t : DNode) (q : Pos) (s0 : String) (hg : getNode t q = some (.text s0)) :
    showStep m state cellPos t q = t := by
  unfold showStep
  rw [hg]

theorem showStep_eq_of_elem (m : Signal.Modules) (state : JsObj) (cellPos : Pos)
    (t : DNode) (q : Pos) (tag : String) (a : List (String × String))
    (d : String) (cs : List DNode)
    (hg : getNode t q = some (.elem tag a d cs)) :
    showStep m state cellPos t q
      = if Cell.hasAttribute a "d-show" = true ∧ closestCell t q = some cellPos then
          setNode t q (.elem tag a
            (if JsVal.truthy (Signal.evaluate m
                ((Cell.getAttribute a "d-show").getD "") state) then "" else "none") cs)
        else t := by
  unfold showStep
  rw [hg]

theorem attrStep_eq_of_none (m : Signal.Modules) (state : JsObj) (cellPos : Pos)
    (t : DNode) (q : Pos) (hg : getNode t q = none) :
    attrStep m state cellPos t q = t := by
  unfold attrStep
  rw [hg]

theorem attrStep_eq_of_text (m : Signal.Modules) (state : JsObj) (cellPos : Pos)
    (t : DNode) (q : Pos) (s0 : String) (hg : getNode t q = some (.text s0)) :
    attrStep m state cellPos t q = t := by
  unfold attrStep
  rw [hg]

theorem attrStep_eq_of_elem (m : Signal.Modules) (state : JsObj) (cellPos : Pos)
    (t : DNode) (q : Pos) (tag : String) (a : List (String × String))
    (d : String) (cs : List DNode)
    (hg : getNode t q = some (.elem tag a d cs)) :
    attrStep m state cellPos t q
      = if Cell.hasAttribute a "d-attr" = true ∧ closestCell t q = some cellPos then
          (if (Cell.getAttribute a "d-attr").getD "" = "" then t
          else
            (Signal.splitSignals ((Cell.getAttribute a "d-attr").getD "")).foldl
              (fun t' b => applyAttrBinding m state t' q b) t)
        else t := by
  unfold attrStep
  rw [hg]

theorem applyAttrBinding_eq_of_none (m : Signal.Modules) (state : JsObj)
    (t : DNode) (q : Pos) (b : String) (hg : getNode t q = none) :
    applyAttrBinding m state t q b = t := by
  unfold applyAttrBinding
  rw [hg]

theorem applyAttrBinding_eq_of_text (m : Signal.Modules) (state : JsObj)
    (t : DNode) (q : Pos) (b : String) (s0 : String)
    (hg : getNode t q = some (.text s0)) :
    applyAttrBinding m state t q b = t := by
  unfold applyAttrBinding
  rw [hg]

theorem applyAttrBinding_eq_class (m : Signal.Modules) (state : JsObj)
    (t : DNode) (q : Pos) (b : String) (tag : String)
    (a : List (String × String)) (d : String) (cs : List DNode)
    (hg : getNode t q = some (.elem tag a d cs))
    (cls expr : String) (hmc : matchClassBinding b = some (cls, expr)) :
    applyAttrBinding m state t q b
      = if JsVal.truthy (Signal.evaluate m (Signal.jsTrim expr) state) = true
        then setNode t q (.elem tag (addClass a cls) d cs)
        else setNode t q (.elem tag (removeClass a cls) d cs) := by
  unfold applyAttrBinding
  rw [hg, hmc]

theorem applyAttrBinding_eq_noattr (m : Signal.Modules) (state : JsObj)
    (t : DNode) (q : Pos) (b : String) (tag : String)
    (a : List (String × String)) (d : String) (cs : List DNode)
    (hg : getNode t q = some (.elem tag a d cs))
    (hmc : matchClassBinding b = none) (hma : matchAttrBinding b = none) :
    applyAttrBinding m state t q b = t := by
  unfold applyAttrBinding
  rw [hg, hmc, hma]

theorem applyAttrBinding_eq_undef (m : Signal.Modules) (state : JsObj)
    (t : DNode) (q : Pos) (b : String) (tag : String)
    (a : List (String × String)) (d : String) (cs : List DNode)
    (hg : getNode t q = some (.elem tag a d cs))
    (name expr : String) (hmc : matchClassBinding b = none)
    (hma : matchAttrBinding b = some (name, expr))
    (hev : Signal.evaluate m (Signal.jsTrim expr) state = .undef) :
    applyAttrBinding m state t q b = t := by
  unfold applyAttrBinding
  rw [hg, hmc, hma]
  dsimp only
  rw [hev]

theorem applyAttrBinding_eq_true (m : Signal.Modules) (state : JsObj)
    (t : DNode) (q : Pos) (b : String) (tag : String)
    (a : List (String × String)) (d : String) (cs : List DNode)
    (hg : getNode t q = some (.elem tag a d cs))
    (name expr : String) (hmc : matchClassBinding b = none)
    (hma : matchAttrBinding b = some (name, expr))
    (hev : Signal.evaluate m (Signal.jsTrim expr) state = .bool true) :
    applyAttrBinding m state t q b = setNode t q (.elem tag (attrSet a name "") d cs) := by
  unfold applyAttrBinding
  rw [hg, hmc, hma]
  dsimp only
  rw [hev]

theorem applyAttrBinding_eq_false (m : Signal.Modules) (state : JsObj)
    (t : DNode) (q : Pos) (b : String) (tag : String)
    (a : List (String × String)) (d : String) (cs : List DNode)
    (hg : getNode t q = some (.elem tag a d cs))
    (name expr : String) (hmc : matchClassBinding b = none)
    (hma : matchAttrBinding b = some (name, expr))
    (hev : Signal.evaluate m (Signal.jsTrim expr) state = .bool false) :
    applyAttrBinding m state t q b
      = setNode t q (.elem tag (attrRemove a name) d cs) := by
  unfold applyAttrBinding
  rw [hg, hmc, hma]
  dsimp only
  rw [hev]

theorem applyAttrBinding_eq_null (m : Signal.Modules) (state : JsObj)
    (t : DNode) (q : Pos) (b : String) (tag : String)
    (a : List (String × String)) (d : String) (cs : List DNode)
    (hg : getNode t q = some (.elem tag a d cs))
    (name expr : String) (hmc : matchClassBinding b = none)
    (hma : matchAttrBinding b = some (name, expr))
    (hev : Signal.evaluate m (Signal.jsTrim expr) state = JsVal.null) :
    applyAttrBinding m state t q b
      = setNode t q (.elem tag (attrSet a name (Signal.jsToString (JsVal.null))) d cs) := by
  unfold applyAttrBinding
  rw [hg, hmc, hma]
  dsimp only
  rw [hev]

theorem applyAttrBinding_eq_nan (m : Signal.Modules) (state : JsObj)
    (t : DNode) (q : Pos) (b : String) (tag : String)
    (a : List (String × String)) (d : String) (cs : List DNode)
    (hg : getNode t q = some (.elem tag a d cs))
    (name expr : String) (hmc : matchClassBinding b = none)
    (hma : matchAttrBinding b = some (name, expr))
    (hev : Signal.evaluate m (Signal.jsTrim expr) state = JsVal.nan) :
    applyAttrBinding m state t q b
      = setNode t q (.elem tag (attrSet a name (Signal.jsToString (JsVal.nan))) d cs) := by
  unfold applyAttrBinding
  rw [hg, hmc, hma]
  dsimp only
  rw [hev]

theorem applyAttrBinding_eq_num (m : Signal.Modules) (state : JsObj)
    (t : DNode) (q : Pos) (b : String) (tag : String)
    (a : List (String × String)) (d : String) (cs : List DNode)
    (hg : getNode t q = some (.elem tag a d cs))
    (name expr : String) (n0 : Int) (hmc : matchClassBinding b = none)
    (hma : matchAttrBinding b = some (name, expr))
    (hev : Signal.evaluate m (Signal.jsTrim expr) state = JsVal.num n0) :
    applyAttrBinding m state t q b
      = setNode t q (.elem tag (attrSet a name (Signal.jsToString (JsVal.num n0))) d cs) := by
  unfold applyAttrBinding
  rw [hg, hmc, hma]
  dsimp only
  rw [hev]

theorem applyAttrBinding_eq_str (m : Signal.Modules) (state : JsObj)
    (t : DNode) (q : Pos) (b : String) (tag : String)
    (a : List (String × String)) (d : String) (cs : List DNode)
    (hg : getNode t q = some (.elem tag a d cs))
    (name expr : String) (s1 : String) (hmc : matchClassBinding b = none)
    (hma : matchAttrBinding b = some (name, expr))
    (hev : Signal.evaluate m (Signal.jsTrim expr) state = JsVal.str s1) :
    applyAttrBinding m state t q b
      = setNode t q (.elem tag (attrSet a name (Signal.jsToString (JsVal.str s1))) d cs) := by
  unfold applyAttrBinding
  rw [hg, hmc, hma]
  dsimp only
  rw [hev]

theorem applyAttrBinding_eq_obj (m : Signal.Modules) (state : JsObj)
    (t : DNode) (q : Pos) (b : String) (tag : String)
    (a : List (String × String)) (d : String) (cs : List DNode)
    (hg : getNode t q = some (.elem tag a d cs))
    (name expr : String) (fs : JsObj) (hmc : matchClassBinding b = none)
    (hma : matchAttrBinding b = some (name, expr))
    (hev : Signal.evaluate m (Signal.jsTrim expr) state = JsVal.obj fs) :
    applyAttrBinding m state t q b
      = setNode t q (.elem tag (attrSet a name (Signal.jsToString (JsVal.obj fs))) d cs) := by
  unfold applyAttrBinding
  rw [hg, hmc, hma]
  dsimp only
  rw [hev]

theorem applyAttrBinding_eq_arr (m : Signal.Modules) (state : JsObj)
    (t : DNode) (q : Pos) (b : String) (tag : String)
    (a : List (String × String)) (d : String) (cs : List DNode)
    (hg : getNode t q = some (.elem tag a d cs))
    (name expr : String) (es : List JsVal) (hmc : matchClassBinding b = none)
    (hma : matchAttrBinding b = some (name, expr))
    (hev : Signal.evaluate m (Signal.jsTrim expr) state = JsVal.arr es) :
    applyAttrBinding m state t q b
      = setNode t q (.elem tag (attrSet a name (Signal.jsToString (JsVal.arr es))) d cs) := by
  unfold applyAttrBinding
  rw [hg, hmc, hma]
  dsimp only
  rw [hev]

theorem applyAttrBinding_shape (m : Signal.Modules) (state : JsObj)
    (t : DNode) (q : Pos) (b : String) :
    applyAttrBinding m state t q b = t ∨
      ∃ tag a d cs a', getNode t q = some (.elem tag a d cs) ∧
        applyAttrBinding m state t q b = setNode t q (.elem tag a' d cs) := by
  cases hg : getNode t q with
  | none => exact Or.inl (applyAttrBinding_eq_of_none m state t q b hg)
  | some n =>
      cases n with
      | text s0 => exact Or.inl (applyAttrBinding_eq_of_text m state t q b s0 hg)
      | elem tag a d cs =>
          cases hmc : matchClassBinding b with
          | some pr =>
              obtain ⟨cls, expr⟩ := pr
              rw [applyAttrBinding_eq_class m state t q b tag a d cs hg cls expr hmc]
              by_cases htr :
                  JsVal.truthy (Signal.evaluate m (Signal.jsTrim expr) state) = true
              · rw [if_pos htr]
                exact Or.inr ⟨tag, a, d, cs, addClass a cls, rfl, rfl⟩
              · rw [if_neg htr]
                exact Or.inr ⟨tag, a, d, cs, removeClass a cls, rfl, rfl⟩
          | none =>
              cases hma : matchAttrBinding b with
              | none =>
                  exact Or.inl (applyAttrBinding_eq_noattr m state t q b tag a d cs hg hmc hma)
              | some pr =>
                  obtain ⟨name, expr⟩ := pr
                  cases hev : Signal.evaluate m (Signal.jsTrim expr) state with
                  | undef =>
                      exact Or.inl
                        (applyAttrBinding_eq_undef m state t q b tag a d cs hg name expr hmc hma hev)
                  | bool bv =>
                      cases bv with
                      | true =>
                          exact Or.inr ⟨tag, a, d, cs, attrSet a name "", rfl,
                            applyAttrBinding_eq_true m state t q b tag a d cs hg name expr hmc hma hev⟩
                      | false =>
                          exact Or.inr ⟨tag, a, d, cs, attrRemove a name, rfl,
                            applyAttrBinding_eq_false m state t q b tag a d cs hg name expr hmc hma hev⟩
                  | null =>
                      exact Or.inr ⟨tag, a, d, cs, attrSet a name (Signal.jsToString (JsVal.null)), rfl,
                        applyAttrBinding_eq_null m state t q b tag a d cs hg name expr hmc hma hev⟩
                  | nan =>
                      exact Or.inr ⟨tag, a, d, cs, attrSet a name (Signal.jsToString (JsVal.nan)), rfl,
                        applyAttrBinding_eq_nan m state t q b tag a d cs hg name expr hmc hma hev⟩
                  | num n0 =>
                      exact Or.inr ⟨tag, a, d, cs, attrSet a name (Signal.jsToString (JsVal.num n0)), rfl,
                        applyAttrBinding_eq_num m state t q b tag a d cs hg name expr n0 hmc hma hev⟩
                  | str s1 =>
                      exact Or.inr ⟨tag, a, d, cs, attrSet a name (Signal.jsToString (JsVal.str s1)), rfl,
                        applyAttrBinding_eq_str m state t q b tag a d cs hg name expr s1 hmc hma hev⟩
                  | obj fs =>
                      exact Or.inr ⟨tag, a, d, cs, attrSet a name (Signal.jsToString (JsVal.obj fs)), rfl,
                        applyAttrBinding_eq_obj m state t q b tag a d cs hg name expr fs hmc hma hev⟩
                  | arr es =>
                      exact Or.inr ⟨tag, a, d, cs, attrSet a name (Signal.jsToString (JsVal.arr es)), rfl,
                        applyAttrBinding_eq_arr m state t q b tag a d cs hg name expr es hmc hma hev⟩

theorem applyAttrBinding_nodeView_ne (m : Signal.Modules) (state : JsObj)
    (t : DNode) (q : Pos) (b : String) (p : Pos) (hp : p ≠ q) :
    nodeView (applyAttrBinding m state t q b) p = nodeView t p := by
  rcases applyAttrBinding_shape m state t q b with he | ⟨tag, a, d, cs, a', hg, he⟩
  · rw [he]
  · rw [he]
    exact nodeView_setNode_sameChildren t q tag a d cs tag a' d hg p hp

theorem foldApply_nodeView_ne (m : Signal.Modules) (state : JsObj) (q : Pos)
    (bs : List String) (t : DNode) (p : Pos) (hp : p ≠ q) :
    nodeView (bs.foldl (fun t' b => applyAttrBinding m state t' q b) t) p
      = nodeView t p := by
  induction bs generalizing t with
  | nil => rfl
  | cons b rest ih =>
      rw [List.foldl_cons, ih (applyAttrBinding m state t q b),
        applyAttrBinding_nodeView_ne m state t q b p hp]

/-- Views outside the cell's ownership region are untouched. -/
def KViews (root t : DNode) (cellPos : Pos) : Prop :=
  ∀ p, closestCell root p ≠ some cellPos → nodeView t p = nodeView root p

/-- Cell boundaries agree with the original tree everywhere. -/
def KCells (root t : DNode) : Prop := ∀ r, hasCellAt t r = hasCellAt root r

/-- Attribute views are a restriction of the original tree's. -/
def KAttrs (root t : DNode) : Prop :=
  ∀ p a, attrsView t p = some a → attrsView root p = some a

/-- Positions whose cell-boundary status diverges from the original tree are
owned by the updating cell and carried no boundary originally. -/
def KDiff (root t : DNode) (cellPos : Pos) : Prop :=
  ∀ r, hasCellAt t r ≠ hasCellAt root r →
    closestCell root r = some cellPos ∧ hasCellAt root r = false

/-- No `d-cell` boundary strictly below any `d-text` element owned by the
updating cell (the shielding condition forced by the `textContent` wipe). -/
def ownedTextShielded (root : DNode) (cellPos : Pos) : Prop :=
  ∀ q, hasAttrAt root q "d-text" = true → closestCell root q = some cellPos →
    ∀ s, s ≠ [] → hasCellAt root (q ++ s) = false

theorem textStep_inv (m : Signal.Modules) (state : JsObj) (root t : DNode)
    (cellPos : Pos) (q : Pos)
    (hsh : ownedTextShielded root cellPos)
    (h1 : KViews root t cellPos) (h2 : KCells root t) (h3 : KAttrs root t) :
    KViews root (textStep m state cellPos t q) cellPos ∧
      KCells root (textStep m state cellPos t q) ∧
      KAttrs root (textStep m state cellPos t q) := by
  cases hg : getNode t q with
  | none => rw [textStep_eq_of_none m state cellPos t q hg]; exact ⟨h1, h2, h3⟩
  | some n =>
    cases n with
    | text s0 => rw [textStep_eq_of_text m state cellPos t q s0 hg]; exact ⟨h1, h2, h3⟩
    | elem tag a d cs =>
      rw [textStep_eq_of_elem m state cellPos t q tag a d cs hg]
      by_cases hcond :
          Cell.hasAttribute a "d-text" = true ∧ closestCell t q = some cellPos
      · rw [if_pos hcond]
        obtain ⟨hat, hcq⟩ := hcond
        have hAv : attrsView t q = some a := attrsView_of_getNode_elem t q tag a d cs hg
        have hAr : attrsView root q = some a := h3 q a hAv
        have hTr : hasAttrAt root q "d-text" = true := by
          rw [hasAttrAt_of_attrsView_some root q a "d-text" hAr]
          exact hat
        have hcr : closestCell root q = some cellPos := by
          rw [← closest_congr t root q h2]
          exact hcq
        have hur : ∀ s, s ≠ [] → hasCellAt root (q ++ s) = false := hsh q hTr hcr
        by_cases hu :
            Signal.isUndef (Signal.evaluate m
              ((Cell.getAttribute a "d-text").getD "") state) = true
        · rw [if_neg (not_not_intro hu)]
          exact ⟨h1, h2, h3⟩
        · rw [if_pos hu]
          set str := Signal.jsToString (Signal.evaluate m
            ((Cell.getAttribute a "d-text").getD "") state) with hstr
          set nn := DNode.elem tag a d (textChildren str) with hnn
          have e1 : nodeView (setNode t q nn) q = nodeView t q := by
            unfold nodeView
            rw [getNode_setNode_self t q nn _ hg, hg]
          have eunder : ∀ (s : Pos), s ≠ [] →
              attrsView (setNode t q nn) (q ++ s) = none := by
            intro s hs
            have hgu : getNode (setNode t q nn) (q ++ s) = getNode nn s :=
              getNode_setNode_under t q s nn _ hg
            have hx := attrsView_textChildren tag a d str s hs
            unfold attrsView nodeView at hx ⊢
            rw [hgu]
            exact hx
          refine ⟨?_, ?_, ?_⟩
          · intro p hp
            by_cases hpre : q <+: p
            · obtain ⟨s, rfl⟩ := hpre
              exact absurd (closest_extend root q cellPos hcr hur s) hp
            · rw [nodeView_setNode_of_not_under t q p nn hpre]
              exact h1 p hp
          · intro r
            by_cases hpre : q <+: r
            · obtain ⟨s, rfl⟩ := hpre
              cases s with
              | nil =>
                  rw [List.append_nil]
                  rw [hasCellAt_congr (setNode t q nn) t q e1]
                  exact h2 q
              | cons j s' =>
                  have hs : (j :: s') ≠ ([] : Pos) := by simp
                  rw [hur (j :: s') hs]
                  unfold hasCellAt
                  rw [hasAttrAt_of_attrsView_none (setNode t q nn) (q ++ j :: s')
                    "d-cell" (eunder (j :: s') hs)]
            · rw [hasCellAt_congr (setNode t q nn) t r
                (nodeView_setNode_of_not_under t q r nn hpre)]
              exact h2 r
          · intro p a' hA
            by_cases hpre : q <+: p
            · obtain ⟨s, rfl⟩ := hpre
              cases s with
              | nil =>
                  rw [List.append_nil] at hA ⊢
                  rw [attrsView_congr (setNode t q nn) t q e1] at hA
                  exact h3 q a' hA
              | cons j s' =>
                  have hs : (j :: s') ≠ ([] : Pos) := by simp
                  rw [eunder (j :: s') hs] at hA
                  cases hA
            · rw [attrsView_congr (setNode t q nn) t p
                (nodeView_setNode_of_not_under t q p nn hpre)] at hA
              exact h3 p a' hA
      · rw [if_neg hcond]
        exact ⟨h1, h2, h3⟩

theorem showStep_inv (m : Signal.Modules) (state : JsObj) (root t : DNode)
    (cellPos : Pos) (q : Pos)
    (h1 : KViews root t cellPos) (h2 : KCells root t) (h3 : KAttrs root t) :
    KViews root (showStep m state cellPos t q) cellPos ∧
      KCells root (showStep m state cellPos t q) ∧
      KAttrs root (showStep m state cellPos t q) := by
  cases hg : getNode t q with
  | none => rw [showStep_eq_of_none m state cellPos t q hg]; exact ⟨h1, h2, h3⟩
  | some n =>
    cases n with
    | text s0 => rw [showStep_eq_of_text m state cellPos t q s0 hg]; exact ⟨h1, h2, h3⟩
    | elem tag a d cs =>
      rw [showStep_eq_of_elem m state cellPos t q tag a d cs hg]
      by_cases hcond :
          Cell.hasAttribute a "d-show" = true ∧ closestCell t q = some cellPos
      · rw [if_pos hcond]
        obtain ⟨hat, hcq⟩ := hcond
        have hcr : closestCell root q = some cellPos := by
          rw [← closest_congr t root q h2]
          exact hcq
        set d' := if JsVal.truthy (Signal.evaluate m
          ((Cell.getAttribute a "d-show").getD "") state) then "" else "none" with hd'
        have hne : ∀ p, p ≠ q →
            nodeView (setNode t q (.elem tag a d' cs)) p = nodeView t p :=
          nodeView_setNode_sameChildren t q tag a d cs tag a d' hg
        have eq1 : attrsView (setNode t q (.elem tag a d' cs)) q = some a :=
          attrsView_of_getNode_elem _ q tag a d' cs
            (getNode_setNode_self t q (.elem tag a d' cs) _ hg)
        refine ⟨?_, ?_, ?_⟩
        · intro p hp
          by_cases hpq : p = q
          · subst hpq
            exact absurd hcr hp
          · rw [hne p hpq]
            exact h1 p hp
        · intro r
          by_cases hrq : r = q
          · subst hrq
            unfold hasCellAt
            rw [hasAttrAt_of_attrsView_some _ r a "d-cell" eq1,
              ← hasAttrAt_of_attrsView_some t r a "d-cell"
                (attrsView_of_getNode_elem t r tag a d cs hg)]
            exact h2 r
          · rw [hasCellAt_congr _ t r (hne r hrq)]
            exact h2 r
        · intro p a' hA
          by_cases hpq : p = q
          · subst hpq
            rw [eq1] at hA
            injection hA with hA
            rw [← hA]
            exact h3 p a (attrsView_of_getNode_elem t p tag a d cs hg)
          · rw [attrsView_congr _ t p (hne p hpq)] at hA
            exact h3 p a' hA
      · rw [if_neg hcond]
        exact ⟨h1, h2, h3⟩

theorem attrStep_inv (m : Signal.Modules) (state : JsObj) (root t : DNode)
    (cellPos : Pos) (q : Pos)
    (hcp : hasCellAt root cellPos = true)
    (h1 : KViews root t cellPos)
    (h2 : hasCellAt t cellPos = true → KDiff root t cellPos) :
    KViews root (attrStep m state cellPos t q) cellPos ∧
      (hasCellAt (attrStep m state cellPos t q) cellPos = true →
        KDiff root (attrStep m state cellPos t q) cellPos) := by
  cases hg : getNode t q with
  | none => rw [attrStep_eq_of_none m state cellPos t q hg]; exact ⟨h1, h2⟩
  | some n =>
    cases n with
    | text s0 => rw [attrStep_eq_of_text m state cellPos t q s0 hg]; exact ⟨h1, h2⟩
    | elem tag a d cs =>
      rw [attrStep_eq_of_elem m state cellPos t q tag a d cs hg]
      by_cases hcond :
          Cell.hasAttribute a "d-attr" = true ∧ closestCell t q = some cellPos
      · rw [if_pos hcond]
        obtain ⟨hat, hcq⟩ := hcond
        have hcellT : hasCellAt t cellPos = true := closestCell_hasCell t q cellPos hcq
        have hKD : KDiff root t cellPos := h2 hcellT
        have hcr : closestCell root q = some cellPos :=
          closest_transfer t root cellPos hKD hcp q hcq
        by_cases hemp : (Cell.getAttribute a "d-attr").getD "" = ""
        · rw [if_pos hemp]
          exact ⟨h1, h2⟩
        · rw [if_neg hemp]
          set t' := (Signal.splitSignals ((Cell.getAttribute a "d-attr").getD "")).foldl
            (fun t0 b => applyAttrBinding m state t0 q b) t with ht'
          have hne : ∀ p, p ≠ q → nodeView t' p = nodeView t p := fun p hp =>
            foldApply_nodeView_ne m state q _ t p hp
          constructor
          · intro p hp
            by_cases hpq : p = q
            · subst hpq
              exact absurd hcr hp
            · rw [hne p hpq]
              exact h1 p hp
          · intro hc' r hr
            by_cases hrq : r = q
            · subst hrq
              refine ⟨hcr, ?_⟩
              by_cases hroot : hasCellAt root r = true
              · exfalso
                have hself : closestCell root r = some r := closest_self root r hroot
                have hrc : r = cellPos := by
                  have := hself.symm.trans hcr
                  injection this
                subst hrc
                rw [hc', hcp] at hr
                exact hr rfl
              · simpa using hroot
            · rw [hasCellAt_congr t' t r (hne r hrq)] at hr
              exact hKD r hr
      · rw [if_neg hcond]
        exact ⟨h1, h2⟩

theorem textStep_fold_inv (m : Signal.Modules) (state : JsObj) (root : DNode)
    (cellPos : Pos) (hsh : ownedTextShielded root cellPos) (qs : List Pos) :
    ∀ t : DNode,
      KViews root t cellPos ∧ KCells root t ∧ KAttrs root t →
      KViews root (qs.foldl (textStep m state cellPos) t) cellPos ∧
        KCells root (qs.foldl (textStep m state cellPos) t) ∧
        KAttrs root (qs.foldl (textStep m state cellPos) t) := by
  induction qs with
  | nil => intro t h; exact h
  | cons q rest ih =>
      intro t h
      rw [List.foldl_cons]
      exact ih _ (textStep_inv m state root t cellPos q hsh h.1 h.2.1 h.2.2)

theorem showStep_fold_inv (m : Signal.Modules) (state : JsObj) (root : DNode)
    (cellPos : Pos) (qs : List Pos) :
    ∀ t : DNode,
      KViews root t cellPos ∧ KCells root t ∧ KAttrs root t →
      KViews root (qs.foldl (showStep m state cellPos) t) cellPos ∧
        KCells root (qs.foldl (showStep m state cellPos) t) ∧
        KAttrs root (qs.foldl (showStep m state cellPos) t) := by
  induction qs with
  | nil => intro t h; exact h
  | cons q rest ih =>
      intro t h
      rw [List.foldl_cons]
      exact ih _ (showStep_inv m state root t cellPos q h.1 h.2.1 h.2.2)

theorem attrStep_fold_inv (m : Signal.Modules) (state : JsObj) (root : DNode)
    (cellPos : Pos) (hcp : hasCellAt root cellPos = true) (qs : List Pos) :
    ∀ t : DNode,
      KViews root t cellPos ∧
          (hasCellAt t cellPos = true → KDiff root t cellPos) →
      KViews root (qs.foldl (attrStep m state cellPos) t) cellPos ∧
        (hasCellAt (qs.foldl (attrStep m state cellPos) t) cellPos = true →
          KDiff root (qs.foldl (attrStep m state cellPos) t) cellPos) := by
  induction qs with
  | nil => intro t h; exact h
  | cons q rest ih =>
      intro t h
      rw [List.foldl_cons]
      exact ih _ (attrStep_inv m state root t cellPos q hcp h.1 h.2)

def posIsPrefix : Pos → Pos → Bool
  | [], _ => true
  | _ :: _, [] => false
  | i :: p, j :: r => i == j && posIsPrefix p r

theorem posIsPrefix_iff : ∀ p r : Pos, posIsPrefix p r = true ↔ p <+: r := by
  intro p
  induction p with
  | nil => intro r; simp [posIsPrefix, List.nil_prefix]
  | cons i p' ih =>
      intro r
      cases r with
      | nil => simp [posIsPrefix]
      | cons j r' =>
          rw [List.cons_prefix_cons]
          simp [posIsPrefix, ih r']

/-- Every position of the tree: the root and its strict descendants. -/
def allPositions (t : DNode) : List Pos := [] :: descPos t

/-- Decidable check of `ownedTextShielded` over the tree's positions. -/
def shieldCheck (root : DNode) (cellPos : Pos) : Bool :=
  (allPositions root).all fun q =>
    if hasAttrAt root q "d-text" && decide (closestCell root q = some cellPos) then
      (allPositions root).all fun r =>
        if posIsPrefix q r && !decide (r = q) then ! hasCellAt root r else true
    else true

theorem descPosIdx_mem_of_get (cs : List DNode) :
    ∀ (k j : Nat) (c : DNode), cs[j]? = some c →
      [k + j] ∈ descPosIdx k cs ∧
        ∀ p' ∈ descPos c, ((k + j) :: p') ∈ descPosIdx k cs := by
  induction cs with
  | nil => intro k j c h; simp at h
  | cons x rest ih =>
      intro k j c h
      cases j with
      | zero =>
          have hcx : x = c := by simpa using h
          subst hcx
          constructor
          · rw [descPosIdx]
            exact List.mem_cons_self _ _
          · intro p' hp'
            rw [descPosIdx]
            apply List.mem_cons_of_mem
            apply List.mem_append_left
            exact List.mem_map_of_mem _ hp'
      | succ j' =>
          have h' : rest[j']? = some c := by simpa using h
          obtain ⟨m1, m2⟩ := ih (k + 1) j' c h'
          have hkj : k + (j' + 1) = (k + 1) + j' := by omega
          constructor
          · rw [descPosIdx, hkj]
            exact List.mem_cons_of_mem _ (List.mem_append_right _ m1)
          · intro p' hp'
            rw [descPosIdx, hkj]
            exact List.mem_cons_of_mem _ (List.mem_append_right _ (m2 p' hp'))

theorem getNode_mem_allPositions : ∀ (p : Pos) (t : DNode) (n : DNode),
    getNode t p = some n → p ∈ allPositions t := by
  intro p
  induction p with
  | nil => intro t n h; exact List.mem_cons_self _ _
  | cons i p' ih =>
      intro t n h
      cases t with
      | text s0 => simp [getNode] at h
      | elem tag a d cs =>
          simp only [getNode] at h
          cases hg : cs[i]? with
          | none => rw [hg] at h; simp at h
          | some c =>
              rw [hg] at h
              obtain ⟨m1, m2⟩ := descPosIdx_mem_of_get cs 0 i c hg
              have hz : (0 : Nat) + i = i := Nat.zero_add i
              have hmm : (i :: p') ∈ descPosIdx 0 cs := by
                rcases List.mem_cons.mp (ih c n h) with hnil | hmem
                · subst hnil
                  rw [hz] at m1
                  exact m1
                · have hx := m2 p' hmem
                  rw [hz] at hx
                  exact hx
              exact List.mem_cons_of_mem _ hmm

theorem hasCellAt_of_getNode_none (t : DNode) (p : Pos) (h : getNode t p = none) :
    hasCellAt t p = false := by
  unfold hasCellAt hasAttrAt attrsView nodeView
  rw [h]

theorem shieldCheck_sound (root : DNode) (cellPos : Pos)
    (h : shieldCheck root cellPos = true) : ownedTextShielded root cellPos := by
  intro q hqt hqc s hs
  have hAv : ∃ a, attrsView root q = some a := by
    unfold hasAttrAt at hqt
    cases hv : attrsView root q with
    | none => rw [hv] at hqt; simp at hqt
    | some a => exact ⟨a, rfl⟩
  obtain ⟨a, hA⟩ := hAv
  obtain ⟨tag, d, cs, hgq⟩ := attrsView_some_elim root q a hA
  have hqmem : q ∈ allPositions root := getNode_mem_allPositions q root _ hgq
  cases hgr : getNode root (q ++ s) with
  | none => exact hasCellAt_of_getNode_none root (q ++ s) hgr
  | some n =>
      have hrmem : (q ++ s) ∈ allPositions root :=
        getNode_mem_allPositions (q ++ s) root n hgr
      have hneq : q ++ s ≠ q := by
        intro he
        have hlen := congrArg List.length he
        rw [List.length_append] at hlen
        have hs0 : s.length = 0 := by omega
        exact hs (List.length_eq_zero.mp hs0)
      unfold shieldCheck at h
      rw [List.all_eq_true] at h
      have hq1 := h q hqmem
      rw [if_pos (by simp [hqt, hqc])] at hq1
      rw [List.all_eq_true] at hq1
      have hq2 := hq1 (q ++ s) hrmem
      have hcond2 : (posIsPrefix q (q ++ s) && !decide (q ++ s = q)) = true := by
        rw [Bool.and_eq_true]
        constructor
        · exact (posIsPrefix_iff q (q ++ s)).mpr ⟨s, rfl⟩
        · simp [hneq]
      rw [if_pos hcond2] at hq2
      simpa using hq2

end Dom

/-- A seed parser for concrete runs: any seed text denotes `{msg: "hi"}`. -/
def c6Seed : String → JsObj := fun _ => [("msg", JsVal.str "hi")]

/-- Outer cell with an owned `d-text` span and a nested inner cell placed as
a sibling of the span (not inside any outer-owned `d-text` element). -/
def c6Root : Dom.DNode :=
  .elem "div" [("d-cell", "msg: hi")] ""
    [.elem "span" [("d-text", "msg")] "" [.text "old"],
     .elem "div" [("d-cell", "msg: bye")] ""
       [.elem "p" [("d-text", "msg")] "" [.text "inner"]]]

/-- Outer cell whose `d-text` span CONTAINS the nested inner cell. -/
def c6CtrTree : Dom.DNode :=
  .elem "div" [("d-cell", "msg: hi")] ""
    [.elem "span" [("d-text", "msg")] ""
      [.elem "div" [("d-cell", "msg: bye")] ""
        [.elem "p" [("d-text", "msg")] "" [.text "old"]]]]

/-- C6: nested-Cell isolation of signal.js v2 `updateBindings`. The claimed
unconditional isolation fails (`nested_cell_isolation_counterexample`: the
`d-text` pass assigns `textContent`, wiping any inner Cell nested inside an
outer-owned `d-text` element). Under the shielding hypothesis that no Cell
boundary lies strictly below a `d-text` element owned by the updating Cell,
`updateBindings` leaves every node whose nearest enclosing Cell is not the
updating Cell untouched — text, display and attributes alike — so nodes of a
nested inner Cell or of a sibling Cell are never mutated. -/
theorem nested_cell_isolation (m : Signal.Modules) (ps : String → JsObj)
    (st : Cell.Store Dom.Pos) (root : Dom.DNode) (cellPos : Dom.Pos)
    (hcp : Dom.hasCellAt root cellPos = true)
    (hsh : Dom.ownedTextShielded root cellPos) :
    ∀ p, Dom.closestCell root p ≠ some cellPos →
      Dom.nodeView (Dom.updateBindings m ps root st cellPos).1 p
        = Dom.nodeView root p := by
  intro p hp
  have hub : (Dom.updateBindings m ps root st cellPos).1
      = Dom.attrPass m (Cell.getState (Dom.attrsAt root) ps st cellPos).1
          (Dom.showPass m (Cell.getState (Dom.attrsAt root) ps st cellPos).1
            (Dom.textPass m (Cell.getState (Dom.attrsAt root) ps st cellPos).1
              root cellPos)
            cellPos) cellPos := rfl
  rw [hub]
  unfold Dom.attrPass Dom.showPass Dom.textPass
  set state := (Cell.getState (Dom.attrsAt root) ps st cellPos).1 with hstate
  have h0 : Dom.KViews root root cellPos ∧ Dom.KCells root root ∧ Dom.KAttrs root root :=
    ⟨fun _ _ => rfl, fun _ => rfl, fun _ _ hx => hx⟩
  have h1 := Dom.textStep_fold_inv m state root cellPos hsh
    (Dom.queryAttrUnder root cellPos "d-text") root h0
  set t1 := (Dom.queryAttrUnder root cellPos "d-text").foldl
    (Dom.textStep m state cellPos) root with ht1
  have h2 := Dom.showStep_fold_inv m state root cellPos
    (Dom.queryAttrUnder t1 cellPos "d-show") t1 h1
  set t2 := (Dom.queryAttrUnder t1 cellPos "d-show").foldl
    (Dom.showStep m state cellPos) t1 with ht2
  have hJ : Dom.KViews root t2 cellPos ∧
      (Dom.hasCellAt t2 cellPos = true → Dom.KDiff root t2 cellPos) :=
    ⟨h2.1, fun _ => fun r hr => absurd (h2.2.1 r) hr⟩
  have h3 := Dom.attrStep_fold_inv m state root cellPos hcp
    (Dom.queryAttrUnder t2 cellPos "d-attr") t2 hJ
  exact h3.1 p hp

/-- C6 counterexample: running the outer Cell's `updateBindings` destroys a
nested inner Cell that sits inside an outer-owned `d-text` element — the
`d-text` pass replaces that element's children with a single text node, so
the inner Cell element (nearest enclosing Cell: itself, not the outer cell)
is wiped, refuting the unconditional isolation claim. -/
theorem nested_cell_isolation_counterexample :
    Dom.hasCellAt c6CtrTree [0, 0] = true ∧
    Dom.closestCell c6CtrTree [0, 0] ≠ some ([] : Dom.Pos) ∧
    Dom.nodeView (Dom.updateBindings Signal.noModules c6Seed c6CtrTree
        ({} : Cell.Store Dom.Pos) []).1 [0, 0] ≠ Dom.nodeView c6CtrTree [0, 0] := by
  refine ⟨rfl, by decide, ?_⟩
  have h1 : Dom.nodeView (Dom.updateBindings Signal.noModules c6Seed c6CtrTree
      ({} : Cell.Store Dom.Pos) []).1 [0, 0] = some (.inr "hi") := rfl
  have h2 : Dom.nodeView c6CtrTree [0, 0]
      = some (.inl ("div", [("d-cell", "msg: bye")], "")) := rfl
  rw [h1, h2]
  simp

/-- Witness for C6: on a tree whose inner Cell is a sibling of the outer
cell's `d-text` element (shielded), the outer update leaves the inner Cell's
`d-text` element untouched. -/
theorem nested_cell_isolation_witness :
    Dom.hasCellAt c6Root [] = true ∧
    Dom.closestCell c6Root [1, 0] ≠ some ([] : Dom.Pos) ∧
    Dom.nodeView (Dom.updateBindings Signal.noModules c6Seed c6Root
        ({} : Cell.Store Dom.Pos) []).1 [1, 0] = Dom.nodeView c6Root [1, 0] :=
  ⟨rfl, by decide,
    nested_cell_isolation Signal.noModules c6Seed {} c6Root []
      rfl (Dom.shieldCheck_sound c6Root [] (by decide)) [1, 0] (by decide)⟩


namespace Patch

/-! ## Patch wire protocol (patch.js)

`DOMParser` is modelled by a total, fuel-driven parser over the HTML
fragment language the module produces and consumes: elements with
double-quoted attributes, text, and the four standard character entities.
Parsing is total on every input (fuel is the input length, and malformed
input degrades to text/recovery just as the browser parser never throws);
serialisation (`innerHTML`) escapes text and attribute values the way the
DOM serialiser does. -/

/-- A parsed HTML node. -/
inductive HNode where
  | elem (tag : String) (attrs : List (String × String)) (children : List HNode)
  | text (s : String)
deriving Repr

/-- Characters allowed in a tag or attribute name (enough for `d-patch`,
`surface`, `template`, `target`). -/
def isTagChar (c : Char) : Bool := c.isAlpha || c = '-'

/-- HTML whitespace. -/
def isSpaceChar (c : Char) : Bool := c = ' ' || c = '\n' || c = '\t' || c = '\r'

/-- Boolean prefix test on character lists. -/
def chPrefix : List Char → List Char → Bool
  | [], _ => true
  | _ :: _, [] => false
  | a :: as, b :: bs => a = b && chPrefix as bs

/-- Decode the four standard entities (an unrecognised `&` stays literal,
as in the browser parser). -/
def decodeEntitiesF : Nat → List Char → List Char
  | 0, cs => cs
  | _ + 1, [] => []
  | fuel + 1, c :: rest =>
      if c = '&' then
        if chPrefix "amp;".data rest then '&' :: decodeEntitiesF fuel (rest.drop 4)
        else if chPrefix "lt;".data rest then '<' :: decodeEntitiesF fuel (rest.drop 3)
        else if chPrefix "gt;".data rest then '>' :: decodeEntitiesF fuel (rest.drop 3)
        else if chPrefix "quot;".data rest then '"' :: decodeEntitiesF fuel (rest.drop 5)
        else c :: decodeEntitiesF fuel rest
      else c :: decodeEntitiesF fuel rest

def decodeEntities (cs : List Char) : List Char := decodeEntitiesF cs.length cs

/-- Attribute list parser: consumes up to and including the closing `>`.
Values are double-quoted; a bare name gets the empty value. -/
def parseAttrsF : Nat → List Char → List (String × String) × List Char
  | 0, cs => ([], cs)
  | _ + 1, [] => ([], [])
  | fuel + 1, c0 :: rest0 =>
      if isSpaceChar c0 then parseAttrsF fuel rest0
      else if c0 = '>' then ([], rest0)
      else if isTagChar c0 then
        let name := (c0 :: rest0).takeWhile isTagChar
        let afterName := (c0 :: rest0).dropWhile isTagChar
        if afterName.take 2 = ['=', '"'] then
          let vrest := afterName.drop 2
          let v := vrest.takeWhile (fun ch => ¬ ch = '"')
          let afterV := (vrest.dropWhile (fun ch => ¬ ch = '"')).drop 1
          let r := parseAttrsF fuel afterV
          ((String.mk name, String.mk (decodeEntities v)) :: r.1, r.2)
        else
          let r := parseAttrsF fuel afterName
          ((String.mk name, "") :: r.1, r.2)
      else parseAttrsF fuel rest0

/-- Skip a closing tag `</...>` (error-recovering: the tag name is not
checked, and a missing `>` consumes the rest). -/
def dropCloseTag (cs : List Char) : List Char :=
  if cs.take 2 = ['<', '/'] then
    ((cs.drop 2).dropWhile (fun ch => ¬ ch = '>')).drop 1
  else cs

/-- Node-sequence parser: returns the nodes and the unconsumed remainder
(which starts with a closing tag when the sequence ended inside an
element). A stray `<` that opens no tag becomes the text `<`. -/
def parseNodesF : Nat → List Char → List HNode × List Char
  | 0, cs => ([], cs)
  | _ + 1, [] => ([], [])
  | fuel + 1, c :: rest =>
      if c = '<' then
        if rest.head? = some '/' then ([], c :: rest)
        else
          let tag := rest.takeWhile isTagChar
          if tag = [] then
            let r := parseNodesF fuel rest
            (.text "<" :: r.1, r.2)
          else
            let afterTag := rest.dropWhile isTagChar
            let pa := parseAttrsF (afterTag.length + 1) afterTag
            let pc := parseNodesF fuel pa.2
            let afterClose := dropCloseTag pc.2
            let ps := parseNodesF fuel afterClose
            (.elem (String.mk tag) pa.1 pc.1 :: ps.1, ps.2)
      else
        let run := (c :: rest).takeWhile (fun ch => ¬ ch = '<')
        let after := (c :: rest).dropWhile (fun ch => ¬ ch = '<')
        let r := parseNodesF fuel after
        (.text (String.mk (decodeEntities run)) :: r.1, r.2)

/-- `new DOMParser().parseFromString(html, 'text/html')`: the parsed node
forest. -/
def parseDoc (html : String) : List HNode :=
  (parseNodesF (html.data.length + 1) html.data).1

mutual

/-- `querySelector(tag)` over a node (the node itself is a candidate). -/
def findElemN (tag : String) : HNode → Option HNode
  | .text _ => none
  | .elem t a cs => if t = tag then some (.elem t a cs) else findElemL tag cs

/-- `querySelector(tag)` over a forest, document order. -/
def findElemL (tag : String) : List HNode → Option HNode
  | [] => none
  | n :: rest =>
      match findElemN tag n with
      | some e => some e
      | none => findElemL tag rest

end

mutual

/-- `querySelectorAll(tag)` matches among a node's strict descendants. -/
def descElemsN (tag : String) : HNode → List HNode
  | .text _ => []
  | .elem t a cs => (if t = tag then [HNode.elem t a cs] else []) ++ descElemsL tag cs

/-- `querySelectorAll(tag)` over a forest, document order. -/
def descElemsL (tag : String) : List HNode → List HNode
  | [] => []
  | n :: rest => descElemsN tag n ++ descElemsL tag rest

end

/-- DOM text serialisation escapes. -/
def escTextChar (c : Char) : List Char :=
  if c = '&' then "&amp;".data
  else if c = '<' then "&lt;".data
  else if c = '>' then "&gt;".data
  else [c]

/-- DOM attribute-value serialisation escapes. -/
def escAttrChar (c : Char) : List Char :=
  if c = '&' then "&amp;".data
  else if c = '"' then "&quot;".data
  else [c]

def escText (s : String) : String :=
  String.mk (s.data.foldr (fun c acc => escTextChar c ++ acc) [])

def escAttr (s : String) : String :=
  String.mk (s.data.foldr (fun c acc => escAttrChar c ++ acc) [])

def serializeAttrs (attrs : List (String × String)) : String :=
  attrs.foldr (fun nv acc => " " ++ nv.1 ++ "=\"" ++ escAttr nv.2 ++ "\"" ++ acc) ""

mutual

/-- DOM serialisation of a node. -/
def serializeNode : HNode → String
  | .text s => escText s
  | .elem t a cs =>
      "<" ++ t ++ serializeAttrs a ++ ">" ++ serializeNodes cs ++ "</" ++ t ++ ">"

/-- DOM serialisation of a child list. -/
def serializeNodes : List HNode → String
  | [] => ""
  | n :: rest => serializeNode n ++ serializeNodes rest

end

/-- `element.innerHTML`. -/
def innerHTML : HNode → String
  | .text _ => ""
  | .elem _ _ cs => serializeNodes cs

/-- Diagnostics `parse` writes with `console.warn`. -/
inductive PatchWarn where
  | noPatch
  | missingTarget
deriving Repr, DecidableEq

def hattrs : HNode → List (String × String)
  | .text _ => []
  | .elem _ a _ => a

def hchildren : HNode → List HNode
  | .text _ => []
  | .elem _ _ cs => cs

/-- The content chosen for one surface region: the inner markup of an
optional nested `template`, else the region's own inner markup. -/
def contentOf (s : HNode) : String :=
  match findElemL "template" (hchildren s) with
  | some tpl => innerHTML tpl
  | none => innerHTML s

/-- The `surfaceElements.forEach` loop of patch.js `parse`: a missing or
empty (falsy) `target` warns and skips, the rest of the regions are still
processed. -/
def processSurfaces : List HNode → List (String × String) × List PatchWarn
  | [] => ([], [])
  | s :: rest =>
      let r := processSurfaces rest
      match Cell.getAttribute (hattrs s) "target" with
      | some t =>
          if t = "" then (r.1, .missingTarget :: r.2)
          else ((t, contentOf s) :: r.1, r.2)
      | none => (r.1, .missingTarget :: r.2)

/-- patch.js `parse(html)`: parse the document, find the `d-patch` wrapper
(none: warn and return no patches), then collect the `surface` regions. -/
def parse (html : String) : List (String × String) × List PatchWarn :=
  match findElemL "d-patch" (parseDoc html) with
  | none => ([], [.noPatch])
  | some pe => processSurfaces (descElemsL "surface" (hchildren pe))

/-- patch.js `create(surfaces)`. -/
def create (surfaces : List (String × String)) : String :=
  "<d-patch>\n"
    ++ String.intercalate "\n"
        (surfaces.map (fun s =>
          "  <surface target=\"" ++ s.1 ++ "\">" ++ s.2 ++ "</surface>"))
    ++ "\n</d-patch>"

theorem processSurfaces_spec (ss : List HNode) :
    processSurfaces ss
      = (ss.filterMap (fun s =>
           match Cell.getAttribute (hattrs s) "target" with
           | some t => if t = "" then none else some (t, contentOf s)
           | none => none),
         ss.filterMap (fun s =>
           match Cell.getAttribute (hattrs s) "target" with
           | some t => if t = "" then some PatchWarn.missingTarget else none
           | none => some PatchWarn.missingTarget)) := by
  induction ss with
  | nil => rfl
  | cons s rest ih =>
      simp only [processSurfaces, ih, List.filterMap_cons]
      cases hA : Cell.getAttribute (hattrs s) "target" with
      | none => simp
      | some t =>
          by_cases ht : t = ""
          · simp [ht]
          · simp [ht]

/-- The per-surface line of `create` (the body of its `map`). -/
def snipStr (p : String × String) : String :=
  "  <surface target=\"" ++ p.1 ++ "\">" ++ p.2 ++ "</surface>"

/-- The characters of one created surface line, grouped as the parser
consumes them. -/
def snippetChars (p : String × String) : List Char :=
  ' ' :: ' ' :: '<' :: ("surface".data
    ++ ' ' :: ("target=\"".data
      ++ (p.1.data ++ '"' :: '>' :: (p.2.data ++ '<' :: "/surface>".data))))

/-- The characters of a created patch after the `<d-patch>` open tag, for a
non-empty tail of surface lines. -/
def afterTail : List (String × String) → List Char
  | [] => '\n' :: "</d-patch>".data
  | p :: rest => '\n' :: (snippetChars p ++ afterTail rest)

/-- The characters of a created patch after the `<d-patch>` open tag. -/
def topChars : List (String × String) → List Char
  | [] => "\n\n</d-patch>".data
  | p :: rest => afterTail (p :: rest)

/-- The parsed element of one created surface line. -/
def surfNode (p : String × String) : HNode :=
  .elem "surface" [("target", p.1)] (if p.2 = "" then [] else [.text p.2])

/-- The parsed children of the created `d-patch` element, non-empty case. -/
def tailNodes : List (String × String) → List HNode
  | [] => [.text "\n"]
  | p :: rest => .text "\n  " :: surfNode p :: tailNodes rest

/-- The parsed children of the created `d-patch` element. -/
def topNodes : List (String × String) → List HNode
  | [] => [.text "\n\n"]
  | p :: rest => tailNodes (p :: rest)

theorem takeWhile_append_stop (p : Char → Bool) (R : List Char) (x : Char)
    (l : List Char) (hR : ∀ c ∈ R, p c = true) (hx : p x = false) :
    (R ++ x :: l).takeWhile p = R ∧ (R ++ x :: l).dropWhile p = x :: l := by
  induction R with
  | nil =>
      constructor
      · exact List.takeWhile_cons_of_neg (by simp [hx])
      · exact List.dropWhile_cons_of_neg (by simp [hx])
  | cons c cs ih =>
      have hc : p c = true := hR c (List.mem_cons_self c cs)
      have ih2 := ih (fun c2 hc2 => hR c2 (List.mem_cons_of_mem c hc2))
      constructor
      · rw [List.cons_append, List.takeWhile_cons_of_pos hc, ih2.1]
      · rw [List.cons_append, List.dropWhile_cons_of_pos hc, ih2.2]

theorem decodeEntitiesF_id : ∀ (fuel : Nat) (cs : List Char), cs.length ≤ fuel →
    (∀ c ∈ cs, ¬ c = '&') → decodeEntitiesF fuel cs = cs := by
  intro fuel
  induction fuel with
  | zero => intro cs _ _; rfl
  | succ f ih =>
      intro cs hlen hA
      cases cs with
      | nil => rfl
      | cons c rest =>
          unfold decodeEntitiesF
          rw [if_neg (hA c (List.mem_cons_self c rest))]
          rw [ih rest (by simpa using Nat.le_of_succ_le_succ (by simpa using hlen))
            (fun c2 hc2 => hA c2 (List.mem_cons_of_mem c hc2))]

theorem decodeEntities_id (cs : List Char) (hA : ∀ c ∈ cs, ¬ c = '&') :
    decodeEntities cs = cs :=
  decodeEntitiesF_id cs.length cs (Nat.le_refl _) hA

theorem escTextChar_id (c : Char) (h1 : ¬ c = '&') (h2 : ¬ c = '<')
    (h3 : ¬ c = '>') : escTextChar c = [c] := by
  unfold escTextChar
  rw [if_neg h1, if_neg h2, if_neg h3]

theorem escFold_id : ∀ (cs : List Char),
    (∀ c ∈ cs, ¬ c = '&' ∧ ¬ c = '<' ∧ ¬ c = '>') →
    cs.foldr (fun c acc => escTextChar c ++ acc) [] = cs := by
  intro cs
  induction cs with
  | nil => intro _; rfl
  | cons c rest ih =>
      intro h
      have hc := h c (List.mem_cons_self c rest)
      rw [List.foldr_cons, ih (fun c2 hc2 => h c2 (List.mem_cons_of_mem c hc2)),
        escTextChar_id c hc.1 hc.2.1 hc.2.2]
      rfl

theorem mk_data_eq (s : String) : String.mk s.data = s := rfl

theorem escText_id (s : String)
    (h : ∀ c ∈ s.data, ¬ c = '&' ∧ ¬ c = '<' ∧ ¬ c = '>') : escText s = s := by
  unfold escText
  rw [escFold_id s.data h]

theorem intercalate_go_data (s : String) : ∀ (l : List String) (acc : String),
    (String.intercalate.go acc s l).data
      = acc.data ++ l.foldr (fun a r => s.data ++ a.data ++ r) [] := by
  intro l
  induction l with
  | nil => intro acc; simp [String.intercalate.go]
  | cons a as ih =>
      intro acc
      rw [show String.intercalate.go acc s (a :: as)
          = String.intercalate.go (acc ++ s ++ a) s as from rfl]
      rw [ih (acc ++ s ++ a)]
      simp [String.data_append, List.append_assoc]

theorem intercalate_data (s a : String) (l : List String) :
    (String.intercalate s (a :: l)).data
      = a.data ++ l.foldr (fun b r => s.data ++ b.data ++ r) [] := by
  rw [show String.intercalate s (a :: l) = String.intercalate.go a s l from rfl]
  exact intercalate_go_data s l a

theorem snip_data (p : String × String) : (snipStr p).data = snippetChars p := by
  unfold snipStr snippetChars
  rw [String.data_append, String.data_append, String.data_append,
    String.data_append]
  rw [show ("  <surface target=\"" : String).data
      = ' ' :: ' ' :: '<' :: ("surface".data ++ ' ' :: "target=\"".data) from rfl]
  rw [show ("\">" : String).data = '"' :: '>' :: ([] : List Char) from rfl]
  rw [show ("</surface>" : String).data = '<' :: "/surface>".data from rfl]
  simp [List.append_assoc]

theorem foldr_snip_data (rest : List (String × String)) :
    (rest.map snipStr).foldr (fun b r => ("\n" : String).data ++ b.data ++ r) []
        ++ '\n' :: "</d-patch>".data
      = afterTail rest := by
  induction rest with
  | nil => rfl
  | cons q r ih =>
      rw [List.map_cons, List.foldr_cons, snip_data]
      rw [show ("\n" : String).data = ['\n'] from rfl]
      rw [show afterTail (q :: r) = '\n' :: (snippetChars q ++ afterTail r) from rfl]
      rw [← ih]
      simp [List.append_assoc]

theorem create_eq_inter (pairs : List (String × String)) :
    create pairs
      = "<d-patch>\n" ++ String.intercalate "\n" (pairs.map snipStr)
          ++ "\n</d-patch>" := rfl

theorem create_data (pairs : List (String × String)) :
    (create pairs).data = '<' :: ("d-patch".data ++ '>' :: topChars pairs) := by
  cases pairs with
  | nil => rfl
  | cons p rest =>
      rw [create_eq_inter, String.data_append, String.data_append,
        List.map_cons, intercalate_data, snip_data]
      rw [show ("\n</d-patch>" : String).data = '\n' :: "</d-patch>".data from rfl]
      rw [show topChars (p :: rest) = afterTail (p :: rest) from rfl]
      rw [show afterTail (p :: rest) = '\n' :: (snippetChars p ++ afterTail rest) from rfl]
      rw [← foldr_snip_data rest]
      rw [show ("<d-patch>\n" : String).data
          = '<' :: ("d-patch".data ++ '>' :: '\n' :: ([] : List Char)) from rfl]
      simp [List.append_assoc]

theorem parseAttrsF_space (fuel : Nat) (c0 : Char) (l : List Char)
    (h : isSpaceChar c0 = true) :
    parseAttrsF (fuel + 1) (c0 :: l) = parseAttrsF fuel l := by
  conv_lhs => unfold parseAttrsF
  rw [if_pos h]

theorem parseAttrsF_gtStep (fuel : Nat) (l : List Char) :
    parseAttrsF (fuel + 1) ('>' :: l) = ([], l) := by
  conv_lhs => unfold parseAttrsF
  rw [if_neg (by decide), if_pos rfl]

theorem parseAttrsF_name_quoted (fuel : Nat) (c0 : Char) (rest0 : List Char)
    (hs : isSpaceChar c0 = false) (hgt : ¬ c0 = '>') (htc : isTagChar c0 = true)
    (N V l : List Char)
    (hname : (c0 :: rest0).takeWhile isTagChar = N)
    (hdrop : (c0 :: rest0).dropWhile isTagChar = '=' :: '"' :: (V ++ '"' :: l))
    (hV : ∀ c ∈ V, ¬ c = '"') :
    parseAttrsF (fuel + 1) (c0 :: rest0)
      = ((String.mk N, String.mk (decodeEntities V)) :: (parseAttrsF fuel l).1,
         (parseAttrsF fuel l).2) := by
  conv_lhs => unfold parseAttrsF
  rw [if_neg (by simp [hs]), if_neg hgt, if_pos htc, hname, hdrop]
  have hstop := takeWhile_append_stop (fun ch => ¬ ch = '"') V '"' l
    (fun c hc => by simpa using hV c hc) (by simp)
  simp only [List.take, List.drop, hstop.1, hstop.2, if_true]

theorem parseNodesF_nil (fuel : Nat) : parseNodesF (fuel + 1) [] = ([], []) := rfl

theorem parseNodesF_stop (fuel : Nat) (rest : List Char)
    (hhead : rest.head? = some '/') :
    parseNodesF (fuel + 1) ('<' :: rest) = ([], '<' :: rest) := by
  conv_lhs => unfold parseNodesF
  rw [if_pos rfl, if_pos hhead]

theorem parseNodesF_textStep (fuel : Nat) (c : Char) (rest : List Char)
    (hc : ¬ c = '<') (R after : List Char)
    (htake : (c :: rest).takeWhile (fun ch => ¬ ch = '<') = R)
    (hdropw : (c :: rest).dropWhile (fun ch => ¬ ch = '<') = after) :
    parseNodesF (fuel + 1) (c :: rest)
      = (.text (String.mk (decodeEntities R)) :: (parseNodesF fuel after).1,
         (parseNodesF fuel after).2) := by
  conv_lhs => unfold parseNodesF
  rw [if_neg hc, htake, hdropw]

theorem parseNodesF_elemStep (fuel : Nat) (rest : List Char) (T afterT : List Char)
    (hhead : rest.head? ≠ some '/')
    (htag : rest.takeWhile isTagChar = T) (hT : ¬ T = [])
    (hdrop : rest.dropWhile isTagChar = afterT) :
    parseNodesF (fuel + 1) ('<' :: rest)
      = (.elem (String.mk T)
            (parseAttrsF (afterT.length + 1) afterT).1
            (parseNodesF fuel (parseAttrsF (afterT.length + 1) afterT).2).1
          :: (parseNodesF fuel (dropCloseTag
               (parseNodesF fuel (parseAttrsF (afterT.length + 1) afterT).2).2)).1,
         (parseNodesF fuel (dropCloseTag
           (parseNodesF fuel (parseAttrsF (afterT.length + 1) afterT).2).2)).2) := by
  conv_lhs => unfold parseNodesF
  rw [if_pos rfl, if_neg hhead, htag, hdrop, if_neg hT]

theorem dropCloseTag_close (R l : List Char) (hR : ∀ c ∈ R, ¬ c = '>') :
    dropCloseTag ('<' :: '/' :: (R ++ '>' :: l)) = l := by
  unfold dropCloseTag
  rw [if_pos (show List.take 2 ('<' :: '/' :: (R ++ '>' :: l)) = ['<', '/'] from rfl)]
  rw [show List.drop 2 ('<' :: '/' :: (R ++ '>' :: l)) = R ++ '>' :: l from rfl]
  have hstop := takeWhile_append_stop (fun ch => ¬ ch = '>') R '>' l
    (fun c hc => by simpa using hR c hc) (by simp)
  rw [hstop.2]
  rfl

/-- The characters of one surface line from `<` on, with continuation `k`. -/
def surfaceBody (p : String × String) (k : List Char) : List Char :=
  "surface".data ++ ' ' :: ("target=\"".data
    ++ (p.1.data ++ '"' :: '>' :: (p.2.data ++ '<' :: ("/surface>".data ++ k))))

theorem string_eq_empty_iff (s : String) : s = "" ↔ s.data = [] := by
  cases s with
  | mk d => simp [String.ext_iff]

theorem parseAttrs_target_run (V Z : List Char) (f : Nat)
    (hV : ∀ c ∈ V, ¬ c = '"') :
    parseAttrsF (f + 3) (' ' :: ("target=\"".data ++ (V ++ '"' :: '>' :: Z)))
      = ([("target", String.mk (decodeEntities V))], Z) := by
  rw [parseAttrsF_space (f + 2) ' ' _ (by decide)]
  rw [show ("target=\"".data ++ (V ++ '"' :: '>' :: Z))
      = 't' :: ("arget=\"".data ++ (V ++ '"' :: '>' :: Z)) from rfl]
  have hgrp : ('t' :: ("arget=\"".data ++ (V ++ '"' :: '>' :: Z)))
      = "target".data ++ '=' :: '"' :: (V ++ '"' :: ('>' :: Z)) := rfl
  have hstop := takeWhile_append_stop isTagChar "target".data '='
    ('"' :: (V ++ '"' :: ('>' :: Z))) (by decide) (by decide)
  rw [parseAttrsF_name_quoted (f + 1) 't' _ (by decide) (by decide) (by decide)
    "target".data V ('>' :: Z)
    (by rw [hgrp]; exact hstop.1)
    (by rw [hgrp]; exact hstop.2)
    hV]
  rw [parseAttrsF_gtStep f Z]

theorem parse_surfaceStep (p : String × String) (k : List Char) (f : Nat)
    (hf : 2 ≤ f)
    (hT : ∀ c ∈ p.1.data, ¬ c = '"' ∧ ¬ c = '&')
    (hC : ∀ c ∈ p.2.data, ¬ c = '<' ∧ ¬ c = '&' ∧ ¬ c = '>') :
    parseNodesF (f + 1) ('<' :: surfaceBody p k)
      = (surfNode p :: (parseNodesF f k).1, (parseNodesF f k).2) := by
  obtain ⟨g, rfl⟩ : ∃ g, f = g + 2 := ⟨f - 2, by omega⟩
  have htag := takeWhile_append_stop isTagChar "surface".data ' '
    ("target=\"".data ++ (p.1.data ++ '"' :: '>' :: (p.2.data
      ++ '<' :: ("/surface>".data ++ k)))) (by decide) (by decide)
  rw [parseNodesF_elemStep (g + 2) (surfaceBody p k) "surface".data
    (' ' :: ("target=\"".data ++ (p.1.data ++ '"' :: '>' :: (p.2.data
      ++ '<' :: ("/surface>".data ++ k)))))
    (by rw [show (surfaceBody p k).head? = some 's' from rfl]; decide)
    htag.1 (by decide) htag.2]
  rw [show (' ' :: ("target=\"".data ++ (p.1.data ++ '"' :: '>' :: (p.2.data
      ++ '<' :: ("/surface>".data ++ k))))).length + 1
      = (p.1.data.length
          + (p.2.data ++ '<' :: ("/surface>".data ++ k)).length + 9) + 3 from by
    simp [List.length_append]
    omega]
  rw [parseAttrs_target_run p.1.data (p.2.data ++ '<' :: ("/surface>".data ++ k))
    _ (fun c hc => (hT c hc).1)]
  rw [decodeEntities_id p.1.data (fun c hc => (hT c hc).2), mk_data_eq]
  dsimp only
  cases hc2 : p.2.data with
  | nil =>
      have hp2 : p.2 = "" := (string_eq_empty_iff p.2).mpr hc2
      rw [show (([] : List Char) ++ '<' :: ("/surface>".data ++ k))
          = '<' :: ('/' :: ("surface".data ++ '>' :: k)) from rfl]
      rw [parseNodesF_stop (g + 1) ('/' :: ("surface".data ++ '>' :: k)) rfl]
      dsimp only
      rw [dropCloseTag_close "surface".data k (by decide)]
      unfold surfNode
      rw [if_pos hp2]
  | cons c C =>
      have hp2 : ¬ p.2 = "" := by
        rw [string_eq_empty_iff, hc2]
        simp
      have hmem : ∀ x ∈ c :: C, ¬ x = '<' ∧ ¬ x = '&' ∧ ¬ x = '>' := by
        intro x hx
        exact hC x (by rw [hc2]; exact hx)
      have hstop2 := takeWhile_append_stop (fun ch => ¬ ch = '<') (c :: C) '<'
        ("/surface>".data ++ k)
        (fun x hx => by simpa using (hmem x hx).1) (by simp)
      rw [show ((c :: C) ++ '<' :: ("/surface>".data ++ k))
          = c :: (C ++ '<' :: ("/surface>".data ++ k)) from rfl]
      rw [parseNodesF_textStep (g + 1) c (C ++ '<' :: ("/surface>".data ++ k))
        (hmem c (List.mem_cons_self c C)).1 (c :: C) ('<' :: ("/surface>".data ++ k))
        hstop2.1 hstop2.2]
      rw [decodeEntities_id (c :: C) (fun x hx => (hmem x hx).2.1)]
      rw [show ('<' :: ("/surface>".data ++ k))
          = '<' :: ('/' :: ("surface".data ++ '>' :: k)) from rfl]
      rw [parseNodesF_stop g ('/' :: ("surface".data ++ '>' :: k)) rfl]
      dsimp only
      rw [dropCloseTag_close "surface".data k (by decide)]
      unfold surfNode
      rw [if_neg hp2]
      rw [show String.mk (c :: C) = p.2 from by rw [← hc2]]

theorem parse_afterTail (pairs : List (String × String))
    (hp : ∀ p ∈ pairs, (∀ c ∈ p.1.data, ¬ c = '"' ∧ ¬ c = '&')
        ∧ (∀ c ∈ p.2.data, ¬ c = '<' ∧ ¬ c = '&' ∧ ¬ c = '>')) :
    ∀ fuel, 2 * pairs.length + 2 ≤ fuel →
      parseNodesF fuel (afterTail pairs) = (tailNodes pairs, "</d-patch>".data) := by
  induction pairs with
  | nil =>
      intro fuel hf
      obtain ⟨f, rfl⟩ : ∃ f, fuel = f + 2 := ⟨fuel - 2, by omega⟩
      rw [show afterTail [] = '\n' :: ('<' :: "/d-patch>".data) from rfl]
      have htake := takeWhile_append_stop (fun ch => ¬ ch = '<') ['\n'] '<'
        "/d-patch>".data (by decide) (by simp)
      rw [parseNodesF_textStep (f + 1) '\n' ('<' :: "/d-patch>".data) (by decide)
        ['\n'] ('<' :: "/d-patch>".data) htake.1 htake.2]
      rw [parseNodesF_stop f "/d-patch>".data rfl]
      rfl
  | cons p rest ih =>
      intro fuel hf
      have hlenc : (p :: rest).length = rest.length + 1 := rfl
      rw [hlenc] at hf
      obtain ⟨g, rfl⟩ : ∃ g, fuel = g + 3 := ⟨fuel - 3, by omega⟩
      have hstream : afterTail (p :: rest)
          = '\n' :: (' ' :: ' ' :: '<' :: surfaceBody p (afterTail rest)) := by
        rw [show afterTail (p :: rest) = '\n' :: (snippetChars p ++ afterTail rest) from rfl]
        unfold snippetChars surfaceBody
        simp [List.append_assoc]
      rw [hstream]
      have htake := takeWhile_append_stop (fun ch => ¬ ch = '<') ['\n', ' ', ' ']
        '<' (surfaceBody p (afterTail rest)) (by decide) (by simp)
      rw [parseNodesF_textStep (g + 2) '\n'
        (' ' :: ' ' :: '<' :: surfaceBody p (afterTail rest))
        (by decide) ['\n', ' ', ' '] ('<' :: surfaceBody p (afterTail rest))
        htake.1 htake.2]
      rw [parse_surfaceStep p (afterTail rest) (g + 1) (by omega)
        (hp p (List.mem_cons_self p rest)).1 (hp p (List.mem_cons_self p rest)).2]
      rw [ih (fun q hq => hp q (List.mem_cons_of_mem p hq)) (g + 1) (by omega)]
      rfl

theorem afterTail_length (pairs : List (String × String)) :
    2 * pairs.length + 2 ≤ (afterTail pairs).length := by
  induction pairs with
  | nil => decide
  | cons p rest ih =>
      have h1 : (afterTail (p :: rest)).length
          = (snippetChars p).length + (afterTail rest).length + 1 := by
        rw [show afterTail (p :: rest) = '\n' :: (snippetChars p ++ afterTail rest) from rfl]
        simp [List.length_append]
      have h2 : 1 ≤ (snippetChars p).length := by
        rw [show snippetChars p = ' ' :: (' ' :: '<' :: ("surface".data
          ++ ' ' :: ("target=\"".data ++ (p.1.data ++ '"' :: '>' :: (p.2.data
            ++ '<' :: "/surface>".data))))) from rfl]
        simp
      have hlenc : (p :: rest).length = rest.length + 1 := rfl
      rw [hlenc]
      omega

theorem parse_top_nil (f : Nat) :
    parseNodesF (f + 2) ("\n\n</d-patch>".data) = ([.text "\n\n"], "</d-patch>".data) := by
  rw [show ("\n\n</d-patch>".data) = '\n' :: ('\n' :: ('<' :: "/d-patch>".data)) from rfl]
  have htake := takeWhile_append_stop (fun ch => ¬ ch = '<') ['\n', '\n'] '<'
    "/d-patch>".data (by decide) (by simp)
  rw [parseNodesF_textStep (f + 1) '\n' ('\n' :: '<' :: "/d-patch>".data) (by decide)
    ['\n', '\n'] ('<' :: "/d-patch>".data) htake.1 htake.2]
  rw [parseNodesF_stop f "/d-patch>".data rfl]
  rfl

theorem parseDoc_create (pairs : List (String × String))
    (hp : ∀ p ∈ pairs, (∀ c ∈ p.1.data, ¬ c = '"' ∧ ¬ c = '&')
        ∧ (∀ c ∈ p.2.data, ¬ c = '<' ∧ ¬ c = '&' ∧ ¬ c = '>')) :
    parseDoc (create pairs) = [HNode.elem "d-patch" [] (topNodes pairs)] := by
  unfold parseDoc
  rw [create_data]
  rw [show ('<' :: ("d-patch".data ++ '>' :: topChars pairs)).length + 1
      = ((topChars pairs).length + 9) + 1 from by
    simp [List.length_append]]
  have htag := takeWhile_append_stop isTagChar "d-patch".data '>' (topChars pairs)
    (by decide) (by decide)
  rw [parseNodesF_elemStep ((topChars pairs).length + 9)
    ("d-patch".data ++ '>' :: topChars pairs)
    "d-patch".data ('>' :: topChars pairs)
    (by rw [show ("d-patch".data ++ '>' :: topChars pairs).head? = some 'd' from rfl]
        decide)
    htag.1 (by decide) htag.2]
  rw [show ('>' :: topChars pairs).length + 1 = ((topChars pairs).length + 1) + 1 from by
    simp]
  rw [parseAttrsF_gtStep ((topChars pairs).length + 1) (topChars pairs)]
  have hchild : parseNodesF ((topChars pairs).length + 9) (topChars pairs)
      = (topNodes pairs, "</d-patch>".data) := by
    cases pairs with
    | nil =>
        rw [show ((topChars ([] : List (String × String))).length + 9) = 19 + 2 from rfl]
        exact parse_top_nil 19
    | cons p rest =>
        rw [show topChars (p :: rest) = afterTail (p :: rest) from rfl]
        exact parse_afterTail (p :: rest) hp _
          (by have := afterTail_length (p :: rest); omega)
  rw [hchild]
  dsimp only
  rw [show (['<', '/', 'd', '-', 'p', 'a', 't', 'c', 'h', '>'] : List Char)
      = '<' :: ('/' :: ("d-patch".data ++ '>' :: ([] : List Char))) from rfl]
  rw [dropCloseTag_close "d-patch".data ([] : List Char) (by decide)]
  rw [show (topChars pairs).length + 9 = ((topChars pairs).length + 8) + 1 from rfl]
  rw [parseNodesF_nil ((topChars pairs).length + 8)]

theorem desc_tailNodes (rest : List (String × String)) :
    descElemsL "surface" (tailNodes rest) = rest.map surfNode := by
  induction rest with
  | nil => rfl
  | cons p r ih =>
      have h2 : descElemsN "surface" (surfNode p) = [surfNode p] := by
        unfold surfNode
        by_cases hq : p.2 = ""
        · rw [if_pos hq]
          rfl
        · rw [if_neg hq]
          rfl
      rw [show tailNodes (p :: r)
          = .text "\n  " :: surfNode p :: tailNodes r from rfl]
      rw [show descElemsL "surface" (HNode.text "\n  " :: surfNode p :: tailNodes r)
          = descElemsN "surface" (HNode.text "\n  ")
            ++ (descElemsN "surface" (surfNode p)
              ++ descElemsL "surface" (tailNodes r)) from rfl]
      rw [ih, h2]
      rfl

theorem desc_topNodes (pairs : List (String × String)) :
    descElemsL "surface" (topNodes pairs) = pairs.map surfNode := by
  cases pairs with
  | nil => rfl
  | cons p rest => exact desc_tailNodes (p :: rest)

theorem process_map (pairs : List (String × String))
    (hp : ∀ p ∈ pairs, ¬ p.1 = ""
        ∧ (∀ c ∈ p.2.data, ¬ c = '<' ∧ ¬ c = '&' ∧ ¬ c = '>')) :
    processSurfaces (pairs.map surfNode) = (pairs, []) := by
  induction pairs with
  | nil => rfl
  | cons p rest ih =>
      have hpp := hp p (List.mem_cons_self p rest)
      have hcontent : contentOf (surfNode p) = p.2 := by
        unfold contentOf surfNode
        by_cases hq : p.2 = ""
        · rw [if_pos hq, hq]
          rfl
        · rw [if_neg hq]
          rw [show hchildren (HNode.elem "surface" [("target", p.1)] [HNode.text p.2])
              = [HNode.text p.2] from rfl]
          rw [show findElemL "template" [HNode.text p.2] = none from rfl]
          rw [show innerHTML (HNode.elem "surface" [("target", p.1)] [HNode.text p.2])
              = escText p.2 ++ "" from rfl]
          rw [escText_id p.2 (fun c hc =>
            ⟨(hpp.2 c hc).2.1, (hpp.2 c hc).1, (hpp.2 c hc).2.2⟩)]
          exact String.append_empty p.2
      rw [List.map_cons]
      simp only [processSurfaces]
      rw [show Cell.getAttribute (hattrs (surfNode p)) "target" = some p.1 from by
        unfold surfNode
        simp [Cell.getAttribute]]
      dsimp only
      rw [if_neg hpp.1]
      rw [hcontent, ih (fun q hq => hp q (List.mem_cons_of_mem p hq))]

end Patch

/-- C8: `Patch.parse ∘ Patch.create` round-trip. The claimed unconditional
round-trip fails (`patch_roundtrip_counterexample`: a content whose top
level is a `<template>` wrapper comes back unwrapped, because `parse`
prefers a nested template's inner markup; escaping-sensitive characters
diverge similarly). For every pair list whose targets are non-empty and
free of `"` and `&`, and whose contents are markup-free text (no `<`, `&`,
`>`), `Patch.parse (Patch.create pairs)` recovers exactly the original
pairs with no warnings — including the empty list and contents that are
empty strings. -/
theorem patch_roundtrip (pairs : List (String × String))
    (hp : ∀ p ∈ pairs, ¬ p.1 = ""
        ∧ (∀ c ∈ p.1.data, ¬ c = '"' ∧ ¬ c = '&')
        ∧ (∀ c ∈ p.2.data, ¬ c = '<' ∧ ¬ c = '&' ∧ ¬ c = '>')) :
    Patch.parse (Patch.create pairs) = (pairs, []) := by
  unfold Patch.parse
  rw [Patch.parseDoc_create pairs (fun p hp2 => ⟨(hp p hp2).2.1, (hp p hp2).2.2⟩)]
  rw [show Patch.findElemL "d-patch"
        [Patch.HNode.elem "d-patch" [] (Patch.topNodes pairs)]
      = some (Patch.HNode.elem "d-patch" [] (Patch.topNodes pairs)) from rfl]
  dsimp only
  rw [show Patch.hchildren (Patch.HNode.elem "d-patch" [] (Patch.topNodes pairs))
      = Patch.topNodes pairs from rfl]
  rw [Patch.desc_topNodes]
  exact Patch.process_map pairs (fun p hp2 => ⟨(hp p hp2).1, (hp p hp2).2.2⟩)

/-- C8 counterexample: a single pair whose content is wrapped in
`<template>` does not round-trip — `parse` returns the template's inner
markup, stripping the wrapper the caller supplied. -/
theorem patch_roundtrip_counterexample :
    Patch.parse (Patch.create [("#a", "<template>X</template>")])
      = ([("#a", "X")], []) ∧
    ([("#a", "X")] : List (String × String)) ≠ [("#a", "<template>X</template>")] :=
  ⟨rfl, by decide⟩

/-- Witness for C8 on a concrete two-surface pair list. -/
theorem patch_roundtrip_witness :
    Patch.parse (Patch.create [("#a", "X"), ("#b", "hello world")])
      = ([("#a", "X"), ("#b", "hello world")], []) :=
  patch_roundtrip [("#a", "X"), ("#b", "hello world")] (by decide)



/-- C9: patch.js `parse` is total — the model is a total function on every
input text — and its observable behaviour is characterised: a text with no
`d-patch` wrapper yields the empty list plus the no-patch warning (never an
exception); with a wrapper, the pair list collects exactly the `surface`
regions carrying a non-empty `target` attribute, pairing the target with the
inner markup of a nested `template` wrapper if present, else the region's
own inner markup, while every region whose `target` is absent — or present
but empty, which the code's falsy test also skips, a divergence from the
claim — yields a warning and the remaining regions are still parsed. -/
theorem patch_parse_characterization (html : String) :
    (Patch.findElemL "d-patch" (Patch.parseDoc html) = none →
       Patch.parse html = ([], [Patch.PatchWarn.noPatch])) ∧
    (∀ pe, Patch.findElemL "d-patch" (Patch.parseDoc html) = some pe →
       Patch.parse html
         = ((Patch.descElemsL "surface" (Patch.hchildren pe)).filterMap (fun s =>
              match Cell.getAttribute (Patch.hattrs s) "target" with
              | some t => if t = "" then none else some (t, Patch.contentOf s)
              | none => none),
            (Patch.descElemsL "surface" (Patch.hchildren pe)).filterMap (fun s =>
              match Cell.getAttribute (Patch.hattrs s) "target" with
              | some t => if t = "" then some Patch.PatchWarn.missingTarget else none
              | none => some Patch.PatchWarn.missingTarget))) := by
  constructor
  · intro h
    unfold Patch.parse
    rw [h]
  · intro pe h
    unfold Patch.parse
    rw [h]
    exact Patch.processSurfaces_spec _

/-- C9 counterexample: a `surface` region whose `target` attribute is
present but empty is skipped with a warning — the attribute exists on the
parsed element, yet no pair is produced, against the claim that every
region with a target attribute contributes one pair. -/
theorem patch_parse_empty_target_counterexample :
    Patch.parseDoc "<d-patch><surface target=\"\">X</surface></d-patch>"
        = [.elem "d-patch" [] [.elem "surface" [("target", "")] [.text "X"]]] ∧
    Patch.parse "<d-patch><surface target=\"\">X</surface></d-patch>"
        = ([], [Patch.PatchWarn.missingTarget]) :=
  ⟨rfl, rfl⟩

/-- Witness for C9: the spec's concrete no-wrapper and skip-continue
scenarios, via the characterisation theorem. -/
theorem patch_parse_characterization_witness :
    Patch.parse "hello" = ([], [Patch.PatchWarn.noPatch]) ∧
    Patch.parse "<d-patch><surface>A</surface><surface target=\"#b\">B</surface></d-patch>"
      = ([("#b", "B")], [Patch.PatchWarn.missingTarget]) :=
  ⟨(patch_parse_characterization "hello").1 rfl,
   ((patch_parse_characterization
        "<d-patch><surface>A</surface><surface target=\"#b\">B</surface></d-patch>").2
      (.elem "d-patch" []
        [.elem "surface" [] [.text "A"],
         .elem "surface" [("target", "#b")] [.text "B"]])
      rfl).trans rfl⟩
